import Mathlib

/-!
# protoc-gen-twirp_js: the descriptor-to-text generator of `main.go`

A shallow embedding of `src/main.go` and the properties of its naming rules,
its line emitter and its per-file, per-service, per-method traversal.

Go strings are byte sequences: a `GoString` is the list of the byte values.
A Go run-time panic (nil dereference, slice or index out of range) is the
`error` side of `Except Panic`.  The parts of the repository that `main.go`
imports but that are not part of this file (`gen.Version`,
`stringutils.CamelCase`, `gen.FilesToGenerate`, `typemap.New` and the
registry's comment lookups) and the Unicode tables of the Go library are
fields of `Deps`.
-/

namespace TwirpJS

/-! ## Go strings and the library functions `main.go` calls -/

/-- A Go string: its bytes, each a value below 256. -/
abbrev GoString := List Nat

/-- The run-time panics the code can raise. -/
inductive Panic where
  | nilDereference
  | sliceBounds
  | indexRange
deriving DecidableEq, Repr

deriving instance DecidableEq for Except

/-- The rune U+FFFD that Go's decoder reports for invalid UTF-8. -/
def RuneError : Nat := 0xFFFD

/-- Go's `utf8.AppendRune`: the UTF-8 encoding of a rune; surrogates and
out-of-range values are encoded as U+FFFD. -/
def encodeRune (r : Nat) : GoString :=
  if r < 0x80 then [r]
  else if r < 0x800 then [0xC0 + r / 64, 0x80 + r % 64]
  else if (0xD800 ≤ r ∧ r ≤ 0xDFFF) ∨ 0x10FFFF < r then [0xEF, 0xBF, 0xBD]
  else if r < 0x10000 then [0xE0 + r / 4096, 0x80 + (r / 64) % 64, 0x80 + r % 64]
  else [0xF0 + r / 262144, 0x80 + (r / 4096) % 64, 0x80 + (r / 64) % 64, 0x80 + r % 64]

/-- A Go string literal: the UTF-8 bytes of the text. -/
def str (s : String) : GoString := s.data.flatMap (fun c => encodeRune c.toNat)

/-- Go's `utf8.DecodeRuneInString`: the first rune of `s` and its width in
bytes; `(RuneError, 1)` for an invalid or truncated encoding and
`(RuneError, 0)` for the empty string. -/
def decodeRune : GoString → Nat × Nat
  | [] => (RuneError, 0)
  | s0 :: t =>
    if s0 < 0x80 then (s0, 1)
    else if s0 < 0xC2 ∨ 0xF4 < s0 then (RuneError, 1)
    else
      let sz := if s0 < 0xE0 then 2 else if s0 < 0xF0 then 3 else 4
      let lo := if s0 = 0xE0 then 0xA0 else if s0 = 0xF0 then 0x90 else 0x80
      let hi := if s0 = 0xED then 0x9F else if s0 = 0xF4 then 0x8F else 0xBF
      if t.length + 1 < sz then (RuneError, 1)
      else
        match t with
        | [] => (RuneError, 1)
        | s1 :: t1 =>
          if s1 < lo ∨ hi < s1 then (RuneError, 1)
          else if sz ≤ 2 then ((s0 % 32) * 64 + s1 % 64, 2)
          else
            match t1 with
            | [] => (RuneError, 1)
            | s2 :: t2 =>
              if s2 < 0x80 ∨ 0xBF < s2 then (RuneError, 1)
              else if sz ≤ 3 then ((s0 % 16) * 4096 + (s1 % 64) * 64 + s2 % 64, 3)
              else
                match t2 with
                | [] => (RuneError, 1)
                | s3 :: _ =>
                  if s3 < 0x80 ∨ 0xBF < s3 then (RuneError, 1)
                  else ((s0 % 8) * 262144 + (s1 % 64) * 4096 + (s2 % 64) * 64 + s3 % 64, 4)

/-- A slice expression `s[lo:hi]`: panics unless `0 ≤ lo ≤ hi ≤ len(s)`. -/
def goSlice (s : GoString) (lo hi : Int) : Except Panic GoString :=
  if 0 ≤ lo ∧ lo ≤ hi ∧ hi ≤ (s.length : Int) then
    .ok ((s.take hi.toNat).drop lo.toNat)
  else .error Panic.sliceBounds

/-- An index expression `xs[i]`: panics unless `0 ≤ i < len(xs)`. -/
def goIndex {α : Type} (xs : List α) (i : Int) : Except Panic α :=
  if 0 ≤ i then
    match xs.get? i.toNat with
    | some x => .ok x
    | none => .error Panic.indexRange
  else .error Panic.indexRange

/-- Go's `strings.HasSuffix`. -/
def HasSuffix (s suffix : GoString) : Bool :=
  decide (suffix.length ≤ s.length) && s.drop (s.length - suffix.length) == suffix

/-- Go's `strings.TrimSuffix`. -/
def TrimSuffix (s suffix : GoString) : GoString :=
  if HasSuffix s suffix then s.take (s.length - suffix.length) else s

/-- Go's `strings.HasPrefix`. -/
def HasPrefix (s pre : GoString) : Bool :=
  decide (pre.length ≤ s.length) && s.take pre.length == pre

/-- Go's `strings.TrimPrefix`. -/
def TrimPrefix (s pre : GoString) : GoString :=
  if HasPrefix s pre then s.drop pre.length else s

/-- Go's `strings.Split(s, sep)` for a separator of one byte `sep`, which is
what both call sites pass (`"."` and `"\n"`): the pieces of `s` between the
occurrences of the byte, in order; one piece more than there are
occurrences. -/
def Split : GoString → Nat → List GoString
  | [], _ => [[]]
  | b :: rest, sep =>
    if b = sep then [] :: Split rest sep
    else
      match Split rest sep with
      | [] => [[b]]
      | piece :: pieces => (b :: piece) :: pieces

/-- The loop of Go's `path.Ext`: `n` is `i + 1` for the index `i` the loop
looks at, so `0` is the exit `i < 0`. -/
def extLoop (path : GoString) : Nat → GoString
  | 0 => []
  | i + 1 =>
    if path.getD i 0 = 47 then []
    else if path.getD i 0 = 46 then path.drop i
    else extLoop path i

/-- Go's `path.Ext`: the suffix beginning at the final dot in the final
slash-separated element of the path; empty if there is no dot. -/
def Ext (path : GoString) : GoString := extLoop path path.length

/-- The leftmost match of the pattern `[^/]+$` in `s`: the longest suffix of
`s` without a slash, and the empty string when there is no match (`s` is empty
or ends in a slash).  It stands in `generateFile` for line 64, which is not
valid Go as it is written (the package `regexp` has no function `FindString`,
the method of that name returns one value, and `\/` is no escape of an
interpreted string literal): the definition follows the pattern, not a call
the library offers. -/
def FindString (s : GoString) : GoString :=
  (s.reverse.takeWhile (fun b => b ≠ 47)).reverse

/-- The digit `"0123456789abcdef"[n]` of Go's strconv. -/
def lowerhex (n : Nat) : Nat := if n < 10 then 48 + n else 87 + n

/-- Go's `strconv.IsPrint`; `wide` is the library's table for the runes above
U+00FF. -/
def IsPrint (wide : Nat → Bool) (r : Nat) : Bool :=
  if r ≤ 0xFF then
    if 0x20 ≤ r ∧ r ≤ 0x7E then true
    else if 0xA1 ≤ r then r ≠ 0xAD
    else false
  else wide r

/-- Go's strconv `appendEscapedRune` for the double quote, neither ASCII-only
nor graphic-only. -/
def appendEscapedRune (wide : Nat → Bool) (r : Nat) : GoString :=
  if r = 34 ∨ r = 92 then [92, r]
  else if IsPrint wide r then encodeRune r
  else if r = 7 then [92, 97]
  else if r = 8 then [92, 98]
  else if r = 12 then [92, 102]
  else if r = 10 then [92, 110]
  else if r = 13 then [92, 114]
  else if r = 9 then [92, 116]
  else if r = 11 then [92, 118]
  else if r < 32 ∨ r = 0x7F then [92, 120, lowerhex (r / 16), lowerhex (r % 16)]
  else if (0xD800 ≤ r ∧ r ≤ 0xDFFF) ∨ 0x10FFFF < r then
    [92, 117, lowerhex 15, lowerhex 15, lowerhex 15, lowerhex 13]
  else if r < 0x10000 then
    [92, 117, lowerhex (r / 4096 % 16), lowerhex (r / 256 % 16), lowerhex (r / 16 % 16),
      lowerhex (r % 16)]
  else
    [92, 85, lowerhex (r / 268435456 % 16), lowerhex (r / 16777216 % 16),
      lowerhex (r / 1048576 % 16), lowerhex (r / 65536 % 16), lowerhex (r / 4096 % 16),
      lowerhex (r / 256 % 16), lowerhex (r / 16 % 16), lowerhex (r % 16)]

/-- The loop of Go's strconv `appendQuotedWith`: one rune of `s` per round.
Every round consumes at least one byte, so `len(s)` rounds of fuel are
enough. -/
def quoteLoop (wide : Nat → Bool) : Nat → GoString → GoString
  | 0, _ => []
  | fuel + 1, s =>
    match s with
    | [] => []
    | s0 :: _ =>
      let rw := if 0x80 ≤ s0 then decodeRune s else (s0, 1)
      (if rw.2 = 1 ∧ rw.1 = RuneError then [92, 120, lowerhex (s0 / 16), lowerhex (s0 % 16)]
       else appendEscapedRune wide rw.1) ++ quoteLoop wide fuel (s.drop rw.2)

/-- Go's `strconv.Quote`: a double-quoted Go string literal of `s`. -/
def Quote (wide : Nat → Bool) (s : GoString) : GoString :=
  [34] ++ quoteLoop wide s.length s ++ [34]

/-- Go's `unicode.ToLower`; `table` is the library's case table for the runes
above ASCII. -/
def unicodeToLower (table : Nat → Nat) (r : Nat) : Nat :=
  if r ≤ 0x7F then (if 65 ≤ r ∧ r ≤ 90 then r + 32 else r) else table r

/-- The loop of Go's `strings.Map(unicode.ToLower, s)`: every rune of `s`,
an invalid byte counting as U+FFFD, is replaced by the encoding of its image. -/
def mapLoop (table : Nat → Nat) : Nat → GoString → GoString
  | 0, _ => []
  | fuel + 1, s =>
    match s with
    | [] => []
    | _ :: _ =>
      let rw := decodeRune s
      encodeRune (unicodeToLower table rw.1) ++ mapLoop table fuel (s.drop rw.2)

/-- Go's `strings.ToLower`: the ASCII fast path for a string of ASCII bytes,
`strings.Map(unicode.ToLower, s)` otherwise. -/
def ToLower (table : Nat → Nat) (s : GoString) : GoString :=
  if s.all (fun c => decide (c < 0x80)) then
    s.map (fun c => if 65 ≤ c ∧ c ≤ 90 then c + 32 else c)
  else mapLoop table s.length s

/-! ## Descriptors, the request and the response -/

/-- The comments of a definition, as the registry returns them. -/
structure DefinitionComments where
  Leading : GoString
  Trailing : GoString
  LeadingDetached : List GoString

/-- A method descriptor as the generator holds it, through a pointer
(`*descriptor.MethodDescriptorProto`): the fields the generator reads, each an
optional string as in the Go descriptor types, and the address `addr` of the
descriptor.  The generator never reads the address; it hands the pointer to
the comment index, which can so tell apart two descriptors whose fields are
equal. -/
structure MethodDescriptorProto where
  Name : Option GoString
  InputType : Option GoString
  OutputType : Option GoString
  addr : Nat := 0

/-- A service descriptor, held through a pointer like a method descriptor; its
methods are a slice of pointers. -/
structure ServiceDescriptorProto where
  Name : Option GoString
  Method : List MethodDescriptorProto
  addr : Nat := 0

/-- A file descriptor, held through a pointer like a method descriptor; its
services are a slice of pointers. -/
structure FileDescriptorProto where
  Name : Option GoString
  Package : Option GoString
  Service : List ServiceDescriptorProto
  addr : Nat := 0

/-- The getter of an optional string field: the empty string when unset. -/
def getString (field : Option GoString) : GoString := field.getD []

/-- Getter `GetName` of a method. -/
def MethodDescriptorProto.GetName (m : MethodDescriptorProto) : GoString := getString m.Name

/-- Getter `GetInputType` of a method. -/
def MethodDescriptorProto.GetInputType (m : MethodDescriptorProto) : GoString :=
  getString m.InputType

/-- Getter `GetOutputType` of a method. -/
def MethodDescriptorProto.GetOutputType (m : MethodDescriptorProto) : GoString :=
  getString m.OutputType

/-- Getter `GetName` of a service. -/
def ServiceDescriptorProto.GetName (s : ServiceDescriptorProto) : GoString := getString s.Name

/-- Getter `GetName` of a file. -/
def FileDescriptorProto.GetName (f : FileDescriptorProto) : GoString := getString f.Name

/-- Getter `GetPackage` of a file. -/
def FileDescriptorProto.GetPackage (f : FileDescriptorProto) : GoString := getString f.Package

/-- The code generator request: the target identifiers and all schema files. -/
structure CodeGeneratorRequest where
  FileToGenerate : List GoString
  ProtoFile : List FileDescriptorProto

/-- One generated artifact: `proto.String` sets both fields. -/
structure CodeGeneratorResponse_File where
  Name : Option GoString
  Content : Option GoString

/-- The code generator response: the artifacts in order. -/
structure CodeGeneratorResponse where
  File : List CodeGeneratorResponse_File

/-- The comment index `typemap.Registry` as the generator uses it: its two
lookups, each returning the comments and an error that is `none` when the
definition was found.  Lines 81 and 101 pass the pointers of the file, the
service and the method: a lookup may depend on the addresses of the
descriptors as well as on their fields, so two methods with equal fields at
different addresses may have different documentation. -/
structure Registry where
  ServiceComments : FileDescriptorProto → ServiceDescriptorProto →
    DefinitionComments × Option GoString
  MethodComments : FileDescriptorProto → ServiceDescriptorProto → MethodDescriptorProto →
    DefinitionComments × Option GoString

/-- What `main.go` imports from the rest of the repository and from the Go
library's Unicode tables. -/
structure Deps where
  /-- Constant `gen.Version`. -/
  Version : GoString
  /-- Function `stringutils.CamelCase`. -/
  CamelCase : GoString → GoString
  /-- Function `gen.FilesToGenerate`, the file selector. -/
  FilesToGenerate : CodeGeneratorRequest → List FileDescriptorProto
  /-- Function `typemap.New`, which builds the comment index. -/
  typemapNew : List FileDescriptorProto → Registry
  /-- Table of `strconv.IsPrint` above U+00FF. -/
  printTable : Nat → Bool
  /-- Table of `unicode.ToLower` above ASCII. -/
  lowerTable : Nat → Nat

/-! ## The generator of `main.go` -/

/-- The generator: the comment index (a nil pointer until `Generate` sets it)
and the output buffer. -/
structure generator where
  reg : Option Registry
  output : GoString

/-- Lines 33-35. -/
def newGenerator : generator := { reg := none, output := [] }

/-- Lines 127-132: write every fragment, then the byte of a newline. -/
def generator.P (g : generator) (args : List GoString) : generator :=
  let g1 := args.foldl (fun (h : generator) v => { h with output := h.output ++ v }) g
  { g1 with output := g1.output ++ [10] }

/-- Lines 134-139. -/
def generator.printComments (g : generator) (comments : DefinitionComments)
    (pre : GoString) : generator :=
  let text := TrimSuffix comments.Leading (str "\n")
  (Split text 10).foldl (fun (h : generator) line => h.P [pre, TrimPrefix line (str " ")]) g

/-- Lines 141-143. -/
def serviceName (E : Deps) (service : ServiceDescriptorProto) : GoString :=
  E.CamelCase service.GetName

/-- Lines 145-147. -/
def clientName (E : Deps) (service : ServiceDescriptorProto) : GoString :=
  serviceName E service ++ str "Client"

/-- Lines 149-155. -/
def fullServiceName (E : Deps) (file : FileDescriptorProto)
    (service : ServiceDescriptorProto) : GoString :=
  let name := serviceName E service
  let pkg := file.GetPackage
  if pkg ≠ [] then pkg ++ str "." ++ name else name

/-- Lines 157-160. -/
def methodName (E : Deps) (method : MethodDescriptorProto) : GoString :=
  E.CamelCase method.GetName

/-- Lines 162-166. -/
def methodTypesNames (meth : MethodDescriptorProto) : Except Panic (GoString × GoString) := do
  let inp := Split meth.GetInputType 46
  let out := Split meth.GetOutputType 46
  let a ← goIndex inp ((inp.length : Int) - 1)
  let b ← goIndex out ((out.length : Int) - 1)
  pure (a, b)

/-- Lines 168-174; `*f.Name` dereferences the pointer. -/
def baseFileName (f : FileDescriptorProto) : Except Panic GoString := do
  let name ← (match f.Name with
    | none => Except.error Panic.nilDereference
    | some n => Except.ok n)
  let ext := Ext name
  let name ← (if ext = str ".proto" ∨ ext = str ".protodevel" then
      goSlice name 0 ((name.length : Int) - (ext.length : Int))
    else Except.ok name)
  pure (name ++ str "_pb")

/-- The registry of a generator; a lookup through the nil pointer panics. -/
def generator.registry (g : generator) : Except Panic Registry :=
  match g.reg with
  | none => Except.error Panic.nilDereference
  | some r => Except.ok r

/-- Lines 82-88 of `generateProtobufClient`: the documentation block of a
service, from the result `(comments, err)` of the lookup of line 81. -/
def generator.serviceDoc (g : generator) (cName : GoString)
    (lookup : DefinitionComments × Option GoString) : generator :=
  let g := g.P [str "/**"]
  let g := if lookup.2 = none ∧ lookup.1.Leading ≠ [] then
      g.printComments lookup.1 (str " * ")
    else g.P [str " * Creates a new ", cName]
  g.P [str " */"]

/-- Line 96 of `generateProtobufClient`:
`jsMethodName := strings.ToLower(methName[0:1]) + methName[1:]`. -/
def jsMethodName (E : Deps) (methName : GoString) : Except Panic GoString := do
  let first ← goSlice methName 0 1
  let rest ← goSlice methName 1 (methName.length : Int)
  pure (ToLower E.lowerTable first ++ rest)

/-- Lines 95-120 of `generateProtobufClient`: the body of the loop over the
methods, for the method at index `i` of `l`. -/
def generator.generateMethod (E : Deps) (g : generator) (file : FileDescriptorProto)
    (service : ServiceDescriptorProto) (l i : Int) (method : MethodDescriptorProto) :
    Except Panic generator := do
  let methName := methodName E method
  let jsName ← jsMethodName E methName
  let names ← methodTypesNames method
  let outputName := names.2
  let reg ← g.registry
  let lookup := reg.MethodComments file service method
  let g := if lookup.2 = none ∧ lookup.1.Leading ≠ [] then
      ((g.P [str "        /**"]).printComments lookup.1 (str "         * ")).P [str "         */"]
    else g
  let trailingComma := if i = l - 1 then str "" else str ","
  pure (g.P [str "        ", jsName, str ": function(data) \x7b return rpc(",
    Quote E.printTable methName, str ", data, pb.", outputName, str "); \x7d", trailingComma])

/-- Lines 94-121: the loop `for i, method := range service.Method`, at the
index `i` with the methods from `i` on. -/
def generator.methodLoop (E : Deps) (file : FileDescriptorProto)
    (service : ServiceDescriptorProto) (l : Int) :
    Int → List MethodDescriptorProto → generator → Except Panic generator
  | _, [], g => Except.ok g
  | i, method :: rest, g => do
    let g ← g.generateMethod E file service l i method
    generator.methodLoop E file service l (i + 1) rest g

/-- Lines 79-125. -/
def generator.generateProtobufClient (E : Deps) (g : generator) (file : FileDescriptorProto)
    (service : ServiceDescriptorProto) : Except Panic generator := do
  let cName := clientName E service
  let reg ← g.registry
  let lookup := reg.ServiceComments file service
  let g := g.serviceDoc cName lookup
  let g := g.P [str "module.exports.create", clientName E service,
    str " = function(baseurl, extraHeaders, useJSON) \x7b"]
  let g := g.P [str "    var rpc = createClient(baseurl, ",
    Quote E.printTable (fullServiceName E file service), str ", ",
    Quote E.printTable E.Version,
    str ",  useJSON, extraHeaders === undefined ? \x7b\x7d : extraHeaders);"]
  let g := g.P [str "    return \x7b"]
  let l : Int := service.Method.length
  let g ← generator.methodLoop E file service l 0 service.Method g
  let g := g.P [str "    \x7d"]
  let g := g.P [str "\x7d"]
  pure (g.P [])

/-- Lines 68-70: the loop over the services of a file. -/
def generator.serviceLoop (E : Deps) (file : FileDescriptorProto) :
    List ServiceDescriptorProto → generator → Except Panic generator
  | [], g => Except.ok g
  | service :: rest, g => do
    let g ← g.generateProtobufClient E file service
    generator.serviceLoop E file rest g

/-- Lines 56-77; the result is the pointer to the artifact and the generator
with its buffer reset. -/
def generator.generateFile (E : Deps) (g : generator) (file : FileDescriptorProto) :
    Except Panic (Option CodeGeneratorResponse_File × generator) := do
  let g := g.P [str "/**"]
  let g := g.P [str " * Code generated by protoc-gen-twirp_js ", E.Version, str ", DO NOT EDIT."]
  let g := g.P [str " * source: ", file.GetName]
  let g := g.P [str " */"]
  let g := g.P [str "// import our twirp js library dependency"]
  let g := g.P [str "var createClient = require(\"twirp\");"]
  let g := g.P [str "// import our protobuf definitions"]
  let base ← baseFileName file
  let found := FindString base
  let g := g.P [str "var pb = require(", Quote E.printTable (str "./" ++ found ++ str ".js"),
    str ");"]
  let g := g.P [str "Object.assign(module.exports, pb);"]
  let g := g.P []
  let g ← generator.serviceLoop E file file.Service g
  let base ← baseFileName file
  let resp : CodeGeneratorResponse_File :=
    { Name := some (base ++ str "_twirp.js"), Content := some g.output }
  pure (some resp, { g with output := [] })

/-- Lines 47-52: the loop over the selected files. -/
def generator.generateLoop (E : Deps) :
    List FileDescriptorProto → generator → CodeGeneratorResponse →
      Except Panic (CodeGeneratorResponse × generator)
  | [], g, resp => Except.ok (resp, g)
  | f :: rest, g, resp => do
    let r ← g.generateFile E f
    let resp := match r.1 with
      | some respFile => { resp with File := resp.File ++ [respFile] }
      | none => resp
    generator.generateLoop E rest r.2 resp

/-- Lines 42-55. -/
def generator.Generate (E : Deps) (g : generator) (req : CodeGeneratorRequest) :
    Except Panic (CodeGeneratorResponse × generator) :=
  let genFiles := E.FilesToGenerate req
  let g := { g with reg := some (E.typemapNew req.ProtoFile) }
  generator.generateLoop E genFiles g { File := [] }

/-! ## Auxiliary definitions for the statements -/

/-- The generator `g` with the text `t` appended to its buffer. -/
def generator.emit (g : generator) (t : GoString) : generator :=
  { reg := g.reg, output := g.output ++ t }

/-- One emitted line: the fragments joined with no separator, then a newline. -/
def lineOf (frags : List GoString) : GoString := frags.flatten ++ [10]

/-- The naming rule in the words of the specification: the path with a
trailing `.proto` or `.protodevel` removed when it ends in one of them. -/
def stripExtension (p : GoString) : GoString :=
  if str ".proto" <:+ p then p.take (p.length - (str ".proto").length)
  else if str ".protodevel" <:+ p then p.take (p.length - (str ".protodevel").length)
  else p

/-- The artifact name in the words of the specification: strip the extension,
append `_pb`, then append `_twirp.js`. -/
def specArtifactName (p : GoString) : GoString :=
  stripExtension p ++ str "_pb" ++ str "_twirp.js"

/-- The stub name line 96 computes from a camel-cased name, without the
bounds checks of its two slices. -/
def stubName (E : Deps) (c : GoString) : GoString :=
  ToLower E.lowerTable (c.take 1) ++ c.drop 1

/-- The last piece of a type reference split at its dots. -/
def lastSegment (t : GoString) : GoString := ((Split t 46).getLast?).getD []

/-- The lines `printComments` emits for a leading text. -/
def commentText (pre L : GoString) : GoString :=
  ((Split (TrimSuffix L (str "\n")) 10).map
    (fun l => lineOf [pre, TrimPrefix l (str " ")])).flatten

/-- A lookup that found a non-empty leading text. -/
def documented (lookup : DefinitionComments × Option GoString) : Prop :=
  lookup.2 = none ∧ lookup.1.Leading ≠ []

instance (lookup : DefinitionComments × Option GoString) : Decidable (documented lookup) := by
  unfold documented
  infer_instance

/-- The comment block of a method: empty unless the method is documented. -/
def methodDocText (lookup : DefinitionComments × Option GoString) : GoString :=
  if documented lookup then
    lineOf [str "        /**"] ++ commentText (str "         * ") lookup.1.Leading
      ++ lineOf [str "         */"]
  else []

/-- The stub entry of a method, without its line terminator; `comma` is the
separator that follows it. -/
def stubEntry (E : Deps) (method : MethodDescriptorProto) (comma : GoString) : GoString :=
  str "        " ++ stubName E (methodName E method) ++ str ": function(data) \x7b return rpc("
    ++ Quote E.printTable (methodName E method) ++ str ", data, pb."
    ++ lastSegment method.GetOutputType ++ str "); \x7d" ++ comma

/-- The separator after the entry at index `i` of `l`. -/
def commaAt (l i : Int) : GoString := if i = l - 1 then str "" else str ","

/-- Everything emitted for the method at index `i`. -/
def methodText (E : Deps) (reg : Registry) (file : FileDescriptorProto)
    (service : ServiceDescriptorProto) (l i : Int) (method : MethodDescriptorProto) :
    GoString :=
  methodDocText (reg.MethodComments file service method)
    ++ (stubEntry E method (commaAt l i) ++ [10])

/-- Everything emitted for the methods from index `i` on. -/
def methodsText (E : Deps) (reg : Registry) (file : FileDescriptorProto)
    (service : ServiceDescriptorProto) (l : Int) :
    Int → List MethodDescriptorProto → GoString
  | _, [] => []
  | i, method :: rest =>
    methodText E reg file service l i method ++ methodsText E reg file service l (i + 1) rest

/-- The documentation block of a service. -/
def serviceDocText (cName : GoString) (lookup : DefinitionComments × Option GoString) :
    GoString :=
  lineOf [str "/**"]
    ++ (if documented lookup then commentText (str " * ") lookup.1.Leading
        else lineOf [str " * Creates a new ", cName])
    ++ lineOf [str " */"]

/-- The factory line of a service. -/
def factoryLine (E : Deps) (service : ServiceDescriptorProto) : GoString :=
  str "module.exports.create" ++ clientName E service
    ++ str " = function(baseurl, extraHeaders, useJSON) \x7b"

/-- The line that constructs the RPC client of a service. -/
def rpcLine (E : Deps) (file : FileDescriptorProto) (service : ServiceDescriptorProto) :
    GoString :=
  str "    var rpc = createClient(baseurl, "
    ++ Quote E.printTable (fullServiceName E file service) ++ str ", "
    ++ Quote E.printTable E.Version
    ++ str ",  useJSON, extraHeaders === undefined ? \x7b\x7d : extraHeaders);"

/-- The three lines that close a service block. -/
def clientFootText : GoString := lineOf [str "    \x7d"] ++ lineOf [str "\x7d"] ++ lineOf []

/-- Everything emitted for a service. -/
def clientText (E : Deps) (reg : Registry) (file : FileDescriptorProto)
    (service : ServiceDescriptorProto) : GoString :=
  serviceDocText (clientName E service) (reg.ServiceComments file service)
    ++ (factoryLine E service ++ [10]) ++ (rpcLine E file service ++ [10])
    ++ lineOf [str "    return \x7b"]
    ++ methodsText E reg file service (service.Method.length : Int) 0 service.Method
    ++ clientFootText

/-- Everything emitted for a list of services. -/
def servicesText (E : Deps) (reg : Registry) (file : FileDescriptorProto) :
    List ServiceDescriptorProto → GoString
  | [] => []
  | service :: rest => clientText E reg file service ++ servicesText E reg file rest

/-- The header and the import preamble of a file whose base name is `base`. -/
def preambleText (E : Deps) (file : FileDescriptorProto) (base : GoString) : GoString :=
  lineOf [str "/**"]
    ++ lineOf [str " * Code generated by protoc-gen-twirp_js ", E.Version, str ", DO NOT EDIT."]
    ++ lineOf [str " * source: ", file.GetName]
    ++ lineOf [str " */"]
    ++ lineOf [str "// import our twirp js library dependency"]
    ++ lineOf [str "var createClient = require(\"twirp\");"]
    ++ lineOf [str "// import our protobuf definitions"]
    ++ lineOf [str "var pb = require(",
        Quote E.printTable (str "./" ++ FindString base ++ str ".js"), str ");"]
    ++ lineOf [str "Object.assign(module.exports, pb);"]
    ++ lineOf []

/-- The whole text emitted for a file whose path is `p`. -/
def fileText (E : Deps) (reg : Registry) (file : FileDescriptorProto) (p : GoString) :
    GoString :=
  preambleText E file (stripExtension p ++ str "_pb") ++ servicesText E reg file file.Service

/-- No method of the service has an empty camel-cased name. -/
def serviceNamed (E : Deps) (service : ServiceDescriptorProto) : Prop :=
  ∀ m ∈ service.Method, methodName E m ≠ []

/-- No method of the file has an empty camel-cased name. -/
def fileNamed (E : Deps) (file : FileDescriptorProto) : Prop :=
  ∀ s ∈ file.Service, serviceNamed E s

/-- The artifact of a file when the buffer holds `pre` before the file is
generated. -/
def artifactOf (E : Deps) (reg : Registry) (pre : GoString) (file : FileDescriptorProto) :
    CodeGeneratorResponse_File :=
  { Name := some (specArtifactName file.GetName),
    Content := some (pre ++ fileText E reg file file.GetName) }

/-- The artifacts of a list of files: the buffer holds `pre` before the first
and is empty before each later one. -/
def artifactsOf (E : Deps) (reg : Registry) : GoString → List FileDescriptorProto →
    List CodeGeneratorResponse_File
  | _, [] => []
  | pre, file :: rest => artifactOf E reg pre file :: artifactsOf E reg [] rest

/-- The generator after the files: its buffer is reset once a file was
generated. -/
def afterFiles (g : generator) (files : List FileDescriptorProto) : generator :=
  match files with
  | [] => g
  | _ :: _ => { reg := g.reg, output := [] }

/-- Every file has a path and no method with an empty camel-cased name. -/
def filesWellFormed (E : Deps) (files : List FileDescriptorProto) : Prop :=
  ∀ f ∈ files, f.Name ≠ none ∧ fileNamed E f

/-- The leading text `L` with one final newline removed when present, in the
words of the specification. -/
def withoutFinalNewline (L : GoString) : GoString :=
  if L.getLast? = some 10 then L.dropLast else L

/-- The stub name in the words of the specification: the camel-cased name with
only its first character, the first UTF-8 encoded rune, lower-cased and every
later byte kept. -/
def specStubName (E : Deps) (c : GoString) : GoString :=
  encodeRune (unicodeToLower E.lowerTable (decodeRune c).1) ++ c.drop (decodeRune c).2

/-- The lines of a leading text: the pieces between the newlines of the text
without its final newline. -/
def docLines (L : GoString) : List GoString := Split (withoutFinalNewline L) 10

/-- A line without one leading space, when it has one. -/
def withoutLeadingSpace : GoString → GoString
  | 32 :: t => t
  | l => l

/-- A byte that quoting copies: printable ASCII other than the double quote
and the backslash. -/
def plainByte (b : Nat) : Bool := decide (0x20 ≤ b) && decide (b ≤ 0x7E) && b != 34 && b != 92

/-- The ASCII lower case of a byte: `A`-`Z` become `a`-`z`. -/
def lowerByte (b : Nat) : Nat := if 65 ≤ b ∧ b ≤ 90 then b + 32 else b

/-- The stub entries of a service, one per method in declaration order, each
with the separator of its position. -/
def entryLines (E : Deps) (service : ServiceDescriptorProto) : List GoString :=
  service.Method.mapIdx
    (fun k m => stubEntry E m (commaAt (service.Method.length : Int) (k : Int)))

/-- What each method of a service contributes, in declaration order: its
comment block, empty when it is undocumented, then its stub entry as a line. -/
def methodBlocks (E : Deps) (reg : Registry) (file : FileDescriptorProto)
    (service : ServiceDescriptorProto) : List GoString :=
  service.Method.mapIdx
    (fun k m => methodDocText (reg.MethodComments file service m)
      ++ (stubEntry E m (commaAt (service.Method.length : Int) (k : Int)) ++ str "\n"))

/-- The service without its method at index `i`. -/
def removeMethod (service : ServiceDescriptorProto) (i : Nat) : ServiceDescriptorProto :=
  { service with Method := service.Method.eraseIdx i }

/-- What `generateProtobufClient` has emitted when it enters the loop over the
methods: the documentation block, the factory line, the line constructing the
client and the line `    return {`. -/
def clientHeadText (E : Deps) (reg : Registry) (file : FileDescriptorProto)
    (service : ServiceDescriptorProto) : GoString :=
  serviceDocText (clientName E service) (reg.ServiceComments file service)
    ++ (factoryLine E service ++ str "\n") ++ (rpcLine E file service ++ str "\n")
    ++ str "    return \x7b\n"

/-- A Unicode scalar value: a rune that is not a surrogate and not above
U+10FFFF. -/
def validRune (c : Nat) : Prop := c < 0xD800 ∨ (0xE000 ≤ c ∧ c ≤ 0x10FFFF)

/-- A character that quoting leaves unescaped: a printable scalar value other
than the double quote and the backslash. -/
def unescapedRune (wide : Nat → Bool) (c : Nat) : Prop :=
  validRune c ∧ c ≠ 34 ∧ c ≠ 92 ∧ IsPrint wide c = true

/-- A string made of characters that quoting leaves unescaped: the UTF-8
encoding of a sequence of such characters. -/
def unescapedText (wide : Nat → Bool) (s : GoString) : Prop :=
  ∃ cs : List Nat, s = cs.flatMap encodeRune ∧ ∀ c ∈ cs, unescapedRune wide c

/-- The ten lines of the header and import preamble of a file whose base name
is `base`, each without its line terminator. -/
def preambleLines (E : Deps) (file : FileDescriptorProto) (base : GoString) : List GoString :=
  [str "/**",
   str " * Code generated by protoc-gen-twirp_js " ++ E.Version ++ str ", DO NOT EDIT.",
   str " * source: " ++ file.GetName,
   str " */",
   str "// import our twirp js library dependency",
   str "var createClient = require(\"twirp\");",
   str "// import our protobuf definitions",
   str "var pb = require(" ++ Quote E.printTable (str "./" ++ FindString base ++ str ".js")
     ++ str ");",
   str "Object.assign(module.exports, pb);",
   str ""]

/-! ## Inputs of the examples -/

/-- A comment index without documentation: every lookup reports not-found. -/
def emptyRegistry : Registry where
  ServiceComments := fun _ _ => ({ Leading := [], Trailing := [], LeadingDetached := [] },
    some (str "not found"))
  MethodComments := fun _ _ _ => ({ Leading := [], Trailing := [], LeadingDetached := [] },
    some (str "not found"))

/-- Dependencies of the examples: a version string, a camel-casing that leaves
the examples' names (already in upper camel case) as they are, a selector that
returns the first file of each requested name, the empty comment index, and
the table entry that lower-cases U+00C9 to U+00E9. -/
def exampleDeps : Deps where
  Version := str "v0.1"
  CamelCase := fun s => s
  FilesToGenerate := fun req =>
    req.FileToGenerate.filterMap (fun n => req.ProtoFile.find? (fun f => f.GetName == n))
  typemapNew := fun _ => emptyRegistry
  printTable := fun _ => false
  lowerTable := fun r => if r = 0xC9 then 0xE9 else r

/-- A generator whose comment index is the empty one. -/
def exampleGenerator : generator := { reg := some emptyRegistry, output := [] }

/-- The method `SayHello(HelloReq) returns (HelloResp)` of the end-to-end
scenario. -/
def sayHello : MethodDescriptorProto where
  Name := some (str "SayHello")
  InputType := some (str ".example.HelloReq")
  OutputType := some (str ".example.HelloResp")

/-- The service `Echo` of the end-to-end scenario. -/
def echoService : ServiceDescriptorProto where
  Name := some (str "Echo")
  Method := [sayHello]

/-- The file `example.proto` of the end-to-end scenario. -/
def exampleFile : FileDescriptorProto where
  Name := some (str "example.proto")
  Package := some (str "example")
  Service := [echoService]

/-- The request of the end-to-end scenario. -/
def exampleRequest : CodeGeneratorRequest where
  FileToGenerate := [str "example.proto"]
  ProtoFile := [exampleFile]

/-- A method without a name. -/
def namelessMethod : MethodDescriptorProto where
  Name := none
  InputType := some (str ".example.HelloReq")
  OutputType := some (str ".example.HelloResp")

/-- A service whose only method has no name. -/
def namelessService : ServiceDescriptorProto where
  Name := some (str "Echo")
  Method := [namelessMethod]

/-- A file whose only service is `namelessService`. -/
def namelessFile : FileDescriptorProto where
  Name := some (str "example.proto")
  Package := some (str "example")
  Service := [namelessService]

/-- A request for `namelessFile`. -/
def namelessRequest : CodeGeneratorRequest where
  FileToGenerate := [str "example.proto"]
  ProtoFile := [namelessFile]

/-- A file without a path and without services. -/
def pathlessFile : FileDescriptorProto where
  Name := none
  Package := none
  Service := []

/-- A request for `pathlessFile`, selected by the empty name its getter
returns. -/
def pathlessRequest : CodeGeneratorRequest where
  FileToGenerate := [str ""]
  ProtoFile := [pathlessFile]

/-- A leading text as the comment extraction of protoc delivers it for the
comment line `// a`: a space, the text, a newline. -/
def spacedComment : DefinitionComments where
  Leading := str " a\n"
  Trailing := []
  LeadingDetached := []

/-- A method whose input type is absent and whose output type is the empty
string. -/
def untypedMethod : MethodDescriptorProto where
  Name := some (str "Ping")
  InputType := none
  OutputType := some (str "")

/-- A service whose only method is `untypedMethod`. -/
def untypedService : ServiceDescriptorProto where
  Name := some (str "Echo")
  Method := [untypedMethod]

/-- A second method, `Bye`, for services with more than one method. -/
def byeMethod : MethodDescriptorProto where
  Name := some (str "Bye")
  InputType := some (str ".example.HelloReq")
  OutputType := some (str ".example.ByeResp")

/-- A service with the two methods `SayHello` and `Bye`. -/
def twoMethodService : ServiceDescriptorProto where
  Name := some (str "Echo")
  Method := [sayHello, byeMethod]

/-- A file with a path and no service. -/
def headerOnlyFile : FileDescriptorProto where
  Name := some (str "empty.proto")
  Package := some (str "example")
  Service := []

/-- A method whose name is the letter U+00C9 (bytes `C3 89`) followed by `a`. -/
def accentedMethod : MethodDescriptorProto where
  Name := some [195, 137, 97]
  InputType := some (str ".example.HelloReq")
  OutputType := some (str ".example.HelloResp")

/-- The method `SayHello` held at the address `a`. -/
def twinMethod (a : Nat) : MethodDescriptorProto := { sayHello with addr := a }

/-- A service with two methods whose fields are equal, both `SayHello`, held
at the addresses 1 and 2. -/
def twinService : ServiceDescriptorProto where
  Name := some (str "Echo")
  Method := [twinMethod 1, twinMethod 2]

/-- A comment index that has documentation for the method at the address 2
and for nothing else. -/
def twinRegistry : Registry where
  ServiceComments := fun _ _ => ({ Leading := [], Trailing := [], LeadingDetached := [] },
    some (str "not found"))
  MethodComments := fun _ _ m =>
    if m.addr = 2 then ({ Leading := str " second\n", Trailing := [], LeadingDetached := [] }, none)
    else ({ Leading := [], Trailing := [], LeadingDetached := [] }, some (str "not found"))

/-- A file without services whose path holds a newline followed by the text
`module.exports.createX`. -/
def newlinePathFile : FileDescriptorProto where
  Name := some (str "a\nmodule.exports.createX")
  Package := some (str "example")
  Service := []

/-- The dependencies of the examples with a version string that holds a
newline followed by the text `module.exports.createX`. -/
def newlineVersionDeps : Deps := { exampleDeps with Version := str "v\nmodule.exports.createX" }

/-! ## Lemmas -/

theorem str_newline : str "\n" = [10] := by decide

theorem str_space : str " " = [32] := by decide

theorem str_empty : str "" = [] := by decide

theorem emit_emit (g : generator) (a b : GoString) :
    (g.emit a).emit b = g.emit (a ++ b) := by
  simp [generator.emit, List.append_assoc]

theorem emit_nil (g : generator) : g.emit [] = g := by
  simp [generator.emit]

theorem emit_output (g : generator) (a : GoString) : (g.emit a).output = g.output ++ a := rfl

theorem emit_reg (g : generator) (a : GoString) : (g.emit a).reg = g.reg := rfl

theorem writeStrings_eq (args : List GoString) (g : generator) :
    args.foldl (fun (h : generator) v => { h with output := h.output ++ v }) g
      = g.emit args.flatten := by
  induction args generalizing g with
  | nil => simp [generator.emit]
  | cons a rest ih =>
    rw [List.foldl_cons, ih]
    simp [generator.emit, List.append_assoc]

theorem P_eq_emit (g : generator) (args : List GoString) :
    g.P args = g.emit (lineOf args) := by
  unfold generator.P lineOf
  simp only [writeStrings_eq]
  simp [generator.emit, List.append_assoc]

theorem printLoop_eq (pre : GoString) (f : GoString → GoString) (ls : List GoString)
    (g : generator) :
    ls.foldl (fun (h : generator) line => h.P [pre, f line]) g
      = g.emit (ls.map (fun l => lineOf [pre, f l])).flatten := by
  induction ls generalizing g with
  | nil => simp [emit_nil]
  | cons a rest ih =>
    rw [List.foldl_cons, ih, P_eq_emit, emit_emit]
    simp

theorem printComments_eq (g : generator) (c : DefinitionComments) (pre : GoString) :
    g.printComments c pre
      = g.emit ((Split (TrimSuffix c.Leading (str "\n")) 10).map
          (fun l => lineOf [pre, TrimPrefix l (str " ")])).flatten := by
  unfold generator.printComments
  exact printLoop_eq pre _ _ g

theorem Split_ne_nil (s : GoString) (sep : Nat) : Split s sep ≠ [] := by
  induction s with
  | nil => simp [Split]
  | cons b rest ih =>
    unfold Split
    split
    · simp
    · split <;> simp

theorem Split_length (s : GoString) (sep : Nat) :
    (Split s sep).length = s.count sep + 1 := by
  induction s with
  | nil => simp [Split]
  | cons b rest ih =>
    unfold Split
    by_cases h : b = sep
    · subst h
      simp [ih]
    · have hc : (b :: rest).count sep = rest.count sep := by
        simp [List.count_cons, h]
      rw [if_neg h, hc, ← ih]
      cases hs : Split rest sep with
      | nil => exact absurd hs (Split_ne_nil rest sep)
      | cons p ps => simp

theorem Split_not_mem (s : GoString) (sep : Nat) :
    ∀ piece ∈ Split s sep, sep ∉ piece := by
  induction s with
  | nil => simp [Split]
  | cons b rest ih =>
    unfold Split
    by_cases h : b = sep
    · subst h
      intro piece hp
      rw [if_pos rfl] at hp
      rcases List.mem_cons.1 hp with rfl | hp
      · simp
      · exact ih piece hp
    · rw [if_neg h]
      cases hs : Split rest sep with
      | nil => exact absurd hs (Split_ne_nil rest sep)
      | cons p ps =>
        rw [hs] at ih
        intro piece hp
        rcases List.mem_cons.1 hp with rfl | hp
        · intro hmem
          rcases List.mem_cons.1 hmem with hh | hh
          · exact h hh.symm
          · exact ih p (List.mem_cons_self _ _) hh
        · exact ih piece (List.mem_cons_of_mem _ hp)

theorem Split_intercalate (s : GoString) (sep : Nat) :
    [sep].intercalate (Split s sep) = s := by
  induction s with
  | nil => simp [Split, List.intercalate]
  | cons b rest ih =>
    unfold Split
    by_cases h : b = sep
    · subst h
      rw [if_pos rfl]
      cases hs : Split rest b with
      | nil => exact absurd hs (Split_ne_nil rest b)
      | cons p ps =>
        rw [hs] at ih
        rw [← ih]
        simp [List.intercalate, List.intersperse]
    · rw [if_neg h]
      cases hs : Split rest sep with
      | nil => exact absurd hs (Split_ne_nil rest sep)
      | cons p ps =>
        rw [hs] at ih
        rw [← ih]
        cases ps <;> simp [List.intercalate, List.intersperse]

theorem HasSuffix_iff (s suffix : GoString) : HasSuffix s suffix = true ↔ suffix <:+ s := by
  unfold HasSuffix
  rw [List.suffix_iff_eq_drop]
  constructor
  · intro h
    simp only [Bool.and_eq_true, decide_eq_true_eq, beq_iff_eq] at h
    exact h.2.symm
  · intro h
    simp only [Bool.and_eq_true, decide_eq_true_eq, beq_iff_eq]
    refine ⟨?_, h.symm⟩
    have := congrArg List.length h
    simp only [List.length_drop] at this
    omega

theorem TrimSuffix_append (s suffix : GoString) : TrimSuffix (s ++ suffix) suffix = s := by
  unfold TrimSuffix
  rw [if_pos ((HasSuffix_iff _ _).2 (List.suffix_append s suffix))]
  simp

theorem TrimSuffix_not (s suffix : GoString) (h : ¬ suffix <:+ s) : TrimSuffix s suffix = s := by
  unfold TrimSuffix
  rw [if_neg]
  rwa [HasSuffix_iff]

theorem HasPrefix_iff (s pre : GoString) : HasPrefix s pre = true ↔ pre <+: s := by
  unfold HasPrefix
  rw [List.prefix_iff_eq_take]
  constructor
  · intro h
    simp only [Bool.and_eq_true, decide_eq_true_eq, beq_iff_eq] at h
    exact h.2.symm
  · intro h
    simp only [Bool.and_eq_true, decide_eq_true_eq, beq_iff_eq]
    refine ⟨?_, h.symm⟩
    have := congrArg List.length h
    simp only [List.length_take] at this
    omega

theorem TrimPrefix_append (pre t : GoString) : TrimPrefix (pre ++ t) pre = t := by
  unfold TrimPrefix
  rw [if_pos ((HasPrefix_iff _ _).2 (List.prefix_append pre t))]
  simp

theorem TrimPrefix_not (s pre : GoString) (h : ¬ pre <+: s) : TrimPrefix s pre = s := by
  unfold TrimPrefix
  rw [if_neg]
  rwa [HasPrefix_iff]

theorem extLoop_suffix (path : GoString) (n : Nat) : extLoop path n <:+ path := by
  induction n with
  | zero => simp [extLoop]
  | succ i ih =>
    unfold extLoop
    split
    · simp
    · split
      · exact List.drop_suffix i path
      · exact ih

theorem Ext_suffix (path : GoString) : Ext path <:+ path := extLoop_suffix path _

theorem extLoop_append (s e : GoString) (h46 : 46 ∉ e) (h47 : 47 ∉ e) (k : Nat)
    (hk : k ≤ e.length) :
    extLoop (s ++ 46 :: e) (s.length + 1 + k) = 46 :: e := by
  induction k with
  | zero =>
    show extLoop (s ++ 46 :: e) (s.length + 1) = 46 :: e
    unfold extLoop
    have hget : (s ++ 46 :: e).getD s.length 0 = 46 := by
      rw [List.getD_eq_getElem?_getD, List.getElem?_append_right (le_refl _)]
      simp
    rw [hget]
    simp
  | succ k ih =>
    show extLoop (s ++ 46 :: e) ((s.length + 1 + k) + 1) = 46 :: e
    unfold extLoop
    have hlt : k < e.length := hk
    have hget : (s ++ 46 :: e).getD (s.length + 1 + k) 0 = e[k] := by
      rw [List.getD_eq_getElem?_getD, List.getElem?_append_right (by omega)]
      have : s.length + 1 + k - s.length = k + 1 := by omega
      rw [this]
      simp [List.getElem?_eq_getElem hlt]
    rw [hget]
    have hmem : e[k] ∈ e := List.getElem_mem hlt
    have h1 : e[k] ≠ 47 := fun hh => h47 (hh ▸ hmem)
    have h2 : e[k] ≠ 46 := fun hh => h46 (hh ▸ hmem)
    rw [if_neg h1, if_neg h2]
    exact ih (by omega)

theorem Ext_append (s e : GoString) (h46 : 46 ∉ e) (h47 : 47 ∉ e) :
    Ext (s ++ 46 :: e) = 46 :: e := by
  unfold Ext
  have := extLoop_append s e h46 h47 e.length (le_refl _)
  have hlen : (s ++ 46 :: e).length = s.length + 1 + e.length := by
    simp
    omega
  rw [hlen]
  exact this

theorem goSlice_front (s e : GoString) :
    goSlice (s ++ e) 0 (((s ++ e).length : Int) - (e.length : Int)) = Except.ok s := by
  unfold goSlice
  have h : (((s ++ e).length : Int) - (e.length : Int)) = (s.length : Int) := by
    simp
  rw [h]
  have hc : (0 : Int) ≤ 0 ∧ (0 : Int) ≤ (s.length : Int) ∧
      (s.length : Int) ≤ ((s ++ e).length : Int) := by
    simp
  rw [if_pos hc]
  simp

theorem str_proto : str ".proto" = 46 :: [112, 114, 111, 116, 111] := by decide

theorem str_protodevel :
    str ".protodevel" = 46 :: [112, 114, 111, 116, 111, 100, 101, 118, 101, 108] := by decide

theorem Ext_proto (s : GoString) : Ext (s ++ str ".proto") = str ".proto" := by
  rw [str_proto]
  exact Ext_append s _ (by decide) (by decide)

theorem Ext_protodevel (s : GoString) : Ext (s ++ str ".protodevel") = str ".protodevel" := by
  rw [str_protodevel]
  exact Ext_append s _ (by decide) (by decide)

theorem proto_ne_protodevel : str ".proto" ≠ str ".protodevel" := by decide

theorem baseFileName_eq (file : FileDescriptorProto) (p : GoString) (hp : file.Name = some p) :
    baseFileName file = Except.ok (stripExtension p ++ str "_pb") := by
  unfold baseFileName stripExtension
  rw [hp]
  by_cases h1 : str ".proto" <:+ p
  · obtain ⟨s, rfl⟩ := h1
    rw [if_pos (List.suffix_append s _)]
    simp only [bind, Except.bind, pure, Except.pure, Ext_proto, true_or, if_true]
    rw [goSlice_front]
    simp
  · rw [if_neg h1]
    by_cases h2 : str ".protodevel" <:+ p
    · obtain ⟨s, rfl⟩ := h2
      rw [if_pos (List.suffix_append s _)]
      simp only [bind, Except.bind, pure, Except.pure, Ext_protodevel, or_true, if_true]
      rw [goSlice_front]
      simp
    · rw [if_neg h2]
      have e1 : Ext p ≠ str ".proto" := fun h => h1 (h ▸ Ext_suffix p)
      have e2 : Ext p ≠ str ".protodevel" := fun h => h2 (h ▸ Ext_suffix p)
      simp [bind, Except.bind, pure, Except.pure, e1, e2]

theorem baseFileName_nil (file : FileDescriptorProto) (hp : file.Name = none) :
    baseFileName file = Except.error Panic.nilDereference := by
  unfold baseFileName
  rw [hp]
  rfl

theorem goIndex_last {α : Type} (xs : List α) (h : xs ≠ []) :
    goIndex xs ((xs.length : Int) - 1) = Except.ok (xs.getLast h) := by
  unfold goIndex
  have hpos : 0 < xs.length := List.length_pos.2 h
  have h0 : (0 : Int) ≤ (xs.length : Int) - 1 := by omega
  have hn : ((xs.length : Int) - 1).toNat = xs.length - 1 := by omega
  rw [if_pos h0, hn]
  have : xs.get? (xs.length - 1) = some (xs.getLast h) := by
    rw [List.getLast_eq_getElem]
    simp [List.getElem?_eq_getElem (show xs.length - 1 < xs.length by omega)]
  rw [this]

theorem lastSegment_eq (t : GoString) :
    lastSegment t = (Split t 46).getLast (Split_ne_nil t 46) := by
  unfold lastSegment
  rw [List.getLast?_eq_getLast _ (Split_ne_nil t 46)]
  rfl

theorem methodTypesNames_ok (meth : MethodDescriptorProto) :
    methodTypesNames meth
      = Except.ok (lastSegment meth.GetInputType, lastSegment meth.GetOutputType) := by
  unfold methodTypesNames
  simp only [bind, Except.bind, pure, Except.pure]
  rw [goIndex_last _ (Split_ne_nil _ 46), goIndex_last _ (Split_ne_nil _ 46)]
  simp only [lastSegment_eq]

theorem jsMethodName_ok (E : Deps) (c : GoString) (h : c ≠ []) :
    jsMethodName E c = Except.ok (stubName E c) := by
  unfold jsMethodName stubName goSlice
  have hpos : 0 < c.length := List.length_pos.2 h
  have h1 : (0 : Int) ≤ 0 ∧ (0 : Int) ≤ 1 ∧ (1 : Int) ≤ (c.length : Int) := by omega
  have h2 : (0 : Int) ≤ 1 ∧ (1 : Int) ≤ (c.length : Int) ∧
      (c.length : Int) ≤ (c.length : Int) := by omega
  rw [if_pos h1, if_pos h2]
  simp [bind, Except.bind, pure, Except.pure]

theorem jsMethodName_nil (E : Deps) : jsMethodName E [] = Except.error Panic.sliceBounds := by
  unfold jsMethodName goSlice
  simp [bind, Except.bind]

theorem registry_emit (g : generator) (t : GoString) : (g.emit t).registry = g.registry := rfl

theorem registry_some (g : generator) (reg : Registry) (h : g.reg = some reg) :
    g.registry = Except.ok reg := by
  unfold generator.registry
  rw [h]

theorem registry_none (g : generator) (h : g.reg = none) :
    g.registry = Except.error Panic.nilDereference := by
  unfold generator.registry
  rw [h]

theorem generateMethod_ok (E : Deps) (g : generator) (reg : Registry)
    (file : FileDescriptorProto) (service : ServiceDescriptorProto) (l i : Int)
    (method : MethodDescriptorProto) (hreg : g.reg = some reg)
    (hname : methodName E method ≠ []) :
    g.generateMethod E file service l i method
      = Except.ok (g.emit (methodText E reg file service l i method)) := by
  unfold generator.generateMethod
  dsimp only
  rw [jsMethodName_ok E _ hname, methodTypesNames_ok, registry_some g reg hreg]
  simp only [bind, Except.bind, pure, Except.pure]
  congr 1
  unfold methodText methodDocText commaAt stubEntry
  by_cases hd : documented (reg.MethodComments file service method)
  · have hd2 := hd
    unfold documented at hd2
    rw [if_pos hd, if_pos hd2]
    simp only [P_eq_emit, printComments_eq, emit_emit]
    congr 1
    simp [lineOf, commentText, List.append_assoc]
  · have hd2 := hd
    unfold documented at hd2
    rw [if_neg hd, if_neg hd2]
    simp only [P_eq_emit]
    congr 1
    simp [lineOf, List.append_assoc]

theorem generateMethod_empty (E : Deps) (g : generator) (file : FileDescriptorProto)
    (service : ServiceDescriptorProto) (l i : Int) (method : MethodDescriptorProto)
    (hname : methodName E method = []) :
    g.generateMethod E file service l i method = Except.error Panic.sliceBounds := by
  unfold generator.generateMethod
  dsimp only
  rw [hname, jsMethodName_nil]
  rfl

theorem methodLoop_ok (E : Deps) (reg : Registry) (file : FileDescriptorProto)
    (service : ServiceDescriptorProto) (l : Int) (methods : List MethodDescriptorProto) :
    ∀ (i : Int) (g : generator), g.reg = some reg →
      (∀ m ∈ methods, methodName E m ≠ []) →
      generator.methodLoop E file service l i methods g
        = Except.ok (g.emit (methodsText E reg file service l i methods)) := by
  induction methods with
  | nil =>
    intro i g _ _
    simp [generator.methodLoop, methodsText, emit_nil]
  | cons m rest ih =>
    intro i g hreg hall
    unfold generator.methodLoop
    rw [generateMethod_ok E g reg file service l i m hreg (hall m (List.mem_cons_self _ _))]
    simp only [bind, Except.bind]
    rw [ih (i + 1) _ (by rw [emit_reg]; exact hreg)
      (fun x hx => hall x (List.mem_cons_of_mem _ hx))]
    rw [emit_emit]
    rfl

theorem methodLoop_empty (E : Deps) (reg : Registry) (file : FileDescriptorProto)
    (service : ServiceDescriptorProto) (l : Int) (methods : List MethodDescriptorProto) :
    ∀ (i : Int) (g : generator), g.reg = some reg →
      (∃ m ∈ methods, methodName E m = []) →
      generator.methodLoop E file service l i methods g = Except.error Panic.sliceBounds := by
  induction methods with
  | nil =>
    intro i g _ h
    obtain ⟨m, hm, _⟩ := h
    simp at hm
  | cons m rest ih =>
    intro i g hreg h
    unfold generator.methodLoop
    by_cases hm : methodName E m = []
    · rw [generateMethod_empty E g file service l i m hm]
      rfl
    · rw [generateMethod_ok E g reg file service l i m hreg hm]
      simp only [bind, Except.bind]
      apply ih (i + 1) _ (by rw [emit_reg]; exact hreg)
      obtain ⟨x, hx, hxe⟩ := h
      rcases List.mem_cons.1 hx with rfl | hx
      · exact absurd hxe hm
      · exact ⟨x, hx, hxe⟩

theorem serviceDoc_eq (g : generator) (cName : GoString)
    (lookup : DefinitionComments × Option GoString) :
    g.serviceDoc cName lookup = g.emit (serviceDocText cName lookup) := by
  unfold generator.serviceDoc serviceDocText
  dsimp only
  by_cases hd : documented lookup
  · have hd2 := hd
    unfold documented at hd2
    rw [if_pos hd, if_pos hd2]
    simp only [P_eq_emit, printComments_eq, emit_emit]
    congr 1
  · have hd2 := hd
    unfold documented at hd2
    rw [if_neg hd, if_neg hd2]
    simp only [P_eq_emit, emit_emit]

theorem generateProtobufClient_ok (E : Deps) (g : generator) (reg : Registry)
    (file : FileDescriptorProto) (service : ServiceDescriptorProto)
    (hreg : g.reg = some reg) (hnamed : serviceNamed E service) :
    g.generateProtobufClient E file service
      = Except.ok (g.emit (clientText E reg file service)) := by
  unfold generator.generateProtobufClient
  rw [registry_some g reg hreg]
  simp only [bind, Except.bind, pure, Except.pure, serviceDoc_eq, P_eq_emit, emit_emit]
  rw [methodLoop_ok E reg file service _ service.Method 0 _ (by rw [emit_reg]; exact hreg)
    hnamed]
  simp only [emit_emit]
  congr 2
  simp [clientText, clientFootText, factoryLine, rpcLine, lineOf, List.append_assoc]

theorem generateProtobufClient_empty (E : Deps) (g : generator) (reg : Registry)
    (file : FileDescriptorProto) (service : ServiceDescriptorProto)
    (hreg : g.reg = some reg) (hempty : ∃ m ∈ service.Method, methodName E m = []) :
    g.generateProtobufClient E file service = Except.error Panic.sliceBounds := by
  unfold generator.generateProtobufClient
  rw [registry_some g reg hreg]
  simp only [bind, Except.bind, pure, Except.pure, serviceDoc_eq, P_eq_emit, emit_emit]
  rw [methodLoop_empty E reg file service _ service.Method 0 _ (by rw [emit_reg]; exact hreg)
    hempty]

theorem serviceLoop_ok (E : Deps) (reg : Registry) (file : FileDescriptorProto)
    (services : List ServiceDescriptorProto) :
    ∀ (g : generator), g.reg = some reg → (∀ s ∈ services, serviceNamed E s) →
      generator.serviceLoop E file services g
        = Except.ok (g.emit (servicesText E reg file services)) := by
  induction services with
  | nil =>
    intro g _ _
    simp [generator.serviceLoop, servicesText, emit_nil]
  | cons s rest ih =>
    intro g hreg hall
    unfold generator.serviceLoop
    rw [generateProtobufClient_ok E g reg file s hreg (hall s (List.mem_cons_self _ _))]
    simp only [bind, Except.bind]
    rw [ih _ (by rw [emit_reg]; exact hreg) (fun x hx => hall x (List.mem_cons_of_mem _ hx))]
    rw [emit_emit]
    rfl

theorem serviceLoop_empty (E : Deps) (reg : Registry) (file : FileDescriptorProto)
    (services : List ServiceDescriptorProto) :
    ∀ (g : generator), g.reg = some reg → (¬ ∀ s ∈ services, serviceNamed E s) →
      generator.serviceLoop E file services g = Except.error Panic.sliceBounds := by
  induction services with
  | nil =>
    intro g _ h
    exact absurd (by simp) h
  | cons s rest ih =>
    intro g hreg h
    unfold generator.serviceLoop
    by_cases hs : serviceNamed E s
    · rw [generateProtobufClient_ok E g reg file s hreg hs]
      simp only [bind, Except.bind]
      apply ih _ (by rw [emit_reg]; exact hreg)
      intro hall
      apply h
      intro x hx
      rcases List.mem_cons.1 hx with rfl | hx
      · exact hs
      · exact hall x hx
    · have : ∃ m ∈ s.Method, methodName E m = [] := by
        unfold serviceNamed at hs
        push_neg at hs
        exact hs
      rw [generateProtobufClient_empty E g reg file s hreg this]
      rfl

theorem GetName_some (file : FileDescriptorProto) (p : GoString) (hp : file.Name = some p) :
    file.GetName = p := by
  unfold FileDescriptorProto.GetName getString
  rw [hp]
  rfl

theorem generateFile_ok (E : Deps) (g : generator) (reg : Registry)
    (file : FileDescriptorProto) (p : GoString) (hreg : g.reg = some reg)
    (hp : file.Name = some p) (hnamed : fileNamed E file) :
    g.generateFile E file
      = Except.ok (some (artifactOf E reg g.output file), { reg := g.reg, output := [] }) := by
  unfold generator.generateFile
  simp only [P_eq_emit, emit_emit, baseFileName_eq file p hp, bind, Except.bind, pure,
    Except.pure]
  rw [serviceLoop_ok E reg file file.Service _ (by rw [emit_reg]; exact hreg) hnamed]
  simp only [emit_emit, emit_output, emit_reg]
  unfold artifactOf specArtifactName fileText preambleText
  rw [GetName_some file p hp]

theorem generateFile_name (E : Deps) (g : generator) (file : FileDescriptorProto)
    (p : GoString) (hp : file.Name = some p)
    (rf : Option CodeGeneratorResponse_File) (g' : generator)
    (h : g.generateFile E file = Except.ok (rf, g')) :
    ∃ a, rf = some a ∧ a.Name = some (specArtifactName p) ∧ g'.output = [] := by
  unfold generator.generateFile at h
  simp only [P_eq_emit, emit_emit, baseFileName_eq file p hp, bind, Except.bind, pure,
    Except.pure] at h
  split at h
  · exact absurd h (by simp)
  · injection h with h
    injection h with h1 h2
    subst h1
    subst h2
    exact ⟨_, rfl, by simp [specArtifactName], rfl⟩

theorem generateFile_noName (E : Deps) (g : generator) (file : FileDescriptorProto)
    (hp : file.Name = none) :
    g.generateFile E file = Except.error Panic.nilDereference := by
  unfold generator.generateFile
  simp only [baseFileName_nil file hp, bind, Except.bind]

theorem generateFile_empty (E : Deps) (g : generator) (reg : Registry)
    (file : FileDescriptorProto) (p : GoString) (hreg : g.reg = some reg)
    (hp : file.Name = some p) (hnamed : ¬ fileNamed E file) :
    g.generateFile E file = Except.error Panic.sliceBounds := by
  unfold generator.generateFile
  simp only [P_eq_emit, emit_emit, baseFileName_eq file p hp, bind, Except.bind, pure,
    Except.pure]
  rw [serviceLoop_empty E reg file file.Service _ (by rw [emit_reg]; exact hreg) hnamed]

theorem generateLoop_ok (E : Deps) (reg : Registry) (files : List FileDescriptorProto) :
    ∀ (g : generator) (resp : CodeGeneratorResponse), g.reg = some reg →
      filesWellFormed E files →
      generator.generateLoop E files g resp
        = Except.ok ({ File := resp.File ++ artifactsOf E reg g.output files },
            afterFiles g files) := by
  induction files with
  | nil =>
    intro g resp _ _
    simp [generator.generateLoop, artifactsOf, afterFiles]
  | cons f rest ih =>
    intro g resp hreg hwf
    obtain ⟨hn, hnamed⟩ := hwf f (List.mem_cons_self _ _)
    obtain ⟨p, hp⟩ := Option.ne_none_iff_exists'.1 hn
    unfold generator.generateLoop
    rw [generateFile_ok E g reg f p hreg hp hnamed]
    simp only [bind, Except.bind]
    rw [ih { reg := g.reg, output := [] } _ hreg
      (fun x hx => hwf x (List.mem_cons_of_mem _ hx))]
    simp only [artifactsOf, afterFiles, List.append_assoc, List.singleton_append]
    cases rest <;> simp

theorem Generate_ok (E : Deps) (g : generator) (req : CodeGeneratorRequest)
    (hwf : filesWellFormed E (E.FilesToGenerate req)) :
    g.Generate E req
      = Except.ok
          ({ File := artifactsOf E (E.typemapNew req.ProtoFile) g.output (E.FilesToGenerate req) },
            afterFiles { reg := some (E.typemapNew req.ProtoFile), output := g.output }
              (E.FilesToGenerate req)) := by
  unfold generator.Generate
  dsimp only
  rw [generateLoop_ok E (E.typemapNew req.ProtoFile) _ _ _ rfl hwf]
  simp

theorem artifactsOf_length (E : Deps) (reg : Registry) (files : List FileDescriptorProto) :
    ∀ pre, (artifactsOf E reg pre files).length = files.length := by
  induction files with
  | nil => intro pre; rfl
  | cons f rest ih => intro pre; simp [artifactsOf, ih]

theorem artifactsOf_names (E : Deps) (reg : Registry) (files : List FileDescriptorProto) :
    ∀ pre, (artifactsOf E reg pre files).map (fun a => a.Name)
      = files.map (fun f => some (specArtifactName f.GetName)) := by
  induction files with
  | nil => intro pre; rfl
  | cons f rest ih => intro pre; simp [artifactsOf, artifactOf, ih]

theorem withoutFinalNewline_eq (L : GoString) :
    TrimSuffix L (str "\n") = withoutFinalNewline L := by
  unfold withoutFinalNewline
  rw [str_newline]
  rcases List.eq_nil_or_concat L with rfl | ⟨t, b, rfl⟩
  · simp [TrimSuffix, HasSuffix]
  · rw [List.concat_eq_append]
    by_cases hb : b = 10
    · subst hb
      rw [TrimSuffix_append]
      simp
    · have hns : ¬ ([10] : GoString) <:+ t ++ [b] := by
        intro h
        rw [List.suffix_iff_eq_drop] at h
        simp at h
        exact hb h.symm
      rw [TrimSuffix_not _ _ hns]
      simp [hb]

theorem TrimPrefix_space (l : GoString) : TrimPrefix l (str " ") = withoutLeadingSpace l := by
  rw [str_space]
  cases l with
  | nil => rfl
  | cons b t =>
    by_cases hb : b = 32
    · subst hb
      exact TrimPrefix_append [32] t
    · have hn : ¬ ([32] : GoString) <+: b :: t := by
        intro h
        rw [List.prefix_iff_eq_take] at h
        simp at h
        exact hb h.symm
      rw [TrimPrefix_not _ _ hn]
      unfold withoutLeadingSpace
      split
      · rename_i heq
        injection heq with h1 _
        exact absurd h1 hb
      · rfl

theorem commentText_eq (pre L : GoString) :
    commentText pre L
      = ((docLines L).map (fun l => pre ++ withoutLeadingSpace l ++ str "\n")).flatten := by
  unfold commentText docLines
  rw [withoutFinalNewline_eq, str_newline]
  congr 1
  apply List.map_congr_left
  intro l _
  simp [lineOf, TrimPrefix_space]

theorem quoteLoop_plain (wide : Nat → Bool) (s : GoString) :
    (∀ b ∈ s, plainByte b = true) → ∀ fuel, s.length ≤ fuel → quoteLoop wide fuel s = s := by
  induction s with
  | nil =>
    intro _ fuel _
    cases fuel <;> rfl
  | cons b t ih =>
    intro h fuel hfuel
    cases fuel with
    | zero => simp at hfuel
    | succ f =>
      have hb := h b (List.mem_cons_self _ _)
      unfold plainByte at hb
      simp only [Bool.and_eq_true, decide_eq_true_eq, bne_iff_ne, ne_eq] at hb
      obtain ⟨⟨⟨h1, h2⟩, h3⟩, h4⟩ := hb
      unfold quoteLoop
      have hlt : ¬ 0x80 ≤ b := by omega
      simp only [if_neg hlt]
      have hne : ¬ (True ∧ b = RuneError) := by
        unfold RuneError
        omega
      rw [if_neg hne]
      have hesc : appendEscapedRune wide b = [b] := by
        unfold appendEscapedRune IsPrint encodeRune
        have c1 : ¬ (b = 34 ∨ b = 92) := by omega
        have c2 : b ≤ 0xFF := by omega
        have c3 : 0x20 ≤ b ∧ b ≤ 0x7E := ⟨h1, h2⟩
        have c4 : b < 0x80 := by omega
        simp only [if_neg c1, if_pos c2, if_pos c3, if_pos c4, if_true]
      rw [hesc, List.drop_one, List.tail_cons,
        ih (fun x hx => h x (List.mem_cons_of_mem _ hx)) f (by simpa using hfuel)]
      rfl

theorem Quote_plain (wide : Nat → Bool) (s : GoString) (h : ∀ b ∈ s, plainByte b = true) :
    Quote wide s = [34] ++ s ++ [34] := by
  unfold Quote
  rw [quoteLoop_plain wide s h _ (le_refl _)]

theorem ToLower_ascii_byte (table : Nat → Nat) (b : Nat) (hb : b < 0x80) :
    ToLower table [b] = [lowerByte b] := by
  unfold ToLower lowerByte
  simp [hb]

theorem stubName_ascii (E : Deps) (b : Nat) (t : GoString) (hb : b < 0x80) :
    stubName E (b :: t) = lowerByte b :: t := by
  unfold stubName
  simp [ToLower_ascii_byte E.lowerTable b hb]

theorem specStubName_ascii (E : Deps) (b : Nat) (t : GoString) (hb : b < 0x80) :
    specStubName E (b :: t) = lowerByte b :: t := by
  unfold specStubName decodeRune unicodeToLower encodeRune lowerByte
  have h1 : b ≤ 0x7F := by omega
  simp only [if_pos hb, if_pos h1]
  by_cases hu : 65 ≤ b ∧ b ≤ 90
  · have : b + 32 < 0x80 := by omega
    simp [if_pos hu, this]
  · simp [if_neg hu, hb]

theorem not_proto_suffix_protodevel (s : GoString) :
    ¬ str ".proto" <:+ s ++ str ".protodevel" := by
  intro h
  have h2 : str ".proto" <:+ str ".protodevel" :=
    List.suffix_of_suffix_length_le h (List.suffix_append s _) (by decide)
  revert h2
  decide

theorem stripExtension_proto (s : GoString) : stripExtension (s ++ str ".proto") = s := by
  unfold stripExtension
  rw [if_pos (List.suffix_append s _)]
  simp

theorem stripExtension_protodevel (s : GoString) :
    stripExtension (s ++ str ".protodevel") = s := by
  unfold stripExtension
  rw [if_neg (not_proto_suffix_protodevel s), if_pos (List.suffix_append s _)]
  simp

theorem methodsText_mapIdx (E : Deps) (reg : Registry) (file : FileDescriptorProto)
    (service : ServiceDescriptorProto) (l : Int) (methods : List MethodDescriptorProto) :
    ∀ i : Int, methodsText E reg file service l i methods
      = (methods.mapIdx (fun k m => methodText E reg file service l (i + (k : Int)) m)).flatten := by
  induction methods with
  | nil =>
    intro i
    simp [methodsText]
  | cons m rest ih =>
    intro i
    rw [methodsText, ih (i + 1), List.mapIdx_cons, List.flatten_cons]
    congr 2
    · simp
    · congr 1
      funext k x
      congr 1
      push_cast
      ring

theorem methodsText_blocks (E : Deps) (reg : Registry) (file : FileDescriptorProto)
    (service : ServiceDescriptorProto) :
    methodsText E reg file service (service.Method.length : Int) 0 service.Method
      = (methodBlocks E reg file service).flatten := by
  rw [methodsText_mapIdx]
  unfold methodBlocks
  congr 2
  funext k m
  simp [methodText, str_newline]

theorem methodBlocks_undocumented (E : Deps) (reg : Registry) (file : FileDescriptorProto)
    (service : ServiceDescriptorProto)
    (h : ∀ m ∈ service.Method, ¬ documented (reg.MethodComments file service m)) :
    methodBlocks E reg file service = (entryLines E service).map (fun e => e ++ str "\n") := by
  unfold methodBlocks entryLines
  apply List.ext_getElem
  · simp
  · intro k h1 h2
    simp only [List.getElem_mapIdx, List.getElem_map]
    have hk : k < service.Method.length := by simpa using h1
    have hm := h _ (List.getElem_mem hk)
    simp [methodDocText, hm]

theorem generateFile_some (E : Deps) (g : generator) (file : FileDescriptorProto)
    (rf : Option CodeGeneratorResponse_File) (g' : generator)
    (h : g.generateFile E file = Except.ok (rf, g')) : rf ≠ none := by
  cases hn : file.Name with
  | none =>
    rw [generateFile_noName E g file hn] at h
    exact absurd h (by simp)
  | some p =>
    obtain ⟨a, ha, _⟩ := generateFile_name E g file p hn rf g' h
    rw [ha]
    simp

theorem generateProtobufClient_error (E : Deps) (g : generator) (reg : Registry)
    (file : FileDescriptorProto) (service : ServiceDescriptorProto) (hreg : g.reg = some reg)
    (e : Panic) (h : g.generateProtobufClient E file service = Except.error e) :
    ∃ m ∈ service.Method, methodName E m = [] := by
  by_contra hno
  have hnamed : serviceNamed E service := by
    intro m hm hme
    exact hno ⟨m, hm, hme⟩
  rw [generateProtobufClient_ok E g reg file service hreg hnamed] at h
  exact absurd h (by simp)

theorem Split_of_not_mem (s : GoString) (sep : Nat) (h : sep ∉ s) : Split s sep = [s] := by
  induction s with
  | nil => rfl
  | cons b rest ih =>
    have hb : b ≠ sep := fun hh => h (hh ▸ List.mem_cons_self _ _)
    have hr : sep ∉ rest := fun hh => h (List.mem_cons_of_mem _ hh)
    unfold Split
    rw [if_neg hb, ih hr]

theorem Split_append_sep (q r : GoString) (sep : Nat) :
    Split (q ++ sep :: r) sep = Split q sep ++ Split r sep := by
  induction q with
  | nil =>
    show Split (sep :: r) sep = Split [] sep ++ Split r sep
    simp [Split]
  | cons b rest ih =>
    show Split (b :: (rest ++ sep :: r)) sep = Split (b :: rest) sep ++ Split r sep
    rw [Split, Split]
    by_cases hb : b = sep
    · rw [if_pos hb, if_pos hb, ih]
      rfl
    · rw [if_neg hb, if_neg hb, ih]
      cases hs : Split rest sep with
      | nil => exact absurd hs (Split_ne_nil rest sep)
      | cons p ps => rfl

theorem exists_last_sep (s : GoString) (sep : Nat) :
    sep ∉ s ∨ ∃ q r, s = q ++ sep :: r ∧ sep ∉ r := by
  induction s with
  | nil => exact Or.inl (by simp)
  | cons b rest ih =>
    rcases ih with h | ⟨q, r, hqr, hr⟩
    · by_cases hb : b = sep
      · exact Or.inr ⟨[], rest, by rw [hb]; rfl, h⟩
      · left
        intro hm
        rcases List.mem_cons.1 hm with hh | hh
        · exact hb hh.symm
        · exact h hh
    · exact Or.inr ⟨b :: q, r, by rw [hqr]; rfl, hr⟩

theorem lastSegment_of_not_mem (t : GoString) (h : 46 ∉ t) : lastSegment t = t := by
  unfold lastSegment
  rw [Split_of_not_mem t 46 h]
  rfl

theorem lastSegment_append (q r : GoString) (h : 46 ∉ r) : lastSegment (q ++ 46 :: r) = r := by
  unfold lastSegment
  rw [Split_append_sep, Split_of_not_mem r 46 h]
  simp

theorem lastSegment_not_mem (t : GoString) : 46 ∉ lastSegment t := by
  rw [lastSegment_eq]
  exact Split_not_mem t 46 _ (List.getLast_mem _)

theorem generateMethod_nilreg (E : Deps) (g : generator) (file : FileDescriptorProto)
    (service : ServiceDescriptorProto) (l i : Int) (method : MethodDescriptorProto)
    (hreg : g.reg = none) (hname : methodName E method ≠ []) :
    g.generateMethod E file service l i method = Except.error Panic.nilDereference := by
  unfold generator.generateMethod
  dsimp only
  rw [jsMethodName_ok E _ hname, methodTypesNames_ok, registry_none g hreg]
  rfl

theorem generateMethod_ok_inv (E : Deps) (g g' : generator) (file : FileDescriptorProto)
    (service : ServiceDescriptorProto) (l i : Int) (method : MethodDescriptorProto)
    (h : g.generateMethod E file service l i method = Except.ok g') :
    ∃ reg, g.reg = some reg ∧ methodName E method ≠ []
      ∧ g' = g.emit (methodText E reg file service l i method) := by
  by_cases hname : methodName E method = []
  · rw [generateMethod_empty E g file service l i method hname] at h
    exact absurd h (by simp)
  · cases hreg : g.reg with
    | none =>
      rw [generateMethod_nilreg E g file service l i method hreg hname] at h
      exact absurd h (by simp)
    | some reg =>
      rw [generateMethod_ok E g reg file service l i method hreg hname] at h
      injection h with h
      exact ⟨reg, rfl, hname, h.symm⟩

theorem generateProtobufClient_nilreg (E : Deps) (g : generator) (file : FileDescriptorProto)
    (service : ServiceDescriptorProto) (hreg : g.reg = none) :
    g.generateProtobufClient E file service = Except.error Panic.nilDereference := by
  unfold generator.generateProtobufClient
  rw [registry_none g hreg]
  rfl

theorem goSlice_first (c : GoString) :
    goSlice c 0 1 = Except.error Panic.sliceBounds ↔ c = [] := by
  unfold goSlice
  constructor
  · intro h
    by_contra hc
    have hpos : 0 < c.length := List.length_pos.2 hc
    have hcond : (0 : Int) ≤ 0 ∧ (0 : Int) ≤ 1 ∧ (1 : Int) ≤ (c.length : Int) := by omega
    rw [if_pos hcond] at h
    exact absurd h (by simp)
  · intro hc
    subst hc
    simp

theorem goSlice_rest (c : GoString) (hc : c ≠ []) :
    goSlice c 1 (c.length : Int) = Except.ok (c.drop 1) := by
  unfold goSlice
  have hpos : 0 < c.length := List.length_pos.2 hc
  have hcond : (0 : Int) ≤ 1 ∧ (1 : Int) ≤ (c.length : Int) ∧
      (c.length : Int) ≤ (c.length : Int) := by omega
  rw [if_pos hcond]
  simp

theorem str_entry_end : str "); \x7d" = [41, 59, 32, 125] := by decide

theorem str_comma : str "," = [44] := by decide

theorem stubEntry_last (E : Deps) (m : MethodDescriptorProto) :
    (stubEntry E m (str "")).getLast? = some 125 := by
  unfold stubEntry
  rw [str_empty, str_entry_end]
  simp

theorem stubEntry_comma (E : Deps) (m : MethodDescriptorProto) :
    stubEntry E m (str ",") = stubEntry E m (str "") ++ str "," := by
  unfold stubEntry
  rw [str_empty]
  simp [List.append_assoc]

theorem commaAt_last (n k : Nat) (h : k + 1 = n) : commaAt (n : Int) (k : Int) = str "" := by
  unfold commaAt
  have : (k : Int) = (n : Int) - 1 := by omega
  rw [if_pos this]

theorem commaAt_inner (n k : Nat) (h : k + 1 ≠ n) : commaAt (n : Int) (k : Int) = str "," := by
  unfold commaAt
  have : ¬ (k : Int) = (n : Int) - 1 := by omega
  rw [if_neg this]

theorem entryLines_getElem (E : Deps) (service : ServiceDescriptorProto) (k : Nat)
    (hk : k < service.Method.length) (he : k < (entryLines E service).length) :
    (entryLines E service)[k]
      = stubEntry E service.Method[k] (commaAt (service.Method.length : Int) (k : Int)) := by
  simp only [entryLines, List.getElem_mapIdx]

theorem methodBlocks_getElem (E : Deps) (reg : Registry) (file : FileDescriptorProto)
    (service : ServiceDescriptorProto) (k : Nat)
    (hk : k < service.Method.length) (hb : k < (methodBlocks E reg file service).length) :
    (methodBlocks E reg file service)[k]
      = methodDocText (reg.MethodComments file service service.Method[k])
        ++ (stubEntry E service.Method[k] (commaAt (service.Method.length : Int) (k : Int))
            ++ str "\n") := by
  simp only [methodBlocks, List.getElem_mapIdx]

theorem generateProtobufClient_blocks (E : Deps) (g : generator) (reg : Registry)
    (file : FileDescriptorProto) (service : ServiceDescriptorProto)
    (hreg : g.reg = some reg) (hnamed : serviceNamed E service) :
    g.generateProtobufClient E file service
      = Except.ok (g.emit
          (serviceDocText (clientName E service) (reg.ServiceComments file service)
            ++ (factoryLine E service ++ str "\n") ++ (rpcLine E file service ++ str "\n")
            ++ str "    return \x7b\n"
            ++ (methodBlocks E reg file service).flatten
            ++ str "    \x7d\n" ++ str "\x7d\n" ++ str "\n")) := by
  rw [generateProtobufClient_ok E g reg file service hreg hnamed, clientText,
    methodsText_blocks]
  have h1 : lineOf [str "    return \x7b"] = str "    return \x7b\n" := by decide
  have h2 : clientFootText = str "    \x7d\n" ++ (str "\x7d\n" ++ str "\n") := by decide
  rw [h1, h2, str_newline]
  simp only [List.append_assoc]

theorem methodBlocks_getElem? (E : Deps) (reg : Registry) (file : FileDescriptorProto)
    (service : ServiceDescriptorProto) (k : Nat) :
    (methodBlocks E reg file service)[k]?
      = (service.Method[k]?).map (fun m =>
          methodDocText (reg.MethodComments file service m)
            ++ (stubEntry E m (commaAt (service.Method.length : Int) (k : Int)) ++ str "\n")) := by
  simp only [methodBlocks, List.getElem?_mapIdx]

theorem removeMethod_length (service : ServiceDescriptorProto) (i : Nat)
    (hi : i < service.Method.length) :
    (removeMethod service i).Method.length = service.Method.length - 1 := by
  simp [removeMethod, List.length_eraseIdx, hi]

theorem methodBlocks_removeMethod (E : Deps) (reg reg' : Registry)
    (file file' : FileDescriptorProto) (service : ServiceDescriptorProto) (i : Nat)
    (hi : i + 1 < service.Method.length)
    (hdoc : ∀ m ∈ (removeMethod service i).Method,
      reg'.MethodComments file' (removeMethod service i) m = reg.MethodComments file service m) :
    methodBlocks E reg' file' (removeMethod service i)
      = (methodBlocks E reg file service).eraseIdx i := by
  apply List.ext_getElem?
  intro k
  rw [methodBlocks_getElem?, List.getElem?_eraseIdx, removeMethod_length service i (by omega)]
  have hrm : (removeMethod service i).Method = service.Method.eraseIdx i := rfl
  rw [hrm, List.getElem?_eraseIdx]
  by_cases hk : k < i
  · rw [if_pos hk, if_pos hk, methodBlocks_getElem?]
    cases hm : service.Method[k]? with
    | none => rfl
    | some m =>
      have he : (removeMethod service i).Method[k]? = some m := by
        rw [hrm, List.getElem?_eraseIdx, if_pos hk]
        exact hm
      have hmem : m ∈ (removeMethod service i).Method := List.getElem?_mem he
      simp only [Option.map_some']
      rw [hdoc m hmem, commaAt_inner _ _ (by omega), commaAt_inner _ _ (by omega)]
  · rw [if_neg hk, if_neg hk, methodBlocks_getElem?]
    cases hm : service.Method[k + 1]? with
    | none => rfl
    | some m =>
      have he : (removeMethod service i).Method[k]? = some m := by
        rw [hrm, List.getElem?_eraseIdx, if_neg hk]
        exact hm
      have hmem : m ∈ (removeMethod service i).Method := List.getElem?_mem he
      have hlt : k + 1 < service.Method.length := (List.getElem?_eq_some_iff.1 hm).choose
      simp only [Option.map_some']
      rw [hdoc m hmem]
      by_cases hl : k + 2 = service.Method.length
      · rw [commaAt_last _ k (by omega), commaAt_last _ (k + 1) (by omega)]
      · rw [commaAt_inner _ k (by omega), commaAt_inner _ (k + 1) (by omega)]

theorem methodBlocks_removeLast (E : Deps) (reg reg' : Registry)
    (file file' : FileDescriptorProto) (service : ServiceDescriptorProto) (i : Nat)
    (hi : i + 1 = service.Method.length)
    (hdoc : ∀ m ∈ (removeMethod service i).Method,
      reg'.MethodComments file' (removeMethod service i) m = reg.MethodComments file service m)
    (k : Nat) (hk : k < i) :
    (methodBlocks E reg' file' (removeMethod service i))[k]?
      = (service.Method[k]?).map (fun m =>
          methodDocText (reg.MethodComments file service m)
            ++ (stubEntry E m (if k + 1 = i then str "" else str ",") ++ str "\n")) := by
  rw [methodBlocks_getElem?, removeMethod_length service i (by omega)]
  have hrm : (removeMethod service i).Method = service.Method.eraseIdx i := rfl
  rw [hrm, List.getElem?_eraseIdx, if_pos hk]
  cases hm : service.Method[k]? with
  | none => rfl
  | some m =>
    have he : (removeMethod service i).Method[k]? = some m := by
      rw [hrm, List.getElem?_eraseIdx, if_pos hk]
      exact hm
    have hmem : m ∈ (removeMethod service i).Method := List.getElem?_mem he
    simp only [Option.map_some']
    rw [hdoc m hmem]
    by_cases hl : k + 1 = i
    · rw [if_pos hl, commaAt_last _ k (by omega)]
    · rw [if_neg hl, commaAt_inner _ k (by omega)]

theorem generateLoop_wf (E : Deps) (reg : Registry) (files : List FileDescriptorProto) :
    ∀ (g : generator) (resp r : CodeGeneratorResponse) (g' : generator), g.reg = some reg →
      generator.generateLoop E files g resp = Except.ok (r, g') →
      filesWellFormed E files := by
  induction files with
  | nil =>
    intro g resp r g' _ _ f hf
    simp at hf
  | cons f rest ih =>
    intro g resp r g' hreg h
    cases hn : f.Name with
    | none =>
      unfold generator.generateLoop at h
      rw [generateFile_noName E g f hn] at h
      exact absurd h (by simp [bind, Except.bind])
    | some p =>
      by_cases hnamed : fileNamed E f
      · unfold generator.generateLoop at h
        rw [generateFile_ok E g reg f p hreg hn hnamed] at h
        simp only [bind, Except.bind] at h
        have hrest := ih { reg := g.reg, output := [] } _ r g' hreg h
        intro x hx
        rcases List.mem_cons.1 hx with rfl | hx
        · exact ⟨by rw [hn]; simp, hnamed⟩
        · exact hrest x hx
      · unfold generator.generateLoop at h
        rw [generateFile_empty E g reg f p hreg hn hnamed] at h
        exact absurd h (by simp [bind, Except.bind])

theorem Generate_wf (E : Deps) (g : generator) (req : CodeGeneratorRequest)
    (resp : CodeGeneratorResponse) (g' : generator)
    (h : g.Generate E req = Except.ok (resp, g')) :
    filesWellFormed E (E.FilesToGenerate req) := by
  unfold generator.Generate at h
  exact generateLoop_wf E (E.typemapNew req.ProtoFile) _ _ _ resp g' rfl h

theorem artifactsOf_nil_pre (E : Deps) (reg : Registry) (files : List FileDescriptorProto) :
    artifactsOf E reg [] files = files.map (artifactOf E reg []) := by
  induction files with
  | nil => rfl
  | cons f rest ih => simp [artifactsOf, ih]

theorem afterFiles_output (g : generator) (files : List FileDescriptorProto)
    (h : g.output = []) : (afterFiles g files).output = [] := by
  cases files with
  | nil => exact h
  | cons f rest => rfl

theorem generateProtobufClient_head (E : Deps) (g : generator) (reg : Registry)
    (file : FileDescriptorProto) (service : ServiceDescriptorProto) (hreg : g.reg = some reg) :
    g.generateProtobufClient E file service
      = Except.map (fun g2 => g2.emit (str "    \x7d\n" ++ str "\x7d\n" ++ str "\n"))
          (generator.methodLoop E file service (service.Method.length : Int) 0 service.Method
            (g.emit (clientHeadText E reg file service))) := by
  unfold generator.generateProtobufClient
  rw [registry_some g reg hreg]
  simp only [bind, Except.bind, pure, Except.pure, serviceDoc_eq, P_eq_emit, emit_emit]
  have hhead : serviceDocText (clientName E service) (reg.ServiceComments file service)
      ++ lineOf [str "module.exports.create", clientName E service,
            str " = function(baseurl, extraHeaders, useJSON) \x7b"]
      ++ lineOf [str "    var rpc = createClient(baseurl, ",
            Quote E.printTable (fullServiceName E file service), str ", ",
            Quote E.printTable E.Version,
            str ",  useJSON, extraHeaders === undefined ? \x7b\x7d : extraHeaders);"]
      ++ lineOf [str "    return \x7b"]
      = clientHeadText E reg file service := by
    have h1 : lineOf [str "    return \x7b"] = str "    return \x7b\n" := by decide
    rw [h1]
    simp [clientHeadText, factoryLine, rpcLine, lineOf, str_newline, List.append_assoc]
  rw [hhead]
  have hfoot : lineOf [str "    \x7d"] ++ lineOf [str "\x7d"] ++ lineOf []
      = str "    \x7d\n" ++ str "\x7d\n" ++ str "\n" := by decide
  cases hloop : generator.methodLoop E file service (service.Method.length : Int) 0
      service.Method (g.emit (clientHeadText E reg file service)) with
  | error e => rfl
  | ok g2 =>
    simp only [Except.map, hfoot]

theorem mem_encodeRune_ascii (r b : Nat) (hb : b ∈ encodeRune r) (hlt : b < 0x80) :
    b = r ∧ encodeRune r = [r] := by
  unfold encodeRune at hb ⊢
  split_ifs at hb ⊢ with h1 h2 h3 h4
  · simp at hb
    exact ⟨hb, rfl⟩
  · simp at hb
    omega
  · simp at hb
    omega
  · simp at hb
    omega
  · simp at hb
    omega

theorem lowerhex_ne_newline (n : Nat) : lowerhex n ≠ 10 := by
  unfold lowerhex
  split <;> omega

theorem IsPrint_ge (wide : Nat → Bool) (r : Nat) (h : IsPrint wide r = true) : 0x20 ≤ r := by
  unfold IsPrint at h
  split_ifs at h with h1 h2 h3
  · exact h2.1
  · omega
  · omega

theorem appendEscapedRune_no_newline (wide : Nat → Bool) (r : Nat) :
    10 ∉ appendEscapedRune wide r := by
  have hh : ∀ n, (10 = lowerhex n) = False :=
    fun n => eq_false (fun h => lowerhex_ne_newline n h.symm)
  unfold appendEscapedRune
  by_cases h1 : r = 34 ∨ r = 92
  · rw [if_pos h1]
    simp only [List.mem_cons, List.mem_singleton, List.not_mem_nil, or_false, not_or]
    omega
  · rw [if_neg h1]
    by_cases h2 : IsPrint wide r = true
    · rw [if_pos h2]
      intro hm
      have hp := IsPrint_ge wide r h2
      have := (mem_encodeRune_ascii r 10 hm (by decide)).1
      omega
    · rw [if_neg h2]
      have key : ∀ (c : Prop) [Decidable c] (a b : GoString),
          10 ∉ a → 10 ∉ b → 10 ∉ (if c then a else b) := by
        intro c _ a b ha hb
        split
        · exact ha
        · exact hb
      repeat' apply key
      all_goals simp [hh]

theorem quoteLoop_no_newline (wide : Nat → Bool) :
    ∀ (fuel : Nat) (s : GoString), 10 ∉ quoteLoop wide fuel s := by
  intro fuel
  induction fuel with
  | zero =>
    intro s
    simp [quoteLoop]
  | succ f ih =>
    intro s
    cases s with
    | nil => simp [quoteLoop]
    | cons s0 t =>
      rw [quoteLoop]
      intro hm
      generalize (if 128 ≤ s0 then decodeRune (s0 :: t) else (s0, 1)) = rwv at hm
      rcases List.mem_append.1 hm with h | h
      · by_cases hc : rwv.2 = 1 ∧ rwv.1 = RuneError
        · rw [if_pos hc] at h
          simp only [List.mem_cons, List.mem_singleton, List.not_mem_nil, or_false] at h
          rcases h with h | h | h | h
          · omega
          · omega
          · exact lowerhex_ne_newline _ h.symm
          · exact lowerhex_ne_newline _ h.symm
        · rw [if_neg hc] at h
          exact appendEscapedRune_no_newline wide _ h
      · exact ih _ h

theorem Quote_no_newline (wide : Nat → Bool) (s : GoString) : 10 ∉ Quote wide s := by
  unfold Quote
  intro hm
  rcases List.mem_append.1 hm with h | h
  · rcases List.mem_append.1 h with h | h
    · simp at h
    · exact quoteLoop_no_newline wide _ _ h
  · simp at h

theorem Split_lines (ls : List GoString) (h : ∀ l ∈ ls, 10 ∉ l) :
    Split ((ls.map (fun l => l ++ [10])).flatten) 10 = ls ++ [[]] := by
  induction ls with
  | nil => rfl
  | cons l rest ih =>
    have hl : 10 ∉ l := h l (List.mem_cons_self _ _)
    have hrest := ih (fun x hx => h x (List.mem_cons_of_mem _ hx))
    simp only [List.map_cons, List.flatten_cons, List.append_assoc, List.singleton_append]
    rw [Split_append_sep, Split_of_not_mem l 10 hl, hrest]
    rfl

theorem decodeRune_two (s0 s1 : Nat) (rest : GoString) (h0 : 0xC2 ≤ s0) (h0' : s0 < 0xE0)
    (h1 : 0x80 ≤ s1) (h1' : s1 ≤ 0xBF) :
    decodeRune (s0 :: s1 :: rest) = ((s0 % 32) * 64 + s1 % 64, 2) := by
  simp only [decodeRune, List.length_cons]
  have e1 : ¬ s0 < 128 := by omega
  have e2 : ¬ (s0 < 194 ∨ 244 < s0) := by omega
  have e3 : s0 < 224 := h0'
  have e4 : ¬ s0 = 224 := by omega
  have e5 : ¬ s0 = 240 := by omega
  have e6 : ¬ s0 = 237 := by omega
  have e7 : ¬ s0 = 244 := by omega
  simp only [e1, e2, e3, e4, e5, e6, e7, if_true, if_false]
  rw [if_neg (by omega), if_neg (by omega), if_pos (le_refl 2)]

theorem decodeRune_three (s0 s1 s2 : Nat) (rest : GoString) (h0 : 0xE0 ≤ s0) (h0' : s0 < 0xF0)
    (h1 : ¬ (s1 < (if s0 = 0xE0 then 0xA0 else 0x80) ∨ (if s0 = 0xED then 0x9F else 0xBF) < s1))
    (h2 : 0x80 ≤ s2) (h2' : s2 ≤ 0xBF) :
    decodeRune (s0 :: s1 :: s2 :: rest)
      = ((s0 % 16) * 4096 + (s1 % 64) * 64 + s2 % 64, 3) := by
  simp only [decodeRune, List.length_cons]
  have e1 : ¬ s0 < 128 := by omega
  have e2 : ¬ (s0 < 194 ∨ 244 < s0) := by omega
  have e3 : ¬ s0 < 224 := by omega
  have e3' : s0 < 240 := h0'
  have e5 : ¬ s0 = 240 := by omega
  have e7 : ¬ s0 = 244 := by omega
  simp only [e1, e2, e3, e3', e5, e7, if_true, if_false]
  rw [if_neg (by omega), if_neg h1, if_neg (by omega), if_neg (by omega),
    if_pos (le_refl 3)]

theorem decodeRune_four (s0 s1 s2 s3 : Nat) (rest : GoString) (h0 : 0xF0 ≤ s0)
    (h0' : s0 ≤ 0xF4)
    (h1 : ¬ (s1 < (if s0 = 0xF0 then 0x90 else 0x80) ∨ (if s0 = 0xF4 then 0x8F else 0xBF) < s1))
    (h2 : 0x80 ≤ s2) (h2' : s2 ≤ 0xBF) (h3 : 0x80 ≤ s3) (h3' : s3 ≤ 0xBF) :
    decodeRune (s0 :: s1 :: s2 :: s3 :: rest)
      = ((s0 % 8) * 262144 + (s1 % 64) * 4096 + (s2 % 64) * 64 + s3 % 64, 4) := by
  simp only [decodeRune, List.length_cons]
  have e1 : ¬ s0 < 128 := by omega
  have e2 : ¬ (s0 < 194 ∨ 244 < s0) := by omega
  have e3 : ¬ s0 < 224 := by omega
  have e3' : ¬ s0 < 240 := by omega
  have e4 : ¬ s0 = 224 := by omega
  have e6 : ¬ s0 = 237 := by omega
  simp only [e1, e2, e3, e3', e4, e6, if_true, if_false]
  rw [if_neg (by omega), if_neg h1, if_neg (by omega), if_neg (by omega),
    if_neg (by omega), if_neg (by omega)]

theorem decodeRune_encodeRune (c : Nat) (rest : GoString) (hv : validRune c) :
    decodeRune (encodeRune c ++ rest) = (c, (encodeRune c).length) := by
  unfold validRune at hv
  by_cases h1 : c < 0x80
  · have he : encodeRune c = [c] := by
      unfold encodeRune
      rw [if_pos h1]
    rw [he]
    simp [decodeRune, h1]
  · by_cases h2 : c < 0x800
    · have he : encodeRune c = [0xC0 + c / 64, 0x80 + c % 64] := by
        unfold encodeRune
        rw [if_neg h1, if_pos h2]
      rw [he]
      show decodeRune ((0xC0 + c / 64) :: (0x80 + c % 64) :: rest) = (c, 2)
      rw [decodeRune_two _ _ rest (by omega) (by omega) (by omega) (by omega)]
      simp only [Prod.mk.injEq, and_true]
      omega
    · by_cases h3 : c < 0x10000
      · have hs : ¬ ((0xD800 ≤ c ∧ c ≤ 0xDFFF) ∨ 0x10FFFF < c) := by omega
        have he : encodeRune c = [0xE0 + c / 4096, 0x80 + (c / 64) % 64, 0x80 + c % 64] := by
          unfold encodeRune
          rw [if_neg h1, if_neg h2, if_neg hs, if_pos h3]
        rw [he]
        show decodeRune ((0xE0 + c / 4096) :: (0x80 + (c / 64) % 64) :: (0x80 + c % 64) :: rest)
          = (c, 3)
        rw [decodeRune_three _ _ _ rest (by omega) (by omega)
          (by split_ifs <;> omega) (by omega) (by omega)]
        simp only [Prod.mk.injEq, and_true]
        omega
      · have hs : ¬ ((0xD800 ≤ c ∧ c ≤ 0xDFFF) ∨ 0x10FFFF < c) := by omega
        have he : encodeRune c = [0xF0 + c / 262144, 0x80 + (c / 4096) % 64,
            0x80 + (c / 64) % 64, 0x80 + c % 64] := by
          unfold encodeRune
          rw [if_neg h1, if_neg h2, if_neg hs, if_neg h3]
        rw [he]
        show decodeRune ((0xF0 + c / 262144) :: (0x80 + (c / 4096) % 64)
          :: (0x80 + (c / 64) % 64) :: (0x80 + c % 64) :: rest) = (c, 4)
        rw [decodeRune_four _ _ _ _ rest (by omega) (by omega)
          (by split_ifs <;> omega) (by omega) (by omega) (by omega) (by omega)]
        simp only [Prod.mk.injEq, and_true]
        omega

theorem encodeRune_length_pos (c : Nat) : 1 ≤ (encodeRune c).length := by
  unfold encodeRune
  split_ifs <;> simp

theorem encodeRune_ne_nil (c : Nat) : encodeRune c ≠ [] := by
  intro h
  have := encodeRune_length_pos c
  rw [h] at this
  simp at this

theorem encodeRune_head (c : Nat) :
    ∃ s0 t, encodeRune c = s0 :: t ∧ (c < 0x80 → s0 = c ∧ t = []) ∧ (0x80 ≤ c → 0x80 ≤ s0) := by
  unfold encodeRune
  split_ifs with h1 h2 h3 h4
  · exact ⟨_, _, rfl, fun _ => ⟨rfl, rfl⟩, fun h => by omega⟩
  · exact ⟨_, _, rfl, fun h => by omega, fun _ => by omega⟩
  · exact ⟨_, _, rfl, fun h => by omega, fun _ => by omega⟩
  · exact ⟨_, _, rfl, fun h => by omega, fun _ => by omega⟩
  · exact ⟨_, _, rfl, fun h => by omega, fun _ => by omega⟩

theorem quoteLoop_nil (wide : Nat → Bool) (fuel : Nat) : quoteLoop wide fuel [] = [] := by
  cases fuel <;> rfl

theorem quoteLoop_rune (wide : Nat → Bool) (c : Nat) (rest : GoString) (fuel : Nat)
    (hc : unescapedRune wide c) :
    quoteLoop wide (fuel + 1) (encodeRune c ++ rest)
      = encodeRune c ++ quoteLoop wide fuel rest := by
  obtain ⟨hv, h34, h92, hprint⟩ := hc
  obtain ⟨s0, t, he, hlo, hhi⟩ := encodeRune_head c
  have hdec := decodeRune_encodeRune c rest hv
  have hesc : appendEscapedRune wide c = encodeRune c := by
    unfold appendEscapedRune
    rw [if_neg (by omega), if_pos hprint]
  have hrw : (if 0x80 ≤ s0 then decodeRune (s0 :: (t ++ rest)) else (s0, 1))
      = (c, (encodeRune c).length) := by
    by_cases h : c < 0x80
    · obtain ⟨h0, ht⟩ := hlo h
      rw [if_neg (by omega), h0, he, ht]
      rfl
    · rw [if_pos (hhi (by omega)), ← List.cons_append, ← he]
      exact hdec
  rw [he, List.cons_append, quoteLoop]
  rw [hrw]
  have hcond : ¬ ((encodeRune c).length = 1 ∧ c = RuneError) := by
    intro hh
    obtain ⟨hl, hr⟩ := hh
    unfold RuneError at hr
    have : encodeRune c = [0xEF, 0xBF, 0xBD] := by
      rw [hr]
      decide
    rw [this] at hl
    simp at hl
  rw [if_neg hcond, hesc, ← List.cons_append, ← he, List.drop_left]

theorem quoteLoop_runes (wide : Nat → Bool) (cs : List Nat) :
    (∀ c ∈ cs, unescapedRune wide c) → ∀ fuel, cs.length ≤ fuel →
      quoteLoop wide fuel (cs.flatMap encodeRune) = cs.flatMap encodeRune := by
  induction cs with
  | nil =>
    intro _ fuel _
    exact quoteLoop_nil wide fuel
  | cons c rest ih =>
    intro h fuel hfuel
    cases fuel with
    | zero => simp at hfuel
    | succ f =>
      rw [List.flatMap_cons, quoteLoop_rune wide c _ f (h c (List.mem_cons_self _ _)),
        ih (fun x hx => h x (List.mem_cons_of_mem _ hx)) f (by simpa using hfuel)]

theorem flatMap_encodeRune_length (cs : List Nat) :
    cs.length ≤ (cs.flatMap encodeRune).length := by
  induction cs with
  | nil => simp
  | cons c rest ih =>
    rw [List.flatMap_cons, List.length_append, List.length_cons]
    have := encodeRune_length_pos c
    omega

theorem Quote_unescaped (wide : Nat → Bool) (s : GoString) (h : unescapedText wide s) :
    Quote wide s = [34] ++ s ++ [34] := by
  obtain ⟨cs, hs, hcs⟩ := h
  unfold Quote
  rw [hs, quoteLoop_runes wide cs hcs _ (flatMap_encodeRune_length cs)]

theorem unescapedText_append (wide : Nat → Bool) (a b : GoString)
    (ha : unescapedText wide a) (hb : unescapedText wide b) : unescapedText wide (a ++ b) := by
  obtain ⟨ca, rfl, hca⟩ := ha
  obtain ⟨cb, rfl, hcb⟩ := hb
  refine ⟨ca ++ cb, by rw [List.flatMap_append], ?_⟩
  intro c hc
  rcases List.mem_append.1 hc with h | h
  · exact hca c h
  · exact hcb c h

theorem flatMap_encodeRune_ascii (s : GoString) (h : ∀ b ∈ s, b < 0x80) :
    s.flatMap encodeRune = s := by
  induction s with
  | nil => rfl
  | cons b rest ih =>
    have hb : encodeRune b = [b] := by
      unfold encodeRune
      rw [if_pos (h b (List.mem_cons_self _ _))]
    rw [List.flatMap_cons, hb, ih (fun x hx => h x (List.mem_cons_of_mem _ hx))]
    rfl

theorem plainByte_bounds (b : Nat) (h : plainByte b = true) :
    0x20 ≤ b ∧ b ≤ 0x7E ∧ b ≠ 34 ∧ b ≠ 92 := by
  unfold plainByte at h
  simp only [Bool.and_eq_true, decide_eq_true_eq, bne_iff_ne, ne_eq] at h
  obtain ⟨⟨⟨h1, h2⟩, h3⟩, h4⟩ := h
  exact ⟨h1, h2, h3, h4⟩

theorem unescapedRune_plain (wide : Nat → Bool) (b : Nat) (h : plainByte b = true) :
    unescapedRune wide b := by
  obtain ⟨h1, h2, h3, h4⟩ := plainByte_bounds b h
  refine ⟨Or.inl (by omega), h3, h4, ?_⟩
  unfold IsPrint
  rw [if_pos (by omega), if_pos ⟨h1, h2⟩]

theorem unescapedText_plain (wide : Nat → Bool) (s : GoString)
    (h : ∀ b ∈ s, plainByte b = true) : unescapedText wide s := by
  refine ⟨s, ?_, fun c hc => unescapedRune_plain wide c (h c hc)⟩
  rw [flatMap_encodeRune_ascii s (fun b hb => by
    have := plainByte_bounds b (h b hb)
    omega)]

theorem preambleText_lines (E : Deps) (file : FileDescriptorProto) (base : GoString) :
    preambleText E file base
      = ((preambleLines E file base).map (fun l => l ++ str "\n")).flatten := by
  rw [str_newline]
  simp [preambleText, preambleLines, lineOf, str_empty, List.append_assoc]

theorem generateFile_eq (E : Deps) (g : generator) (file : FileDescriptorProto) (p : GoString)
    (hp : file.Name = some p) :
    g.generateFile E file
      = Except.map
          (fun g2 : generator =>
            ((some { Name := some (specArtifactName p), Content := some g2.output } :
                Option CodeGeneratorResponse_File),
              ({ reg := g2.reg, output := [] } : generator)))
          (generator.serviceLoop E file file.Service
            (g.emit (preambleText E file (stripExtension p ++ str "_pb")))) := by
  unfold generator.generateFile
  simp only [P_eq_emit, emit_emit, baseFileName_eq file p hp, bind, Except.bind, pure,
    Except.pure]
  unfold preambleText specArtifactName
  generalize generator.serviceLoop E file file.Service _ = r
  cases r with
  | error e => rfl
  | ok g2 => simp [Except.map]

theorem not_isPrefix_of_head (pre l : GoString) (c : Nat) (hpre : pre.head? = some c)
    (hl : l.head? ≠ some c) : ¬ pre <+: l := by
  rintro ⟨t, rfl⟩
  cases pre with
  | nil => simp at hpre
  | cons a rest =>
    simp only [List.head?_cons, List.cons_append] at hpre hl
    exact hl hpre

theorem preambleLines_no_factory (E : Deps) (file : FileDescriptorProto) (base : GoString) :
    ∀ l ∈ preambleLines E file base, ¬ str "module.exports.create" <+: l := by
  intro l hl
  apply not_isPrefix_of_head _ l 109 (by decide)
  simp only [preambleLines, List.mem_cons, List.mem_singleton, List.not_mem_nil, or_false] at hl
  rcases hl with rfl | rfl | rfl | rfl | rfl | rfl | rfl | rfl | rfl | rfl
  · decide
  · have : str " * Code generated by protoc-gen-twirp_js " = 32 :: (str "* Code generated by protoc-gen-twirp_js ") := by decide
    rw [this]; simp
  · have : str " * source: " = 32 :: (str "* source: ") := by decide
    rw [this]; simp
  · decide
  · decide
  · decide
  · decide
  · have : str "var pb = require(" = 118 :: (str "ar pb = require(") := by decide
    rw [this]; simp
  · decide
  · decide

theorem preambleLines_no_newline (E : Deps) (file : FileDescriptorProto) (base : GoString)
    (hv : 10 ∉ E.Version) (hn : 10 ∉ file.GetName) :
    ∀ l ∈ preambleLines E file base, 10 ∉ l := by
  intro l hl
  have hq := Quote_no_newline E.printTable (str "./" ++ FindString base ++ str ".js")
  simp only [preambleLines, List.mem_cons, List.mem_singleton, List.not_mem_nil, or_false] at hl
  rcases hl with rfl | rfl | rfl | rfl | rfl | rfl | rfl | rfl | rfl | rfl
  · decide
  · have h1 : 10 ∉ str " * Code generated by protoc-gen-twirp_js " := by decide
    have h2 : 10 ∉ str ", DO NOT EDIT." := by decide
    simp only [List.mem_append, not_or]
    exact ⟨⟨h1, hv⟩, h2⟩
  · have h1 : 10 ∉ str " * source: " := by decide
    simp only [List.mem_append, not_or]
    exact ⟨h1, hn⟩
  · decide
  · decide
  · decide
  · decide
  · have h1 : 10 ∉ str "var pb = require(" := by decide
    have h2 : 10 ∉ str ");" := by decide
    simp only [List.mem_append, not_or]
    exact ⟨⟨h1, hq⟩, h2⟩
  · decide
  · decide

theorem encodeRune_ne_replacement_tail (r : Nat) : encodeRune r ≠ [239, 191, 189, 137] := by
  intro h
  unfold encodeRune at h
  split_ifs at h <;> simp at h
  omega

/-! ## The claims -/

/-- C1: for a file with the path `p`, `baseFileName` is `s ++ "_pb"` and the
artifact `generateFile` returns is named `s ++ "_pb" ++ "_twirp.js"`, where
`s` is `p` without a trailing `.proto` or `.protodevel` when `p` ends in one
of them and `s = p` otherwise; `generateFile` does return an artifact when the
comment index is set and no method has an empty camel-cased name.  The paths
`foo.proto`, `bar.protodevel` and `baz` give `foo_pb_twirp.js`,
`bar_pb_twirp.js` and `baz_pb_twirp.js`. -/
theorem C1_artifact_name (E : Deps) (g : generator) (file : FileDescriptorProto)
    (p : GoString) (hp : file.Name = some p) :
    baseFileName file = Except.ok (stripExtension p ++ str "_pb")
      ∧ (∀ rf g', g.generateFile E file = Except.ok (rf, g') →
          ∃ a, rf = some a
            ∧ a.Name = some (stripExtension p ++ str "_pb" ++ str "_twirp.js"))
      ∧ (∀ reg, g.reg = some reg → fileNamed E file →
          ∃ a g', g.generateFile E file = Except.ok (some a, g')
            ∧ a.Name = some (stripExtension p ++ str "_pb" ++ str "_twirp.js"))
      ∧ (∀ s, p = s ++ str ".proto" → stripExtension p = s)
      ∧ (∀ s, p = s ++ str ".protodevel" → stripExtension p = s)
      ∧ (¬ str ".proto" <:+ p → ¬ str ".protodevel" <:+ p → stripExtension p = p)
      ∧ (p = str "foo.proto" →
          baseFileName file = Except.ok (str "foo_pb")
            ∧ ∀ a g', g.generateFile E file = Except.ok (some a, g') →
                a.Name = some (str "foo_pb_twirp.js"))
      ∧ (p = str "bar.protodevel" →
          baseFileName file = Except.ok (str "bar_pb")
            ∧ ∀ a g', g.generateFile E file = Except.ok (some a, g') →
                a.Name = some (str "bar_pb_twirp.js"))
      ∧ (p = str "baz" →
          baseFileName file = Except.ok (str "baz_pb")
            ∧ ∀ a g', g.generateFile E file = Except.ok (some a, g') →
                a.Name = some (str "baz_pb_twirp.js")) := by
  have hname : ∀ a g', g.generateFile E file = Except.ok (some a, g') →
      a.Name = some (stripExtension p ++ str "_pb" ++ str "_twirp.js") := by
    intro a g' h
    obtain ⟨a', ha, hn, _⟩ := generateFile_name E g file p hp (some a) g' h
    injection ha with ha
    rw [ha]
    exact hn
  refine ⟨baseFileName_eq file p hp, ?_, ?_, ?_, ?_, ?_, ?_, ?_, ?_⟩
  · intro rf g' h
    obtain ⟨a, ha, hn, _⟩ := generateFile_name E g file p hp rf g' h
    exact ⟨a, ha, hn⟩
  · intro reg hreg hnamed
    refine ⟨_, _, generateFile_ok E g reg file p hreg hp hnamed, ?_⟩
    simp [artifactOf, specArtifactName, GetName_some file p hp]
  · intro s hs
    rw [hs, stripExtension_proto]
  · intro s hs
    rw [hs, stripExtension_protodevel]
  · intro h1 h2
    unfold stripExtension
    rw [if_neg h1, if_neg h2]
  · intro h
    have h1 : stripExtension (str "foo.proto") ++ str "_pb" = str "foo_pb" := by decide
    have h2 : stripExtension (str "foo.proto") ++ str "_pb" ++ str "_twirp.js"
        = str "foo_pb_twirp.js" := by decide
    refine ⟨by rw [baseFileName_eq file p hp, h, h1], ?_⟩
    intro a g' hg
    rw [hname a g' hg, h, h2]
  · intro h
    have h1 : stripExtension (str "bar.protodevel") ++ str "_pb" = str "bar_pb" := by decide
    have h2 : stripExtension (str "bar.protodevel") ++ str "_pb" ++ str "_twirp.js"
        = str "bar_pb_twirp.js" := by decide
    refine ⟨by rw [baseFileName_eq file p hp, h, h1], ?_⟩
    intro a g' hg
    rw [hname a g' hg, h, h2]
  · intro h
    have h1 : stripExtension (str "baz") ++ str "_pb" = str "baz_pb" := by decide
    have h2 : stripExtension (str "baz") ++ str "_pb" ++ str "_twirp.js"
        = str "baz_pb_twirp.js" := by decide
    refine ⟨by rw [baseFileName_eq file p hp, h, h1], ?_⟩
    intro a g' hg
    rw [hname a g' hg, h, h2]

/-- C1, example: the file `example.proto` of the end-to-end scenario yields an
artifact named `example_pb_twirp.js`. -/
theorem C1_witness :
    ∃ a g', exampleGenerator.generateFile exampleDeps exampleFile = Except.ok (some a, g')
      ∧ a.Name = some (str "example_pb_twirp.js") := by
  obtain ⟨a, g', h, hn⟩ :=
    (C1_artifact_name exampleDeps exampleGenerator exampleFile (str "example.proto") rfl).2.2.1
      emptyRegistry rfl (by unfold fileNamed serviceNamed; decide)
  refine ⟨a, g', h, ?_⟩
  rw [hn]
  decide

/-- C2: `fullServiceName` is the package, a dot and the camel-cased service
name when the package of the file is non-empty, and the camel-cased service
name alone when the package is empty or absent.  When camel-casing leaves
`Greeter` as it is, the service `Greeter` has the wire name `pb.v1.Greeter`
in the package `pb.v1` and `Greeter` without a package. -/
theorem C2_fullServiceName (E : Deps) (file : FileDescriptorProto)
    (service : ServiceDescriptorProto) :
    (file.GetPackage ≠ [] →
        fullServiceName E file service
          = file.GetPackage ++ str "." ++ E.CamelCase service.GetName)
      ∧ (file.Package = some [] → fullServiceName E file service = E.CamelCase service.GetName)
      ∧ (file.Package = none → fullServiceName E file service = E.CamelCase service.GetName)
      ∧ (E.CamelCase (str "Greeter") = str "Greeter" → service.Name = some (str "Greeter") →
          (file.Package = some (str "pb.v1") →
              fullServiceName E file service = str "pb.v1.Greeter")
            ∧ (file.Package = none → fullServiceName E file service = str "Greeter")) := by
  refine ⟨?_, ?_, ?_, ?_⟩
  · intro h
    unfold fullServiceName serviceName
    simp only [if_pos h]
  · intro h
    unfold fullServiceName serviceName FileDescriptorProto.GetPackage getString
    rw [h]
    simp
  · intro h
    unfold fullServiceName serviceName FileDescriptorProto.GetPackage getString
    rw [h]
    simp
  · intro hc hs
    unfold fullServiceName serviceName FileDescriptorProto.GetPackage
      ServiceDescriptorProto.GetName getString
    rw [hs]
    constructor
    · intro h
      rw [h]
      simp only [Option.getD_some, hc]
      decide
    · intro h
      rw [h]
      simp [hc]

/-- C2, example: with the dependencies of the examples, whose camel-casing
leaves `Greeter` as it is, the wire names are `pb.v1.Greeter` and `Greeter`. -/
theorem C2_witness :
    fullServiceName exampleDeps
        { Name := some (str "a.proto"), Package := some (str "pb.v1"), Service := [] }
        { Name := some (str "Greeter"), Method := [] } = str "pb.v1.Greeter"
      ∧ fullServiceName exampleDeps
        { Name := some (str "a.proto"), Package := none, Service := [] }
        { Name := some (str "Greeter"), Method := [] } = str "Greeter" :=
  ⟨((C2_fullServiceName exampleDeps _ _).2.2.2 rfl rfl).1 rfl,
    ((C2_fullServiceName exampleDeps _ _).2.2.2 rfl rfl).2 rfl⟩

/-- C3, counterexample: the name whose bytes are `C3 89 61`, the letter
U+00C9 (E with acute accent) followed by `a`, is its own camel-cased name
under the dependencies of the examples.  With only its first character
lower-cased it is `C3 A9 61`; line 96 lower-cases the one-byte string `C3`,
which is not valid UTF-8 and comes back as the encoding of U+FFFD, so the
stub name is `EF BF BD 89 61`: the first character is not lower-cased and the
second byte of the letter is left behind.  Whatever stands for the first byte,
the bytes `89 61` kept after it are not the end `A9 61` of the lower-cased
name. -/
theorem C3_counterexample :
    jsMethodName exampleDeps
        (methodName exampleDeps
          { Name := some [195, 137, 97], InputType := none, OutputType := none })
        = Except.ok [239, 191, 189, 137, 97]
      ∧ specStubName exampleDeps [195, 137, 97] = [195, 169, 97]
      ∧ jsMethodName exampleDeps
          (methodName exampleDeps
            { Name := some [195, 137, 97], InputType := none, OutputType := none })
          ≠ Except.ok (specStubName exampleDeps [195, 137, 97])
      ∧ (∀ first : GoString, first ++ [137, 97] ≠ specStubName exampleDeps [195, 137, 97]) := by
  refine ⟨by decide, by decide, by decide, ?_⟩
  intro first h
  have h2 : specStubName exampleDeps [195, 137, 97] = [195, 169, 97] := by decide
  rw [h2] at h
  have h3 := congrArg List.reverse h
  simp at h3

/-- C3, amended: for every method whose camel-cased name `c` is non-empty, the
stub name keeps every byte of `c` after the first; when the first byte `b` of
`c` is ASCII (as in every protobuf identifier), the stub name is `c` with only
that first character lower-cased (`A`-`Z` to `a`-`z`, any other byte as it
is), and it is the key of the entry line the method contributes;
`GetUser` gives `getUser`. -/
theorem C3_stub_name_ascii (E : Deps) (b : Nat) (t : GoString) :
    (∃ first, jsMethodName E (b :: t) = Except.ok (first ++ t))
      ∧ (b < 0x80 →
          jsMethodName E (b :: t) = Except.ok (lowerByte b :: t)
            ∧ specStubName E (b :: t) = lowerByte b :: t
            ∧ (65 ≤ b ∧ b ≤ 90 → lowerByte b = b + 32)
            ∧ (¬ (65 ≤ b ∧ b ≤ 90) → lowerByte b = b)
            ∧ ∀ (g : generator) (reg : Registry) (file : FileDescriptorProto)
                (service : ServiceDescriptorProto) (l i : Int) (method : MethodDescriptorProto),
                g.reg = some reg → methodName E method = b :: t →
                g.generateMethod E file service l i method
                  = Except.ok (g.emit (methodDocText (reg.MethodComments file service method)
                      ++ (str "        " ++ (lowerByte b :: t)
                          ++ str ": function(data) \x7b return rpc("
                          ++ Quote E.printTable (b :: t) ++ str ", data, pb."
                          ++ lastSegment method.GetOutputType ++ str "); \x7d" ++ commaAt l i
                          ++ str "\n"))))
      ∧ (b :: t = str "GetUser" → jsMethodName E (b :: t) = Except.ok (str "getUser")) := by
  have hok := jsMethodName_ok E (b :: t) (List.cons_ne_nil b t)
  refine ⟨?_, ?_, ?_⟩
  · exact ⟨ToLower E.lowerTable [b], by rw [hok]; simp [stubName]⟩
  · intro hb
    refine ⟨by rw [hok, stubName_ascii E b t hb], specStubName_ascii E b t hb, ?_, ?_, ?_⟩
    · intro h
      unfold lowerByte
      rw [if_pos h]
    · intro h
      unfold lowerByte
      rw [if_neg h]
    · intro g reg file service l i method hreg hname
      rw [generateMethod_ok E g reg file service l i method hreg (by rw [hname]; simp)]
      unfold methodText stubEntry
      rw [hname, stubName_ascii E b t hb, str_newline]
  · intro h
    have hbt : b = 71 ∧ t = [101, 116, 85, 115, 101, 114] := by
      have h2 : str "GetUser" = 71 :: [101, 116, 85, 115, 101, 114] := by decide
      rw [h2] at h
      injection h with h3 h4
      exact ⟨h3, h4⟩
    obtain ⟨rfl, rfl⟩ := hbt
    rw [hok, stubName_ascii E 71 _ (by decide)]
    decide

/-- C3, example: with the dependencies of the examples the method `SayHello`
has the stub name `sayHello`. -/
theorem C3_witness :
    jsMethodName exampleDeps (methodName exampleDeps sayHello) = Except.ok (str "sayHello") := by
  have h := ((C3_stub_name_ascii exampleDeps 83 [97, 121, 72, 101, 108, 108, 111]).2.1
    (by decide)).1
  have h2 : methodName exampleDeps sayHello = 83 :: [97, 121, 72, 101, 108, 108, 111] := by
    decide
  rw [h2, h]
  decide

/-- C4, counterexample: a service whose only method has no name.  Its
camel-cased name is empty under the dependencies of the examples, the slice
`methName[0:1]` of line 96 is out of range, and `generateProtobufClient`
panics instead of emitting the entry and the closing lines. -/
theorem C4_counterexample :
    methodName exampleDeps namelessMethod = []
      ∧ exampleGenerator.generateProtobufClient exampleDeps namelessFile namelessService
          = Except.error Panic.sliceBounds := by
  refine ⟨by decide, ?_⟩
  exact generateProtobufClient_empty exampleDeps exampleGenerator emptyRegistry namelessFile
    namelessService rfl ⟨namelessMethod, List.mem_cons_self _ _, by decide⟩

/-- C4, amended: for every service none of whose methods has an empty
camel-cased name (and a generator whose comment index is set),
`generateProtobufClient` emits, between the line `    return {` and the line
`    }`, one block per method in declaration order and nothing else: the k-th
block is the comment block of the k-th method, empty when the method is
undocumented, followed by its stub entry (stub name, wire literal, output
short name, separator) as one line.  When no method is documented the blocks
are exactly the `n` entry lines.  Nothing is reordered, merged or dropped,
whether or not names repeat: also of two methods with equal fields each gets
the comment block the index has for its own descriptor. -/
theorem C4_entries_in_declaration_order (E : Deps) (g : generator) (reg : Registry)
    (file : FileDescriptorProto) (service : ServiceDescriptorProto)
    (hreg : g.reg = some reg) (hnamed : serviceNamed E service) :
    g.generateProtobufClient E file service
        = Except.ok (g.emit
            (serviceDocText (clientName E service) (reg.ServiceComments file service)
              ++ (factoryLine E service ++ str "\n") ++ (rpcLine E file service ++ str "\n")
              ++ str "    return \x7b\n"
              ++ (methodBlocks E reg file service).flatten
              ++ str "    \x7d\n" ++ str "\x7d\n" ++ str "\n"))
      ∧ (methodBlocks E reg file service).length = service.Method.length
      ∧ (∀ k (hk : k < service.Method.length)
            (hb : k < (methodBlocks E reg file service).length),
          (methodBlocks E reg file service)[k]
            = methodDocText (reg.MethodComments file service service.Method[k])
              ++ (str "        " ++ stubName E (methodName E service.Method[k])
                  ++ str ": function(data) \x7b return rpc("
                  ++ Quote E.printTable (methodName E service.Method[k]) ++ str ", data, pb."
                  ++ lastSegment service.Method[k].GetOutputType ++ str "); \x7d"
                  ++ commaAt (service.Method.length : Int) (k : Int) ++ str "\n"))
      ∧ (∀ m ∈ service.Method, ¬ documented (reg.MethodComments file service m) →
          methodDocText (reg.MethodComments file service m) = [])
      ∧ ((∀ m ∈ service.Method, ¬ documented (reg.MethodComments file service m)) →
          methodBlocks E reg file service = (entryLines E service).map (fun e => e ++ str "\n")
            ∧ (entryLines E service).length = service.Method.length) := by
  refine ⟨?_, ?_, ?_, ?_, ?_⟩
  · rw [generateProtobufClient_ok E g reg file service hreg hnamed, clientText,
      methodsText_blocks]
    have h1 : lineOf [str "    return \x7b"] = str "    return \x7b\n" := by decide
    have h2 : clientFootText = str "    \x7d\n" ++ (str "\x7d\n" ++ str "\n") := by decide
    rw [h1, h2, str_newline]
    simp only [List.append_assoc]
  · simp [methodBlocks]
  · intro k hk hb
    simp only [methodBlocks, List.getElem_mapIdx, stubEntry]
  · intro m _ hm
    simp [methodDocText, hm]
  · intro h
    exact ⟨methodBlocks_undocumented E reg file service h, by simp [entryLines]⟩

/-- C4, example: the service `Echo` with two methods whose fields are equal,
of which the comment index documents the second only.  Between `    return {`
and `    }` it emits the entry of the first, then the comment block and the
entry of the second, in this order; the service `Echo` of the end-to-end
scenario, one undocumented method, emits exactly its one entry line. -/
theorem C4_witness :
    methodBlocks exampleDeps twinRegistry exampleFile twinService
        = [str "        sayHello: function(data) \x7b return rpc(\"SayHello\", data, pb.HelloResp); \x7d,\n",
           str "        /**\n         * second\n         */\n        sayHello: function(data) \x7b return rpc(\"SayHello\", data, pb.HelloResp); \x7d\n"]
      ∧ (∃ before,
          generator.generateProtobufClient exampleDeps
              { reg := some twinRegistry, output := [] } exampleFile twinService
            = Except.ok (generator.emit { reg := some twinRegistry, output := [] }
                (before ++ str "    return \x7b\n"
                  ++ (methodBlocks exampleDeps twinRegistry exampleFile twinService).flatten
                  ++ str "    \x7d\n" ++ str "\x7d\n" ++ str "\n")))
      ∧ (methodBlocks exampleDeps emptyRegistry exampleFile echoService).flatten
        = str "        sayHello: function(data) \x7b return rpc(\"SayHello\", data, pb.HelloResp); \x7d\n" := by
  refine ⟨?_, ⟨_, (C4_entries_in_declaration_order exampleDeps
    { reg := some twinRegistry, output := [] } twinRegistry exampleFile twinService rfl
    (by unfold serviceNamed; decide)).1⟩, by decide⟩
  set_option maxRecDepth 100000 in decide

/-- C5, counterexample: the selector returns one file, whose only method has
no name; `Generate` panics at the slice of line 96 and returns no response,
so there is no artifact for the one selected file.  The same happens, at the
dereference of line 169, for a selected file without a path. -/
theorem C5_counterexample :
    (exampleDeps.FilesToGenerate namelessRequest).length = 1
      ∧ newGenerator.Generate exampleDeps namelessRequest = Except.error Panic.sliceBounds
      ∧ (exampleDeps.FilesToGenerate pathlessRequest).length = 1
      ∧ newGenerator.Generate exampleDeps pathlessRequest
          = Except.error Panic.nilDereference := by
  refine ⟨by decide, ?_, by decide, ?_⟩
  · have hsel : exampleDeps.FilesToGenerate namelessRequest = [namelessFile] := rfl
    unfold generator.Generate
    dsimp only
    rw [hsel]
    unfold generator.generateLoop
    rw [generateFile_empty exampleDeps _ emptyRegistry namelessFile (str "example.proto") rfl
      rfl (fun h => h namelessService (List.mem_cons_self _ _) namelessMethod
        (List.mem_cons_self _ _) (by decide))]
    rfl
  · have hsel : exampleDeps.FilesToGenerate pathlessRequest = [pathlessFile] := rfl
    unfold generator.Generate
    dsimp only
    rw [hsel]
    unfold generator.generateLoop
    rw [generateFile_noName exampleDeps _ pathlessFile rfl]
    rfl

/-- C5, amended: when every selected file has a path and no method of a
selected file has an empty camel-cased name, `Generate` returns a response
with exactly one artifact per file the selector returned, in the selector's
order, the k-th named after the path of the k-th file; none is skipped, for
`generateFile` never returns nil. -/
theorem C5_one_artifact_per_selected_file (E : Deps) (g : generator)
    (req : CodeGeneratorRequest) (hwf : filesWellFormed E (E.FilesToGenerate req)) :
    ∃ resp g', g.Generate E req = Except.ok (resp, g')
      ∧ resp.File.length = (E.FilesToGenerate req).length
      ∧ resp.File.map (fun a => a.Name)
          = (E.FilesToGenerate req).map (fun f => some (specArtifactName f.GetName))
      ∧ (∀ k (hk : k < (E.FilesToGenerate req).length) (hr : k < resp.File.length),
          resp.File[k].Name = some (specArtifactName (E.FilesToGenerate req)[k].GetName))
      ∧ (∀ (h : generator) (f : FileDescriptorProto) rf h',
          h.generateFile E f = Except.ok (rf, h') → rf ≠ none) := by
  refine ⟨_, _, Generate_ok E g req hwf, artifactsOf_length E _ _ _, artifactsOf_names E _ _ _,
    ?_, ?_⟩
  · intro k hk hr
    have hmap := artifactsOf_names E (E.typemapNew req.ProtoFile) (E.FilesToGenerate req) g.output
    have h1 := congrArg (fun l => l[k]?) hmap
    simp only [List.getElem?_map, List.getElem?_eq_getElem hk] at h1
    dsimp only at hr
    rw [List.getElem?_eq_getElem hr] at h1
    simpa using h1
  · intro h f rf h' hgen
    exact generateFile_some E h f rf h' hgen

/-- C5, example: the request of the end-to-end scenario selects one file and
`Generate` returns one artifact, named `example_pb_twirp.js`. -/
theorem C5_witness :
    ∃ resp g', newGenerator.Generate exampleDeps exampleRequest = Except.ok (resp, g')
      ∧ resp.File.map (fun a => a.Name) = [some (str "example_pb_twirp.js")] := by
  have hsel : exampleDeps.FilesToGenerate exampleRequest = [exampleFile] := rfl
  obtain ⟨resp, g', h, _, hn, _⟩ :=
    C5_one_artifact_per_selected_file exampleDeps newGenerator exampleRequest (by
      rw [hsel]
      intro f hf
      rw [List.mem_singleton] at hf
      subst hf
      exact ⟨by decide, by unfold fileNamed serviceNamed; decide⟩)
  refine ⟨resp, g', h, ?_⟩
  rw [hn, hsel]
  decide

/-- C6: end to end.  When the selector returns the one file `example.proto`
(package `example`, service `Echo`, one undocumented method `SayHello` from
`.example.HelloReq` to `.example.HelloResp`) and camel-casing leaves `Echo`
and `SayHello` as they are, `Generate` returns exactly one artifact, named
`example_pb_twirp.js`.  Its content is the header and import preamble, the
documentation block of the service (which ends in the line ` */`), the line
`module.exports.createEchoClient = function(baseurl, extraHeaders, useJSON) {`,
the line constructing the client for `example.Echo`, and a returned object
with exactly one entry, the line
`        sayHello: function(data) { return rpc("SayHello", data, pb.HelloResp); }`
with no trailing comma, between `    return {` and `    }`. -/
theorem C6_end_to_end (E : Deps) (g : generator) (req : CodeGeneratorRequest)
    (hsel : E.FilesToGenerate req = [exampleFile])
    (hEcho : E.CamelCase (str "Echo") = str "Echo")
    (hSay : E.CamelCase (str "SayHello") = str "SayHello")
    (hdoc : ¬ documented ((E.typemapNew req.ProtoFile).MethodComments exampleFile echoService
      sayHello)) :
    ∃ content g',
      g.Generate E req
          = Except.ok ({ File := [{ Name := some (str "example_pb_twirp.js"),
                                    Content := some content }] }, g')
        ∧ content
            = g.output ++ preambleText E exampleFile (str "example_pb")
              ++ serviceDocText (str "EchoClient")
                  ((E.typemapNew req.ProtoFile).ServiceComments exampleFile echoService)
              ++ str "module.exports.createEchoClient = function(baseurl, extraHeaders, useJSON) \x7b\n"
              ++ (str "    var rpc = createClient(baseurl, \"example.Echo\", "
                  ++ Quote E.printTable E.Version
                  ++ str ",  useJSON, extraHeaders === undefined ? \x7b\x7d : extraHeaders);\n")
              ++ str "    return \x7b\n"
              ++ str "        sayHello: function(data) \x7b return rpc(\"SayHello\", data, pb.HelloResp); \x7d\n"
              ++ str "    \x7d\n" ++ str "\x7d\n" ++ str "\n"
        ∧ (∃ d, serviceDocText (str "EchoClient")
              ((E.typemapNew req.ProtoFile).ServiceComments exampleFile echoService)
            = str "/**\n" ++ d ++ str " */\n")
        ∧ preambleText E exampleFile (str "example_pb")
            = str "/**\n"
              ++ (str " * Code generated by protoc-gen-twirp_js " ++ E.Version
                  ++ str ", DO NOT EDIT.\n")
              ++ str " * source: example.proto\n"
              ++ str " */\n"
              ++ str "// import our twirp js library dependency\n"
              ++ str "var createClient = require(\"twirp\");\n"
              ++ str "// import our protobuf definitions\n"
              ++ str "var pb = require(\"./example_pb.js\");\n"
              ++ str "Object.assign(module.exports, pb);\n"
              ++ str "\n" := by
  have hmeth : methodName E sayHello = str "SayHello" := by
    unfold methodName
    exact hSay
  have hwf : filesWellFormed E (E.FilesToGenerate req) := by
    rw [hsel]
    intro f hf
    rw [List.mem_singleton] at hf
    subst hf
    refine ⟨by decide, ?_⟩
    intro s hs m hm
    have hs' : s = echoService := by simpa [exampleFile] using hs
    subst hs'
    have hm' : m = sayHello := by simpa [echoService] using hm
    subst hm'
    rw [hmeth]
    decide
  have hclient : clientName E echoService = str "EchoClient" := by
    unfold clientName serviceName
    have h0 : echoService.GetName = str "Echo" := rfl
    rw [h0, hEcho]
    decide
  have hfactory : factoryLine E echoService ++ [10]
      = str "module.exports.createEchoClient = function(baseurl, extraHeaders, useJSON) \x7b\n" := by
    unfold factoryLine
    rw [hclient]
    decide
  have hfull : fullServiceName E exampleFile echoService = str "example.Echo" := by
    unfold fullServiceName serviceName
    have h0 : echoService.GetName = str "Echo" := rfl
    have h1 : exampleFile.GetPackage = str "example" := rfl
    rw [h0, h1, hEcho]
    decide
  have hrpc : rpcLine E exampleFile echoService ++ [10]
      = str "    var rpc = createClient(baseurl, \"example.Echo\", "
        ++ Quote E.printTable E.Version
        ++ str ",  useJSON, extraHeaders === undefined ? \x7b\x7d : extraHeaders);\n" := by
    unfold rpcLine
    rw [hfull, Quote_plain E.printTable (str "example.Echo") (by decide)]
    have h1 : str "    var rpc = createClient(baseurl, " ++ ([34] ++ str "example.Echo" ++ [34])
        ++ str ", " = str "    var rpc = createClient(baseurl, \"example.Echo\", " := by decide
    have h2 : str ",  useJSON, extraHeaders === undefined ? \x7b\x7d : extraHeaders);\n"
        = str ",  useJSON, extraHeaders === undefined ? \x7b\x7d : extraHeaders);" ++ [10] := by decide
    rw [h1, h2]
    simp only [List.append_assoc]
  have hentry : stubEntry E sayHello (commaAt 1 0) ++ [10]
      = str "        sayHello: function(data) \x7b return rpc(\"SayHello\", data, pb.HelloResp); \x7d\n" := by
    unfold stubEntry
    rw [hmeth, Quote_plain E.printTable (str "SayHello") (by decide)]
    have h1 : str "SayHello" = 83 :: [97, 121, 72, 101, 108, 108, 111] := by decide
    rw [h1, stubName_ascii E 83 _ (by decide)]
    decide
  have hmethods : methodsText E (E.typemapNew req.ProtoFile) exampleFile echoService
      ((echoService.Method.length : Nat) : Int) 0 echoService.Method
      = str "        sayHello: function(data) \x7b return rpc(\"SayHello\", data, pb.HelloResp); \x7d\n" := by
    have h0 : echoService.Method = [sayHello] := rfl
    rw [h0]
    simp only [methodsText, methodText, methodDocText, if_neg hdoc, List.append_nil,
      List.nil_append, List.length_singleton, Nat.cast_one]
    exact hentry
  have hpre : preambleText E exampleFile (str "example_pb")
      = str "/**\n"
        ++ (str " * Code generated by protoc-gen-twirp_js " ++ E.Version
            ++ str ", DO NOT EDIT.\n")
        ++ str " * source: example.proto\n"
        ++ str " */\n"
        ++ str "// import our twirp js library dependency\n"
        ++ str "var createClient = require(\"twirp\");\n"
        ++ str "// import our protobuf definitions\n"
        ++ str "var pb = require(\"./example_pb.js\");\n"
        ++ str "Object.assign(module.exports, pb);\n"
        ++ str "\n" := by
    unfold preambleText
    have h0 : FindString (str "example_pb") = str "example_pb" := by decide
    rw [h0, Quote_plain E.printTable (str "./" ++ str "example_pb" ++ str ".js") (by decide)]
    have h1 : lineOf [str "/**"] = str "/**\n" := by decide
    have h2 : lineOf [str " * source: ", exampleFile.GetName]
        = str " * source: example.proto\n" := by decide
    have h3 : lineOf [str " */"] = str " */\n" := by decide
    have h4 : lineOf [str "// import our twirp js library dependency"]
        = str "// import our twirp js library dependency\n" := by decide
    have h5 : lineOf [str "var createClient = require(\"twirp\");"]
        = str "var createClient = require(\"twirp\");\n" := by decide
    have h6 : lineOf [str "// import our protobuf definitions"]
        = str "// import our protobuf definitions\n" := by decide
    have h7 : lineOf [str "var pb = require(",
        [34] ++ (str "./" ++ str "example_pb" ++ str ".js") ++ [34], str ");"]
        = str "var pb = require(\"./example_pb.js\");\n" := by decide
    have h8 : lineOf [str "Object.assign(module.exports, pb);"]
        = str "Object.assign(module.exports, pb);\n" := by decide
    have h9 : lineOf [] = str "\n" := by decide
    have h10 : str ", DO NOT EDIT.\n" = str ", DO NOT EDIT." ++ [10] := by decide
    rw [h1, h2, h3, h4, h5, h6, h7, h8, h9, h10]
    simp [lineOf, List.append_assoc]
  rw [Generate_ok E g req hwf, hsel]
  refine ⟨g.output ++ fileText E (E.typemapNew req.ProtoFile) exampleFile (str "example.proto"),
    afterFiles { reg := some (E.typemapNew req.ProtoFile), output := g.output } [exampleFile],
    ?_, ?_, ?_, hpre⟩
  · have hname : specArtifactName exampleFile.GetName = str "example_pb_twirp.js" := by decide
    simp only [artifactsOf, artifactOf, hname]
    rfl
  · have hstrip : stripExtension (str "example.proto") ++ str "_pb" = str "example_pb" := by
      decide
    have hservices : exampleFile.Service = [echoService] := rfl
    have hfoot : clientFootText = str "    \x7d\n" ++ (str "\x7d\n" ++ str "\n") := by decide
    have hret : lineOf [str "    return \x7b"] = str "    return \x7b\n" := by decide
    unfold fileText
    rw [hstrip, hservices]
    simp only [servicesText, clientText, hclient, hfactory, hrpc, hmethods, hfoot, hret,
      List.append_nil, List.append_assoc]
  · unfold serviceDocText
    have h1 : lineOf [str "/**"] = str "/**\n" := by decide
    have h2 : lineOf [str " */"] = str " */\n" := by decide
    rw [h1, h2]
    exact ⟨_, rfl⟩

/-- C6, example: the request of the end-to-end scenario under the
dependencies of the examples; the artifact is named `example_pb_twirp.js`. -/
theorem C6_witness :
    ∃ content g',
      newGenerator.Generate exampleDeps exampleRequest
        = Except.ok ({ File := [{ Name := some (str "example_pb_twirp.js"),
                                  Content := some content }] }, g') := by
  obtain ⟨content, g', h, _⟩ := C6_end_to_end exampleDeps newGenerator exampleRequest rfl rfl rfl
    (by decide)
  exact ⟨content, g', h⟩

/-- C7, counterexample: the service whose only method has no name, with the
comment index that reports not-found for every lookup.  The documentation
block is the three synthesized lines, and generation does not proceed without
error: the slice `methName[0:1]` of line 96 is out of range for the empty
camel-cased name of the method and `generateProtobufClient` panics. -/
theorem C7_counterexample :
    (emptyRegistry.ServiceComments namelessFile namelessService).2 ≠ none
      ∧ (exampleGenerator.serviceDoc (clientName exampleDeps namelessService)
            (emptyRegistry.ServiceComments namelessFile namelessService)).output
          = str "/**\n * Creates a new EchoClient\n */\n"
      ∧ exampleGenerator.reg = some emptyRegistry
      ∧ exampleGenerator.generateProtobufClient exampleDeps namelessFile namelessService
          = Except.error Panic.sliceBounds := by
  refine ⟨by decide, by decide, rfl, ?_⟩
  exact generateProtobufClient_empty exampleDeps exampleGenerator emptyRegistry namelessFile
    namelessService rfl ⟨namelessMethod, List.mem_cons_self _ _, by decide⟩

/-- C7, amended: for a service whose comment lookup reports an error or returns an
empty leading text, the documentation block is exactly the three lines `/**`,
` * Creates a new <ClientTypeName>` and ` */`, with the client type name the
camel-cased service name followed by `Client`; nothing of the lookup's result
is emitted.  Generation goes on with the factory line: it succeeds whenever
no method has an empty camel-cased name, and a failure is never due to the
missing documentation, only to such a method. -/
theorem C7_missing_service_documentation (E : Deps) (g : generator) (reg : Registry)
    (file : FileDescriptorProto) (service : ServiceDescriptorProto)
    (hmiss : (reg.ServiceComments file service).2 ≠ none
      ∨ (reg.ServiceComments file service).1.Leading = []) :
    (g.serviceDoc (clientName E service) (reg.ServiceComments file service)).output
        = g.output ++ str "/**\n"
          ++ (str " * Creates a new " ++ (E.CamelCase service.GetName ++ str "Client")
              ++ str "\n")
          ++ str " */\n"
      ∧ (g.reg = some reg → serviceNamed E service →
          g.generateProtobufClient E file service
            = Except.ok (g.emit
                (str "/**\n"
                  ++ (str " * Creates a new " ++ (E.CamelCase service.GetName ++ str "Client")
                      ++ str "\n")
                  ++ str " */\n"
                  ++ (factoryLine E service ++ str "\n") ++ (rpcLine E file service ++ str "\n")
                  ++ str "    return \x7b\n"
                  ++ (methodBlocks E reg file service).flatten
                  ++ str "    \x7d\n" ++ str "\x7d\n" ++ str "\n")))
      ∧ (g.reg = some reg → ∀ e, g.generateProtobufClient E file service = Except.error e →
          ∃ m ∈ service.Method, methodName E m = []) := by
  have hnd : ¬ documented (reg.ServiceComments file service) := by
    unfold documented
    rcases hmiss with h | h
    · exact fun hd => h hd.1
    · exact fun hd => hd.2 h
  have hdoc : serviceDocText (clientName E service) (reg.ServiceComments file service)
      = str "/**\n"
        ++ (str " * Creates a new " ++ (E.CamelCase service.GetName ++ str "Client") ++ str "\n")
        ++ str " */\n" := by
    unfold serviceDocText
    rw [if_neg hnd]
    have h1 : lineOf [str "/**"] = str "/**\n" := by decide
    have h2 : lineOf [str " */"] = str " */\n" := by decide
    rw [h1, h2, str_newline]
    simp [lineOf, clientName, serviceName]
  refine ⟨?_, ?_, ?_⟩
  · rw [serviceDoc_eq, emit_output, hdoc]
    simp only [List.append_assoc]
  · intro hreg hnamed
    rw [generateProtobufClient_ok E g reg file service hreg hnamed, clientText,
      methodsText_blocks, hdoc]
    have h1 : lineOf [str "    return \x7b"] = str "    return \x7b\n" := by decide
    have h2 : clientFootText = str "    \x7d\n" ++ (str "\x7d\n" ++ str "\n") := by decide
    rw [h1, h2, str_newline]
    simp only [List.append_assoc]
  · intro hreg e he
    exact generateProtobufClient_error E g reg file service hreg e he

/-- C7, example: the service `Echo` with the empty comment index gets the
block `/**`, ` * Creates a new EchoClient`, ` */`, and its generation goes on
to the end without error. -/
theorem C7_witness :
    (exampleGenerator.serviceDoc (clientName exampleDeps echoService)
          (emptyRegistry.ServiceComments exampleFile echoService)).output
        = str "/**\n * Creates a new EchoClient\n */\n"
      ∧ (exampleGenerator.generateProtobufClient exampleDeps exampleFile echoService).toOption.map
          (fun g => g.output)
        = some (str "/**\n * Creates a new EchoClient\n */\nmodule.exports.createEchoClient = function(baseurl, extraHeaders, useJSON) \x7b\n    var rpc = createClient(baseurl, \"example.Echo\", \"v0.1\",  useJSON, extraHeaders === undefined ? \x7b\x7d : extraHeaders);\n    return \x7b\n        sayHello: function(data) \x7b return rpc(\"SayHello\", data, pb.HelloResp); \x7d\n    \x7d\n\x7d\n\n") := by
  have h := C7_missing_service_documentation exampleDeps exampleGenerator emptyRegistry
    exampleFile echoService (Or.inl (by decide))
  refine ⟨?_, ?_⟩
  · rw [h.1]
    decide
  · rw [h.2.1 rfl (by unfold serviceNamed; decide)]
    set_option maxRecDepth 100000 in decide

/-- C8: for every leading text `L` (the empty one included) and prefix `p`,
`printComments` appends one line per line of `L'`, where `L'` is `L` with one
final newline removed when present: the lines number one more than the
newlines of `L'`, each starts with `p`, none contains a newline when `p` has
none, and nothing follows the last of them; the text `"a\nb\n"` gives exactly
the two lines `p ++ "a"` and `p ++ "b"`. -/
theorem C8_printComments_line_count (g : generator) (c : DefinitionComments) (p : GoString) :
    (∃ lines : List GoString,
        (g.printComments c p).output = g.output ++ (lines.map (fun l => l ++ str "\n")).flatten
          ∧ lines.length = (withoutFinalNewline c.Leading).count 10 + 1
          ∧ (∀ l ∈ lines, p <+: l)
          ∧ (10 ∉ p → ∀ l ∈ lines, 10 ∉ l))
      ∧ (c.Leading = str "a\nb\n" →
          (g.printComments c p).output = g.output ++ (p ++ str "a\n") ++ (p ++ str "b\n")) := by
  rw [printComments_eq, emit_output, withoutFinalNewline_eq, str_newline]
  constructor
  · refine ⟨(Split (withoutFinalNewline c.Leading) 10).map
      (fun l => p ++ TrimPrefix l (str " ")), ?_, ?_, ?_, ?_⟩
    · congr 1
      rw [List.map_map]
      congr 1
      apply List.map_congr_left
      intro l _
      simp [lineOf]
    · rw [List.length_map, Split_length]
    · intro l hl
      obtain ⟨x, _, rfl⟩ := List.mem_map.1 hl
      exact List.prefix_append _ _
    · intro hp l hl
      obtain ⟨x, hx, rfl⟩ := List.mem_map.1 hl
      have hx10 : 10 ∉ x := Split_not_mem _ 10 x hx
      have htrim : 10 ∉ TrimPrefix x (str " ") := by
        unfold TrimPrefix
        split
        · exact fun h => hx10 (List.mem_of_mem_drop h)
        · exact hx10
      intro hmem
      rcases List.mem_append.1 hmem with h | h
      · exact hp h
      · exact htrim h
  · intro hL
    rw [hL]
    have h1 : Split (withoutFinalNewline (str "a\nb\n")) 10 = [str "a", str "b"] := by decide
    have h2 : TrimPrefix (str "a") (str " ") = str "a" := by decide
    have h3 : TrimPrefix (str "b") (str " ") = str "b" := by decide
    have h4 : str "a\n" = str "a" ++ [10] := by decide
    have h5 : str "b\n" = str "b" ++ [10] := by decide
    rw [h1, h4, h5]
    simp [lineOf, h2, h3, List.append_assoc]

/-- C9, counterexample: the leading text `" a\n"`, the form in which the
comment `// a` arrives, has the one line `" a"`; with the prefix `" * "` the
emitted line is `" * a"`, not the prefix followed by the line, `" *  a"`:
the space at the start of the line is removed. -/
theorem C9_counterexample :
    docLines spacedComment.Leading = [str " a"]
      ∧ (exampleGenerator.printComments spacedComment (str " * ")).output = str " * a\n"
      ∧ (exampleGenerator.printComments spacedComment (str " * ")).output
          ≠ str " * " ++ str " a" ++ str "\n" := by
  decide

/-- C9, amended: the i-th comment line `printComments` emits is the prefix
followed by the i-th line of `L` without one leading space when the line has
one (line 137 trims it), and with no other byte of the line added, removed or
changed; a line that does not start with a space is emitted verbatim.  The
lines of `L` are its pieces between newlines, the final newline apart.  The
documentation block of a documented service is `/**`, these lines with the
prefix ` * `, and ` */`; the block of a documented method is the same with
the prefixes of the method level. -/
theorem C9_comment_lines_trim_one_space (g : generator) (c : DefinitionComments)
    (p : GoString) :
    (g.printComments c p).output
        = g.output
          ++ ((docLines c.Leading).map (fun l => p ++ withoutLeadingSpace l ++ str "\n")).flatten
      ∧ (∀ l t, l = 32 :: t → withoutLeadingSpace l = t)
      ∧ (∀ l, l.head? ≠ some 32 → withoutLeadingSpace l = l)
      ∧ [10].intercalate (docLines c.Leading) = withoutFinalNewline c.Leading
      ∧ (∀ l ∈ docLines c.Leading, 10 ∉ l)
      ∧ (∀ cName lookup, documented lookup →
          (g.serviceDoc cName lookup).output
            = g.output ++ str "/**\n"
              ++ ((docLines lookup.1.Leading).map
                  (fun l => str " * " ++ withoutLeadingSpace l ++ str "\n")).flatten
              ++ str " */\n")
      ∧ (∀ lookup, documented lookup →
          methodDocText lookup
            = str "        /**\n"
              ++ ((docLines lookup.1.Leading).map
                  (fun l => str "         * " ++ withoutLeadingSpace l ++ str "\n")).flatten
              ++ str "         */\n") := by
  refine ⟨?_, ?_, ?_, ?_, ?_, ?_, ?_⟩
  · rw [printComments_eq, emit_output, ← commentText_eq]
    rfl
  · intro l t h
    subst h
    rfl
  · intro l h
    unfold withoutLeadingSpace
    split
    · exact absurd rfl h
    · rfl
  · exact Split_intercalate _ 10
  · exact Split_not_mem _ 10
  · intro cName lookup hd
    rw [serviceDoc_eq, emit_output, serviceDocText, if_pos hd, commentText_eq]
    have h1 : lineOf [str "/**"] = str "/**\n" := by decide
    have h2 : lineOf [str " */"] = str " */\n" := by decide
    rw [h1, h2, List.append_assoc, List.append_assoc, List.append_assoc]
  · intro lookup hd
    rw [methodDocText, if_pos hd, commentText_eq]
    have h1 : lineOf [str "        /**"] = str "        /**\n" := by decide
    have h2 : lineOf [str "         */"] = str "         */\n" := by decide
    rw [h1, h2]

/-- C10: after `P(a_1, ..., a_k)` the accumulator holds the earlier content,
then the fragments joined with no separator, then exactly one newline; the
earlier content is kept as a prefix and `P()` with no fragments appends only
the newline.  The comment index of the generator is not touched. -/
theorem C10_P_appends_one_line (g : generator) (args : List GoString) :
    (g.P args).output = g.output ++ args.flatten ++ str "\n"
      ∧ g.output <+: (g.P args).output
      ∧ (g.P []).output = g.output ++ str "\n"
      ∧ (g.P args).reg = g.reg := by
  rw [str_newline]
  refine ⟨?_, ?_, ?_, ?_⟩
  · rw [P_eq_emit, emit_output, lineOf, List.append_assoc]
  · rw [P_eq_emit, emit_output]
    exact List.prefix_append _ _
  · rw [P_eq_emit, emit_output, lineOf]
    rfl
  · rw [P_eq_emit, emit_reg]

/-- C11: no cross-artifact interference.  The accumulator of `newGenerator` is
empty, and it is empty again after every call of `generateFile` that returns,
the comment index being left as it was.  So, whenever `Generate` on a new
generator returns a response, it holds one artifact per selected file and the
k-th artifact is the very artifact, name and content, that `generateFile`
returns for the k-th file alone on a fresh generator with the same comment
index and an empty accumulator, whichever files came before; the accumulator
is empty at the end.  `Generate` does return when every selected file has a
path and no method with an empty camel-cased name. -/
theorem C11_no_cross_artifact_interference (E : Deps) (req : CodeGeneratorRequest) :
    newGenerator.output = []
      ∧ (∀ (g : generator) (f : FileDescriptorProto) rf g',
          g.generateFile E f = Except.ok (rf, g') → g'.output = [] ∧ g'.reg = g.reg)
      ∧ (∀ resp g', newGenerator.Generate E req = Except.ok (resp, g') →
          resp.File.length = (E.FilesToGenerate req).length
            ∧ g'.output = []
            ∧ ∀ k (hk : k < (E.FilesToGenerate req).length) (hr : k < resp.File.length),
                generator.generateFile E
                    { reg := some (E.typemapNew req.ProtoFile), output := [] }
                    (E.FilesToGenerate req)[k]
                  = Except.ok (some resp.File[k],
                      { reg := some (E.typemapNew req.ProtoFile), output := [] }))
      ∧ (filesWellFormed E (E.FilesToGenerate req) →
          ∃ resp g', newGenerator.Generate E req = Except.ok (resp, g')) := by
  refine ⟨rfl, ?_, ?_, ?_⟩
  · intro g f rf g' h
    cases hn : f.Name with
    | none =>
      rw [generateFile_noName E g f hn] at h
      exact absurd h (by simp)
    | some p =>
      obtain ⟨a, _, _, hout⟩ := generateFile_name E g f p hn rf g' h
      refine ⟨hout, ?_⟩
      unfold generator.generateFile at h
      simp only [P_eq_emit, emit_emit, baseFileName_eq f p hn, bind, Except.bind, pure,
        Except.pure] at h
      split at h
      · exact absurd h (by simp)
      · rename_i g2 hloop
        injection h with h
        injection h with _ h2
        subst h2
        have hreg2 : ∀ (services : List ServiceDescriptorProto) (h1 h2 : generator),
            generator.serviceLoop E f services h1 = Except.ok h2 → h2.reg = h1.reg := by
          intro services
          induction services with
          | nil =>
            intro h1 h2 hh
            unfold generator.serviceLoop at hh
            injection hh with hh
            rw [hh]
          | cons s rest ih =>
            intro h1 h2 hh
            cases hr : h1.reg with
            | none =>
              unfold generator.serviceLoop at hh
              rw [generateProtobufClient_nilreg E h1 f s hr] at hh
              exact absurd hh (by simp [bind, Except.bind])
            | some reg =>
              by_cases hs : serviceNamed E s
              · unfold generator.serviceLoop at hh
                rw [generateProtobufClient_ok E h1 reg f s hr hs] at hh
                simp only [bind, Except.bind] at hh
                rw [ih _ _ hh, emit_reg, hr]
              · have hex : ∃ m ∈ s.Method, methodName E m = [] := by
                  unfold serviceNamed at hs
                  push_neg at hs
                  exact hs
                unfold generator.serviceLoop at hh
                rw [generateProtobufClient_empty E h1 reg f s hr hex] at hh
                exact absurd hh (by simp [bind, Except.bind])
        have := hreg2 f.Service _ _ hloop
        simpa [emit_reg] using this
  · intro resp g' h
    have hwf := Generate_wf E newGenerator req resp g' h
    rw [Generate_ok E newGenerator req hwf] at h
    injection h with h
    injection h with h1 h2
    subst h1
    subst h2
    refine ⟨artifactsOf_length E _ _ _, afterFiles_output _ _ rfl, ?_⟩
    intro k hk hr
    obtain ⟨hn, hnamed⟩ := hwf _ (List.getElem_mem hk)
    obtain ⟨p, hp⟩ := Option.ne_none_iff_exists'.1 hn
    rw [generateFile_ok E _ (E.typemapNew req.ProtoFile) _ p rfl hp hnamed]
    congr 3
    have hout : newGenerator.output = [] := rfl
    simp only [hout, artifactsOf_nil_pre, List.getElem_map]
  · intro hwf
    exact ⟨_, _, Generate_ok E newGenerator req hwf⟩

/-- C11, example: `Generate` returns a response for the request of the
end-to-end scenario, whose one file has a path and a named method. -/
theorem C11_witness :
    ∃ resp g', newGenerator.Generate exampleDeps exampleRequest = Except.ok (resp, g') :=
  (C11_no_cross_artifact_interference exampleDeps exampleRequest).2.2.2 (by
    intro f hf
    have hsel : exampleDeps.FilesToGenerate exampleRequest = [exampleFile] := rfl
    rw [hsel, List.mem_singleton] at hf
    subst hf
    exact ⟨by decide, by unfold fileNamed serviceNamed; decide⟩)

/-- C12: the output short name `methodTypesNames` returns for an output-type
reference `t` is the final dot-separated segment of `t`: it contains no dot,
and either `t` contains no dot and the result is `t`, or `t` is some `q`, a
dot and the result; `.example.HelloResp` gives `HelloResp`.  The call never
fails, and the name is what the stub entry of the method emits after `pb.`. -/
theorem C12_output_short_name (meth : MethodDescriptorProto) (t : GoString) :
    (∃ inp, methodTypesNames meth = Except.ok (inp, lastSegment meth.GetOutputType))
      ∧ (∀ (n i : Option GoString) (a : Nat),
          methodTypesNames { Name := n, InputType := i, OutputType := some t, addr := a }
            = Except.ok (lastSegment (getString i), lastSegment t))
      ∧ 46 ∉ lastSegment t
      ∧ ((46 ∉ t ∧ lastSegment t = t) ∨ ∃ q, t = q ++ str "." ++ lastSegment t)
      ∧ lastSegment (str ".example.HelloResp") = str "HelloResp"
      ∧ (∀ (E : Deps) (comma : GoString),
          stubEntry E meth comma
            = str "        " ++ stubName E (methodName E meth)
              ++ str ": function(data) \x7b return rpc("
              ++ Quote E.printTable (methodName E meth) ++ str ", data, pb."
              ++ lastSegment meth.GetOutputType ++ str "); \x7d" ++ comma)
      ∧ (∀ (E : Deps) (g : generator) (reg : Registry) (file : FileDescriptorProto)
            (service : ServiceDescriptorProto) (l i : Int),
          g.reg = some reg → methodName E meth ≠ [] →
          g.generateMethod E file service l i meth
            = Except.ok (g.emit (methodDocText (reg.MethodComments file service meth)
                ++ (stubEntry E meth (commaAt l i) ++ [10])))) := by
  refine ⟨⟨_, methodTypesNames_ok meth⟩, ?_, lastSegment_not_mem t, ?_, by decide, ?_, ?_⟩
  · intro n i a
    exact methodTypesNames_ok _
  · rcases exists_last_sep t 46 with h | ⟨q, r, hqr, hr⟩
    · exact Or.inl ⟨h, lastSegment_of_not_mem t h⟩
    · right
      refine ⟨q, ?_⟩
      have hdot : str "." = [46] := by decide
      rw [hqr, lastSegment_append q r hr, hdot]
      simp
  · intro E comma
    rfl
  · intro E g reg file service l i hreg hname
    rw [generateMethod_ok E g reg file service l i meth hreg hname]
    rfl

/-- C12, example: the names of the method `SayHello`; the output short name
of `.example.HelloResp` is `HelloResp`. -/
theorem C12_witness :
    methodTypesNames sayHello = Except.ok (str "HelloReq", str "HelloResp") :=
  (show methodTypesNames sayHello = _ from
    (C12_output_short_name sayHello (str ".example.HelloResp")).2.1
      (some (str "SayHello")) (some (str ".example.HelloReq")) 0).trans (by decide)

/-- C13: in a service with `n >= 1` methods the stub entry of each of the
first `n - 1` methods is followed by the separator and ends with `); },`,
and the stub entry of the last method ends with `); }` with no comma after
it; a service with one method has no separator.  The entry the loop body
emits for the index `i` of `l` ends with `); }` when `i = l - 1` and with
`); },` otherwise, and the k-th block of a generated service is the comment
block of the k-th method followed by the k-th of these entries. -/
theorem C13_separator_after_all_but_last (E : Deps) (service : ServiceDescriptorProto) :
    (entryLines E service).length = service.Method.length
      ∧ (∀ k (hk : k < service.Method.length) (he : k < (entryLines E service).length),
          (k + 1 < service.Method.length →
              (entryLines E service)[k] = stubEntry E service.Method[k] (str "") ++ str ","
                ∧ str "); \x7d," <:+ (entryLines E service)[k])
            ∧ (k + 1 = service.Method.length →
              (entryLines E service)[k] = stubEntry E service.Method[k] (str "")
                ∧ str "); \x7d" <:+ (entryLines E service)[k]
                ∧ ¬ str "," <:+ (entryLines E service)[k]))
      ∧ (∀ m : MethodDescriptorProto, str "); \x7d" <:+ stubEntry E m (str ""))
      ∧ (∀ m : MethodDescriptorProto, service.Method = [m] →
          entryLines E service = [stubEntry E m (str "")])
      ∧ (∀ (g g' : generator) (file : FileDescriptorProto) (l i : Int)
            (method : MethodDescriptorProto),
          g.generateMethod E file service l i method = Except.ok g' →
          (i = l - 1 →
              str "); \x7d\n" <:+ g'.output
                ∧ (stubEntry E method (str "") ++ str "\n") <:+ g'.output)
            ∧ (i ≠ l - 1 →
              str "); \x7d,\n" <:+ g'.output
                ∧ (stubEntry E method (str "") ++ str ",\n") <:+ g'.output))
      ∧ (∀ (g : generator) (reg : Registry) (file : FileDescriptorProto),
          g.reg = some reg → serviceNamed E service →
          g.generateProtobufClient E file service
              = Except.ok (g.emit
                  (serviceDocText (clientName E service) (reg.ServiceComments file service)
                    ++ (factoryLine E service ++ str "\n")
                    ++ (rpcLine E file service ++ str "\n")
                    ++ str "    return \x7b\n"
                    ++ (methodBlocks E reg file service).flatten
                    ++ str "    \x7d\n" ++ str "\x7d\n" ++ str "\n"))
            ∧ (methodBlocks E reg file service).length = service.Method.length
            ∧ ∀ k (hk : k < service.Method.length)
                (hb : k < (methodBlocks E reg file service).length)
                (he : k < (entryLines E service).length),
                (methodBlocks E reg file service)[k]
                  = methodDocText (reg.MethodComments file service service.Method[k])
                    ++ ((entryLines E service)[k] ++ str "\n")) := by
  have hsuffix : ∀ m : MethodDescriptorProto, str "); \x7d" <:+ stubEntry E m (str "") := by
    intro m
    unfold stubEntry
    rw [str_empty, List.append_nil]
    exact List.suffix_append _ _
  have hsuffixc : ∀ m : MethodDescriptorProto,
      str "); \x7d," <:+ stubEntry E m (str "") ++ str "," := by
    intro m
    obtain ⟨x, hx⟩ := hsuffix m
    refine ⟨x, ?_⟩
    have h1 : str "); \x7d," = str "); \x7d" ++ str "," := by decide
    rw [h1, ← List.append_assoc, hx]
  have hnocomma : ∀ m : MethodDescriptorProto, ¬ str "," <:+ stubEntry E m (str "") := by
    intro m hs
    obtain ⟨x, hx⟩ := hs
    have hl := stubEntry_last E m
    rw [← hx, str_comma] at hl
    simp at hl
  refine ⟨by simp [entryLines], ?_, hsuffix, ?_, ?_, ?_⟩
  · intro k hk he
    rw [entryLines_getElem E service k hk he]
    constructor
    · intro hlt
      rw [commaAt_inner _ _ (by omega), stubEntry_comma]
      exact ⟨rfl, hsuffixc _⟩
    · intro heq
      rw [commaAt_last _ _ heq]
      exact ⟨rfl, hsuffix _, hnocomma _⟩
  · intro m hm
    unfold entryLines
    rw [hm]
    simp only [List.mapIdx_cons, List.mapIdx_nil, List.length_singleton]
    have : commaAt ((1 : Nat) : Int) ((0 : Nat) : Int) = str "" := commaAt_last 1 0 rfl
    rw [this]
  · intro g g' file l i method h
    obtain ⟨reg, _, _, hg⟩ := generateMethod_ok_inv E g g' file service l i method h
    rw [hg, emit_output, methodText]
    constructor
    · intro hi
      unfold commaAt
      rw [if_pos hi]
      have h1 : str "); \x7d\n" = str "); \x7d" ++ [10] := by decide
      constructor
      · obtain ⟨x, hx⟩ := hsuffix method
        refine ⟨g.output ++ methodDocText (reg.MethodComments file service method) ++ x, ?_⟩
        rw [h1, ← hx]
        simp only [List.append_assoc]
      · refine ⟨g.output ++ methodDocText (reg.MethodComments file service method), ?_⟩
        rw [str_newline]
        simp only [List.append_assoc]
    · intro hi
      unfold commaAt
      rw [if_neg hi, stubEntry_comma]
      have h1 : str "); \x7d,\n" = str "); \x7d" ++ (str "," ++ [10]) := by decide
      have h2 : str ",\n" = str "," ++ [10] := by decide
      constructor
      · obtain ⟨x, hx⟩ := hsuffix method
        refine ⟨g.output ++ methodDocText (reg.MethodComments file service method) ++ x, ?_⟩
        rw [h1, ← hx]
        simp only [List.append_assoc]
      · refine ⟨g.output ++ methodDocText (reg.MethodComments file service method), ?_⟩
        rw [h2]
        simp only [List.append_assoc]
  · intro g reg file hreg hnamed
    refine ⟨generateProtobufClient_blocks E g reg file service hreg hnamed,
      by simp [methodBlocks], ?_⟩
    intro k hk hb he
    rw [methodBlocks_getElem E reg file service k hk hb, entryLines_getElem E service k hk he]

/-- C13, example: in the service with the methods `SayHello` and `Bye` the
entry of `SayHello` ends with the separator and the entry of `Bye` does not;
in the service with the one method `SayHello` there is no separator. -/
theorem C13_witness :
    entryLines exampleDeps twoMethodService
        = [str "        sayHello: function(data) \x7b return rpc(\"SayHello\", data, pb.HelloResp); \x7d,",
           str "        bye: function(data) \x7b return rpc(\"Bye\", data, pb.ByeResp); \x7d"]
      ∧ entryLines exampleDeps echoService = [stubEntry exampleDeps sayHello (str "")] :=
  ⟨by decide, (C13_separator_after_all_but_last exampleDeps echoService).2.2.2.1 sayHello rfl⟩

/-- C14, counterexample: the service with the methods `SayHello` and `Bye`,
without documentation.  Removing the last method, `Bye`, changes the entry
line of the remaining method `SayHello`: it ends with `); },` before and
with `); }` after, for the separator is emitted for every entry but the last. -/
theorem C14_counterexample :
    (exampleGenerator.generateProtobufClient exampleDeps exampleFile twoMethodService).toOption.map
        (fun g => g.output)
      = some (str "/**\n * Creates a new EchoClient\n */\nmodule.exports.createEchoClient = function(baseurl, extraHeaders, useJSON) \x7b\n    var rpc = createClient(baseurl, \"example.Echo\", \"v0.1\",  useJSON, extraHeaders === undefined ? \x7b\x7d : extraHeaders);\n    return \x7b\n        sayHello: function(data) \x7b return rpc(\"SayHello\", data, pb.HelloResp); \x7d,\n        bye: function(data) \x7b return rpc(\"Bye\", data, pb.ByeResp); \x7d\n    \x7d\n\x7d\n\n")
      ∧ (exampleGenerator.generateProtobufClient exampleDeps exampleFile
            (removeMethod twoMethodService 1)).toOption.map (fun g => g.output)
        = some (str "/**\n * Creates a new EchoClient\n */\nmodule.exports.createEchoClient = function(baseurl, extraHeaders, useJSON) \x7b\n    var rpc = createClient(baseurl, \"example.Echo\", \"v0.1\",  useJSON, extraHeaders === undefined ? \x7b\x7d : extraHeaders);\n    return \x7b\n        sayHello: function(data) \x7b return rpc(\"SayHello\", data, pb.HelloResp); \x7d\n    \x7d\n\x7d\n\n")
      ∧ (methodBlocks exampleDeps emptyRegistry exampleFile twoMethodService)[0]?
        = some (str "        sayHello: function(data) \x7b return rpc(\"SayHello\", data, pb.HelloResp); \x7d,\n")
      ∧ (methodBlocks exampleDeps emptyRegistry exampleFile (removeMethod twoMethodService 1))[0]?
        = some (str "        sayHello: function(data) \x7b return rpc(\"SayHello\", data, pb.HelloResp); \x7d\n")
      ∧ (methodBlocks exampleDeps emptyRegistry exampleFile twoMethodService)[0]?
        ≠ (methodBlocks exampleDeps emptyRegistry exampleFile (removeMethod twoMethodService 1))[0]? := by
  refine ⟨?_, ?_, ?_, ?_, ?_⟩ <;> set_option maxRecDepth 100000 in decide

/-- C14, amended: removing the method at position `i` from a service, the
documentation of the other methods staying as it was, leaves one block less.
When the removed method is not the last one, the blocks of the remaining
methods (comment block and entry line of each) are the blocks of before
without the one at `i`, identical byte for byte.  When the removed method is
the last one, the blocks of the methods before the new last one are
identical, and the entry line of the new last method keeps everything but its
trailing comma: `); },` becomes `); }`.  The blocks are what
`generateProtobufClient` emits between `    return {` and `    }` for either
service. -/
theorem C14_locality_of_method_removal (E : Deps) (reg reg' : Registry)
    (file file' : FileDescriptorProto) (service : ServiceDescriptorProto) (i : Nat)
    (hi : i < service.Method.length)
    (hdoc : ∀ m ∈ (removeMethod service i).Method,
      reg'.MethodComments file' (removeMethod service i) m = reg.MethodComments file service m) :
    (methodBlocks E reg' file' (removeMethod service i)).length + 1
        = (methodBlocks E reg file service).length
      ∧ (i + 1 < service.Method.length →
          methodBlocks E reg' file' (removeMethod service i)
            = (methodBlocks E reg file service).eraseIdx i)
      ∧ (i + 1 = service.Method.length → ∀ k, k + 1 < i →
          (methodBlocks E reg' file' (removeMethod service i))[k]?
            = (methodBlocks E reg file service)[k]?)
      ∧ (i + 1 = service.Method.length → ∀ k (hk : k < service.Method.length), k + 1 = i →
          (methodBlocks E reg file service)[k]?
              = some (methodDocText (reg.MethodComments file service service.Method[k])
                  ++ (stubEntry E service.Method[k] (str "") ++ str ",\n"))
            ∧ (methodBlocks E reg' file' (removeMethod service i))[k]?
              = some (methodDocText (reg.MethodComments file service service.Method[k])
                  ++ (stubEntry E service.Method[k] (str "") ++ str "\n")))
      ∧ (∀ g : generator, g.reg = some reg → serviceNamed E service →
          g.generateProtobufClient E file service
            = Except.ok (g.emit
                (serviceDocText (clientName E service) (reg.ServiceComments file service)
                  ++ (factoryLine E service ++ str "\n")
                  ++ (rpcLine E file service ++ str "\n")
                  ++ str "    return \x7b\n"
                  ++ (methodBlocks E reg file service).flatten
                  ++ str "    \x7d\n" ++ str "\x7d\n" ++ str "\n")))
      ∧ (∀ g : generator, g.reg = some reg' → serviceNamed E service →
          g.generateProtobufClient E file' (removeMethod service i)
            = Except.ok (g.emit
                (serviceDocText (clientName E service)
                    (reg'.ServiceComments file' (removeMethod service i))
                  ++ (factoryLine E service ++ str "\n")
                  ++ (rpcLine E file' (removeMethod service i) ++ str "\n")
                  ++ str "    return \x7b\n"
                  ++ (methodBlocks E reg' file' (removeMethod service i)).flatten
                  ++ str "    \x7d\n" ++ str "\x7d\n" ++ str "\n"))) := by
  refine ⟨?_, ?_, ?_, ?_, ?_, ?_⟩
  · have h1 : (methodBlocks E reg' file' (removeMethod service i)).length
        = (removeMethod service i).Method.length := by simp [methodBlocks]
    have h2 : (methodBlocks E reg file service).length = service.Method.length := by
      simp [methodBlocks]
    rw [h1, h2, removeMethod_length service i hi]
    omega
  · intro hlt
    exact methodBlocks_removeMethod E reg reg' file file' service i hlt hdoc
  · intro hlast k hk
    rw [methodBlocks_removeLast E reg reg' file file' service i hlast hdoc k (by omega),
      methodBlocks_getElem?]
    cases hm : service.Method[k]? with
    | none => rfl
    | some m =>
      simp only [Option.map_some']
      rw [if_neg (by omega), commaAt_inner _ k (by omega)]
  · intro hlast k hk hki
    have hm : service.Method[k]? = some service.Method[k] := List.getElem?_eq_getElem hk
    have hc : str ",\n" = str "," ++ str "\n" := by decide
    constructor
    · rw [methodBlocks_getElem?, hm, commaAt_inner _ k (by omega), hc]
      simp only [Option.map_some', stubEntry_comma, List.append_assoc]
    · rw [methodBlocks_removeLast E reg reg' file file' service i hlast hdoc k (by omega), hm,
        if_pos hki]
      rfl
  · intro g hreg hnamed
    exact generateProtobufClient_blocks E g reg file service hreg hnamed
  · intro g hreg hnamed
    have hnamed' : serviceNamed E (removeMethod service i) := by
      intro m hm
      exact hnamed m (List.mem_of_mem_eraseIdx hm)
    exact generateProtobufClient_blocks E g reg' file' (removeMethod service i) hreg hnamed'

/-- C14, example: in the service with two methods whose fields are equal, of
which the comment index documents the second only, removing the first leaves
the comment block and the entry line of the second as they were. -/
theorem C14_witness :
    methodBlocks exampleDeps twinRegistry exampleFile (removeMethod twinService 0)
        = (methodBlocks exampleDeps twinRegistry exampleFile twinService).eraseIdx 0
      ∧ (methodBlocks exampleDeps twinRegistry exampleFile twinService).eraseIdx 0
        = [str "        /**\n         * second\n         */\n        sayHello: function(data) \x7b return rpc(\"SayHello\", data, pb.HelloResp); \x7d\n"] := by
  refine ⟨(C14_locality_of_method_removal exampleDeps twinRegistry twinRegistry exampleFile
    exampleFile twinService 0 (by decide) (fun _ _ => rfl)).2.1 (by decide), ?_⟩
  set_option maxRecDepth 100000 in decide

/-- C15: the factory line of a service is exactly `module.exports.create`, the
camel-cased service name and `Client = function(baseurl, extraHeaders,
useJSON) {`: the export key is `create` followed by the client type name,
which is the camel-cased service name followed by `Client`, and the three
parameters are, in this order, `baseurl`, `extraHeaders` and `useJSON`.
`generateProtobufClient` emits it as a line right after the documentation
block, before it looks at any method, and the generated block holds it when
no method has an empty camel-cased name. -/
theorem C15_factory_line (E : Deps) (service : ServiceDescriptorProto) :
    clientName E service = E.CamelCase service.GetName ++ str "Client"
      ∧ factoryLine E service
          = str "module.exports.create" ++ E.CamelCase service.GetName
            ++ str "Client = function(baseurl, extraHeaders, useJSON) \x7b"
      ∧ factoryLine E service
          = str "module.exports." ++ (str "create" ++ clientName E service)
            ++ str " = function(" ++ str "baseurl" ++ str ", " ++ str "extraHeaders"
            ++ str ", " ++ str "useJSON" ++ str ") \x7b"
      ∧ (∀ (g : generator) (reg : Registry) (file : FileDescriptorProto), g.reg = some reg →
          g.generateProtobufClient E file service
            = Except.map (fun g2 => g2.emit (str "    \x7d\n" ++ str "\x7d\n" ++ str "\n"))
                (generator.methodLoop E file service (service.Method.length : Int) 0
                  service.Method
                  (g.emit
                    (serviceDocText (clientName E service) (reg.ServiceComments file service)
                      ++ (factoryLine E service ++ str "\n")
                      ++ (rpcLine E file service ++ str "\n")
                      ++ str "    return \x7b\n"))))
      ∧ (∀ (g : generator) (reg : Registry) (file : FileDescriptorProto), g.reg = some reg →
          serviceNamed E service →
          g.generateProtobufClient E file service
            = Except.ok (g.emit
                (serviceDocText (clientName E service) (reg.ServiceComments file service)
                  ++ (factoryLine E service ++ str "\n")
                  ++ (rpcLine E file service ++ str "\n")
                  ++ str "    return \x7b\n"
                  ++ (methodBlocks E reg file service).flatten
                  ++ str "    \x7d\n" ++ str "\x7d\n" ++ str "\n"))) := by
  refine ⟨rfl, ?_, ?_, ?_, ?_⟩
  · unfold factoryLine clientName serviceName
    have h : str "Client = function(baseurl, extraHeaders, useJSON) \x7b"
        = str "Client" ++ str " = function(baseurl, extraHeaders, useJSON) \x7b" := by decide
    rw [h]
    simp only [List.append_assoc]
  · unfold factoryLine
    have h1 : str "module.exports.create" = str "module.exports." ++ str "create" := by decide
    have h2 : str " = function(baseurl, extraHeaders, useJSON) \x7b"
        = str " = function(" ++ str "baseurl" ++ str ", " ++ str "extraHeaders"
          ++ str ", " ++ str "useJSON" ++ str ") \x7b" := by decide
    rw [h1, h2]
    simp only [List.append_assoc]
  · intro g reg file hreg
    exact generateProtobufClient_head E g reg file service hreg
  · intro g reg file hreg hnamed
    exact generateProtobufClient_blocks E g reg file service hreg hnamed

/-- C15, example: the factory line of the service `Echo`. -/
theorem C15_witness :
    factoryLine exampleDeps echoService
      = str "module.exports.createEchoClient = function(baseurl, extraHeaders, useJSON) \x7b" := by
  rw [(C15_factory_line exampleDeps echoService).2.1]
  decide

/-- C16, counterexample: the line constructing the client of the service
`Echo` in the package `example`.  Its five arguments are `baseurl`, the two
quoted strings, `useJSON` and the extra-headers expression; the fourth is the
bare identifier `useJSON`, with no test for `undefined` and no default,
whereas the fifth carries its default `{}`. -/
theorem C16_counterexample :
    rpcLine exampleDeps exampleFile echoService
        = str "    var rpc = createClient(" ++ (str ",").intercalate
            [str "baseurl", str " \"example.Echo\"", str " \"v0.1\"", str "  useJSON",
              str " extraHeaders === undefined ? \x7b\x7d : extraHeaders"]
          ++ str ");"
      ∧ ¬ str "undefined" <:+: str "  useJSON"
      ∧ ¬ str "?" <:+: str "  useJSON"
      ∧ str "undefined ? \x7b\x7d" <:+: str " extraHeaders === undefined ? \x7b\x7d : extraHeaders" := by
  refine ⟨?_, ?_, ?_, ?_⟩ <;> set_option maxRecDepth 100000 in decide

/-- C16, amended: the line constructing the client passes five arguments in
this order: `baseurl`, the quoted fully-qualified wire name of the service,
the quoted generator version, the encoding-mode flag and the extra-headers
mapping.  The extra-headers mapping is emitted with an explicit default, the
empty mapping, for the undefined case: `extraHeaders === undefined ? {} :
extraHeaders`.  The encoding-mode flag is emitted as the bare identifier
`useJSON`: no default is emitted for it, an undefined flag is handed to the
client library as it is.  `generateProtobufClient` emits the line right after
the factory line, before it looks at any method. -/
theorem C16_client_construction_line (E : Deps) (file : FileDescriptorProto)
    (service : ServiceDescriptorProto) :
    rpcLine E file service
        = str "    var rpc = createClient(" ++ (str ",").intercalate
            [str "baseurl",
              str " " ++ Quote E.printTable (fullServiceName E file service),
              str " " ++ Quote E.printTable E.Version,
              str "  " ++ str "useJSON",
              str " " ++ str "extraHeaders === undefined ? \x7b\x7d : extraHeaders"]
          ++ str ");"
      ∧ (∀ (g : generator) (reg : Registry), g.reg = some reg →
          g.generateProtobufClient E file service
            = Except.map (fun g2 => g2.emit (str "    \x7d\n" ++ str "\x7d\n" ++ str "\n"))
                (generator.methodLoop E file service (service.Method.length : Int) 0
                  service.Method
                  (g.emit
                    (serviceDocText (clientName E service) (reg.ServiceComments file service)
                      ++ (factoryLine E service ++ str "\n")
                      ++ (rpcLine E file service ++ str "\n")
                      ++ str "    return \x7b\n"))))
      ∧ (∀ (g : generator) (reg : Registry), g.reg = some reg → serviceNamed E service →
          g.generateProtobufClient E file service
            = Except.ok (g.emit
                (serviceDocText (clientName E service) (reg.ServiceComments file service)
                  ++ (factoryLine E service ++ str "\n")
                  ++ (rpcLine E file service ++ str "\n")
                  ++ str "    return \x7b\n"
                  ++ (methodBlocks E reg file service).flatten
                  ++ str "    \x7d\n" ++ str "\x7d\n" ++ str "\n"))) := by
  refine ⟨?_, ?_, ?_⟩
  · unfold rpcLine
    have h1 : str "    var rpc = createClient(baseurl, "
        = str "    var rpc = createClient(" ++ str "baseurl" ++ str "," ++ str " " := by decide
    have h2 : str ", " = str "," ++ str " " := by decide
    have h3 : str ",  useJSON, extraHeaders === undefined ? \x7b\x7d : extraHeaders);"
        = str "," ++ (str "  " ++ str "useJSON") ++ str ","
          ++ (str " " ++ str "extraHeaders === undefined ? \x7b\x7d : extraHeaders")
          ++ str ");" := by decide
    rw [h1, h2, h3]
    simp [List.intercalate, List.intersperse, List.append_assoc]
  · intro g reg hreg
    exact generateProtobufClient_head E g reg file service hreg
  · intro g reg hreg hnamed
    exact generateProtobufClient_blocks E g reg file service hreg hnamed

/-- C16, example: the line constructing the client of the service `Echo` in
the package `example`. -/
theorem C16_witness :
    rpcLine exampleDeps exampleFile echoService
      = str "    var rpc = createClient(baseurl, \"example.Echo\", \"v0.1\",  useJSON, extraHeaders === undefined ? \x7b\x7d : extraHeaders);" := by
  rw [(C16_client_construction_line exampleDeps exampleFile echoService).1]
  set_option maxRecDepth 100000 in decide

/-- C17, counterexample: three target files that declare zero services.  For
the file without a path, `generateFile` dereferences the path at line 169
before it emits anything, panics, and returns no artifact.  For the file whose
path is `a`, a newline and `module.exports.createX`, line 59 writes the path as
it is, and the content of the artifact holds the line
`module.exports.createX`, which starts with `module.exports.create`; the same
happens through line 58 for a version string with a newline. -/
theorem C17_counterexample :
    pathlessFile.Service = []
      ∧ newGenerator.generateFile exampleDeps pathlessFile = Except.error Panic.nilDereference
      ∧ exampleGenerator.generateFile exampleDeps pathlessFile
          = Except.error Panic.nilDereference
      ∧ newlinePathFile.Service = []
      ∧ (newGenerator.generateFile exampleDeps newlinePathFile).toOption.map
            (fun r => r.1.map (fun a => a.Content))
          = some (some (some (str "/**\n * Code generated by protoc-gen-twirp_js v0.1, DO NOT EDIT.\n * source: a\nmodule.exports.createX\n */\n// import our twirp js library dependency\nvar createClient = require(\"twirp\");\n// import our protobuf definitions\nvar pb = require(\"./a\\nmodule.exports.createX_pb.js\");\nObject.assign(module.exports, pb);\n\n")))
      ∧ str "module.exports.createX"
          ∈ Split (str "/**\n * Code generated by protoc-gen-twirp_js v0.1, DO NOT EDIT.\n * source: a\nmodule.exports.createX\n */\n// import our twirp js library dependency\nvar createClient = require(\"twirp\");\n// import our protobuf definitions\nvar pb = require(\"./a\\nmodule.exports.createX_pb.js\");\nObject.assign(module.exports, pb);\n\n") 10
      ∧ str "module.exports.create" <+: str "module.exports.createX"
      ∧ headerOnlyFile.Service = []
      ∧ (newGenerator.generateFile newlineVersionDeps headerOnlyFile).toOption.map
            (fun r => r.1.map (fun a => a.Content))
          = some (some (some (str "/**\n * Code generated by protoc-gen-twirp_js v\nmodule.exports.createX, DO NOT EDIT.\n * source: empty.proto\n */\n// import our twirp js library dependency\nvar createClient = require(\"twirp\");\n// import our protobuf definitions\nvar pb = require(\"./empty_pb.js\");\nObject.assign(module.exports, pb);\n\n")))
      ∧ str "module.exports.createX, DO NOT EDIT."
          ∈ Split (str "/**\n * Code generated by protoc-gen-twirp_js v\nmodule.exports.createX, DO NOT EDIT.\n * source: empty.proto\n */\n// import our twirp js library dependency\nvar createClient = require(\"twirp\");\n// import our protobuf definitions\nvar pb = require(\"./empty_pb.js\");\nObject.assign(module.exports, pb);\n\n") 10
      ∧ str "module.exports.create" <+: str "module.exports.createX, DO NOT EDIT." := by
  refine ⟨rfl, generateFile_noName exampleDeps _ pathlessFile rfl,
    generateFile_noName exampleDeps _ pathlessFile rfl, rfl, ?_, ?_, ?_, rfl, ?_, ?_, ?_⟩ <;>
    set_option maxRecDepth 100000 in decide

/-- C17, amended: for every target file that has a path `p` and declares zero
services, `generateFile` returns an artifact, named by the naming rule, and
resets the accumulator; the content is what the accumulator held followed by
exactly the ten lines of the header and import preamble: the four lines of the
header comment with the generator version and the path, the two commented
`require` lines, the line `Object.assign(module.exports, pb);` and one blank
line.  There is no service block: none of the lines starts with
`module.exports.create`; and when the accumulator was empty and neither the
version nor the path holds a newline, the content split at its newlines is
these ten lines, none of them a `module.exports.create` line. -/
theorem C17_file_without_services (E : Deps) (g : generator) (file : FileDescriptorProto)
    (p : GoString) (hp : file.Name = some p) (hs : file.Service = []) :
    g.generateFile E file
        = Except.ok
            (some { Name := some (specArtifactName p),
                    Content := some (g.output
                      ++ ((preambleLines E file (stripExtension p ++ str "_pb")).map
                            (fun l => l ++ str "\n")).flatten) },
              { reg := g.reg, output := [] })
      ∧ preambleLines E file (stripExtension p ++ str "_pb")
          = [str "/**",
             str " * Code generated by protoc-gen-twirp_js " ++ E.Version ++ str ", DO NOT EDIT.",
             str " * source: " ++ p,
             str " */",
             str "// import our twirp js library dependency",
             str "var createClient = require(\"twirp\");",
             str "// import our protobuf definitions",
             str "var pb = require("
               ++ Quote E.printTable
                    (str "./" ++ FindString (stripExtension p ++ str "_pb") ++ str ".js")
               ++ str ");",
             str "Object.assign(module.exports, pb);",
             str ""]
      ∧ (∀ l ∈ preambleLines E file (stripExtension p ++ str "_pb"),
          ¬ str "module.exports.create" <+: l)
      ∧ (g.output = [] → 10 ∉ E.Version → 10 ∉ p →
          ∃ content,
            g.generateFile E file
                = Except.ok
                    (some { Name := some (specArtifactName p), Content := some content },
                      { reg := g.reg, output := [] })
              ∧ Split content 10
                  = preambleLines E file (stripExtension p ++ str "_pb") ++ [str ""]
              ∧ ∀ l ∈ Split content 10, ¬ str "module.exports.create" <+: l) := by
  have hgen : g.generateFile E file
      = Except.ok
          (some { Name := some (specArtifactName p),
                  Content := some (g.output
                    ++ ((preambleLines E file (stripExtension p ++ str "_pb")).map
                          (fun l => l ++ str "\n")).flatten) },
            { reg := g.reg, output := [] }) := by
    rw [generateFile_eq E g file p hp, hs, preambleText_lines]
    rfl
  refine ⟨hgen, ?_, preambleLines_no_factory E file _, ?_⟩
  · unfold preambleLines
    rw [GetName_some file p hp]
  · intro hout hv hn
    refine ⟨_, hgen, ?_⟩
    have hsplit : Split (g.output
          ++ ((preambleLines E file (stripExtension p ++ str "_pb")).map
                (fun l => l ++ str "\n")).flatten) 10
        = preambleLines E file (stripExtension p ++ str "_pb") ++ [str ""] := by
      rw [hout, List.nil_append, str_newline, str_empty]
      exact Split_lines _
        (preambleLines_no_newline E file _ hv (by rw [GetName_some file p hp]; exact hn))
    refine ⟨hsplit, ?_⟩
    intro l hl
    rw [hsplit] at hl
    rcases List.mem_append.1 hl with h | h
    · exact preambleLines_no_factory E file _ l h
    · rw [List.mem_singleton] at h
      subst h
      decide

/-- C17, example: the artifact of the file `empty.proto`, which declares no
service, generated with the dependencies of the examples. -/
theorem C17_witness :
    newGenerator.generateFile exampleDeps headerOnlyFile
      = Except.ok
          (some { Name := some (str "empty_pb_twirp.js"),
                  Content := some (str "/**\n * Code generated by protoc-gen-twirp_js v0.1, DO NOT EDIT.\n * source: empty.proto\n */\n// import our twirp js library dependency\nvar createClient = require(\"twirp\");\n// import our protobuf definitions\nvar pb = require(\"./empty_pb.js\");\nObject.assign(module.exports, pb);\n\n") },
            newGenerator) := by
  have hname : specArtifactName (str "empty.proto") = str "empty_pb_twirp.js" := by decide
  have hcontent : newGenerator.output
        ++ ((preambleLines exampleDeps headerOnlyFile
              (stripExtension (str "empty.proto") ++ str "_pb")).map
            (fun l => l ++ str "\n")).flatten
      = str "/**\n * Code generated by protoc-gen-twirp_js v0.1, DO NOT EDIT.\n * source: empty.proto\n */\n// import our twirp js library dependency\nvar createClient = require(\"twirp\");\n// import our protobuf definitions\nvar pb = require(\"./empty_pb.js\");\nObject.assign(module.exports, pb);\n\n" := by
    set_option maxRecDepth 100000 in decide
  rw [(C17_file_without_services exampleDeps newGenerator headerOnlyFile (str "empty.proto")
    rfl rfl).1, hname, hcontent]
  rfl

/-- C18, counterexample: the method whose name is the letter U+00C9 (bytes
`C3 89`) followed by `a`, its own camel-cased name under the dependencies of
the examples.  In its entry the wire literal is the name, `"` `C3 89 61` `"`,
and the stub key is `EF BF BD 89 61`: line 96 lower-cases the lone byte `C3`,
which comes back as the encoding of U+FFFD, and the byte `89` stays.  The key
is neither the name nor the name with its first character lower-cased
(`C3 A9 61`), nor the name with any other character in the place of the
first. -/
theorem C18_counterexample :
    methodName exampleDeps accentedMethod = [195, 137, 97]
      ∧ exampleGenerator.generateMethod exampleDeps exampleFile echoService 1 0 accentedMethod
          = Except.ok (exampleGenerator.emit
              (str "        " ++ [239, 191, 189, 137, 97]
                ++ str ": function(data) \x7b return rpc(" ++ ([34] ++ [195, 137, 97] ++ [34])
                ++ str ", data, pb.HelloResp); \x7d\n"))
      ∧ specStubName exampleDeps [195, 137, 97] = [195, 169, 97]
      ∧ ([239, 191, 189, 137, 97] : GoString) ≠ [195, 137, 97]
      ∧ ([239, 191, 189, 137, 97] : GoString) ≠ specStubName exampleDeps [195, 137, 97]
      ∧ (∀ r : Nat, ([239, 191, 189, 137, 97] : GoString) ≠ encodeRune r ++ [97]) := by
  refine ⟨by decide, ?_, by decide, by decide, by decide, ?_⟩
  · rw [generateMethod_ok exampleDeps exampleGenerator emptyRegistry exampleFile echoService 1 0
      accentedMethod rfl (by decide)]
    have h : methodText exampleDeps emptyRegistry exampleFile echoService 1 0 accentedMethod
        = str "        " ++ [239, 191, 189, 137, 97]
          ++ str ": function(data) \x7b return rpc(" ++ ([34] ++ [195, 137, 97] ++ [34])
          ++ str ", data, pb.HelloResp); \x7d\n" := by
      set_option maxRecDepth 100000 in decide
    rw [h]
  · intro r h
    have h2 : encodeRune r = [239, 191, 189, 137] := by
      have h3 := congrArg List.dropLast h
      simp only [List.dropLast_concat] at h3
      rw [← h3]
      rfl
    exact encodeRune_ne_replacement_tail r h2

/-- C18, amended: for every method whose camel-cased name is non-empty, the
first argument of the emitted `rpc(...)` call is the quoted literal of the
camel-cased name, which is not stub-cased; the literal is the name between
double quotes when the name is made of characters that quoting leaves
unescaped.  The stub key and the literal are derived from the same camel-cased
name; the key keeps every byte of the name after the first, and when the name
begins with an ASCII byte the two differ at most in the case of that first
character.  For a method whose declared name the camel-casing leaves
unchanged, the literal is the quoted declared name. -/
theorem C18_wire_name_literal (E : Deps) (method : MethodDescriptorProto) :
    (∀ (g : generator) (reg : Registry) (file : FileDescriptorProto)
          (service : ServiceDescriptorProto) (l i : Int),
        g.reg = some reg → methodName E method ≠ [] →
        g.generateMethod E file service l i method
          = Except.ok (g.emit (methodDocText (reg.MethodComments file service method)
              ++ (str "        " ++ stubName E (methodName E method)
                  ++ str ": function(data) \x7b return rpc("
                  ++ Quote E.printTable (methodName E method) ++ str ", data, pb."
                  ++ lastSegment method.GetOutputType ++ str "); \x7d" ++ commaAt l i
                  ++ str "\n"))))
      ∧ (unescapedText E.printTable (methodName E method) →
          Quote E.printTable (methodName E method)
            = str "\"" ++ methodName E method ++ str "\"")
      ∧ (∀ (b : Nat) (t : GoString), methodName E method = b :: t →
          jsMethodName E (methodName E method) = Except.ok (stubName E (methodName E method))
            ∧ ∃ first, stubName E (methodName E method) = first ++ t)
      ∧ (∀ (b : Nat) (t : GoString), methodName E method = b :: t → b < 0x80 →
          stubName E (methodName E method) = lowerByte b :: t
            ∧ (lowerByte b = b ∨ (65 ≤ b ∧ b ≤ 90 ∧ lowerByte b = b + 32)))
      ∧ (E.CamelCase method.GetName = method.GetName →
          methodName E method = method.GetName
            ∧ Quote E.printTable (methodName E method) = Quote E.printTable method.GetName) := by
  refine ⟨?_, ?_, ?_, ?_, ?_⟩
  · intro g reg file service l i hreg hname
    rw [generateMethod_ok E g reg file service l i method hreg hname, str_newline]
    unfold methodText stubEntry
    rfl
  · intro hu
    rw [Quote_unescaped E.printTable _ hu]
    rfl
  · intro b t hbt
    refine ⟨jsMethodName_ok E _ (by rw [hbt]; simp), ?_⟩
    rw [hbt]
    exact ⟨ToLower E.lowerTable [b], by simp [stubName]⟩
  · intro b t hbt hb
    rw [hbt]
    refine ⟨stubName_ascii E b t hb, ?_⟩
    unfold lowerByte
    by_cases h : 65 ≤ b ∧ b ≤ 90
    · rw [if_pos h]
      exact Or.inr ⟨h.1, h.2, rfl⟩
    · rw [if_neg h]
      exact Or.inl rfl
  · intro h
    have h2 : methodName E method = method.GetName := h
    exact ⟨h2, by rw [h2]⟩

/-- C18, example: the entry of the method `SayHello`; the key is `sayHello`
and the literal is the declared name `"SayHello"`. -/
theorem C18_witness :
    exampleGenerator.generateMethod exampleDeps exampleFile echoService 1 0 sayHello
      = Except.ok (exampleGenerator.emit
          (str "        sayHello: function(data) \x7b return rpc(\"SayHello\", data, pb.HelloResp); \x7d\n")) := by
  rw [(C18_wire_name_literal exampleDeps sayHello).1 exampleGenerator emptyRegistry exampleFile
    echoService 1 0 rfl (by decide)]
  have h : methodDocText (emptyRegistry.MethodComments exampleFile echoService sayHello)
        ++ (str "        " ++ stubName exampleDeps (methodName exampleDeps sayHello)
            ++ str ": function(data) \x7b return rpc("
            ++ Quote exampleDeps.printTable (methodName exampleDeps sayHello)
            ++ str ", data, pb."
            ++ lastSegment sayHello.GetOutputType ++ str "); \x7d" ++ commaAt 1 0
            ++ str "\n")
      = str "        sayHello: function(data) \x7b return rpc(\"SayHello\", data, pb.HelloResp); \x7d\n" := by
    set_option maxRecDepth 100000 in decide
  rw [h]

/-- C20: `methodTypesNames` never fails, for it indexes the last piece of a
split that always has at least one piece, also for an empty or absent type;
for a service all of whose methods have a non-empty camel-cased name
`generateProtobufClient` raises no slice or index failure and, with the
comment index set, completes.  The only out-of-range failure is the slice
`methName[0:1]`, out of range exactly for the empty name (the slice
`methName[1:]` after it is in range for every non-empty name): with the
comment index set, `generateProtobufClient` fails with it exactly when some
method has an empty camel-cased name, and it never fails with an index out of
range. -/
theorem C20_no_out_of_range_failure (E : Deps) (g : generator) (file : FileDescriptorProto)
    (service : ServiceDescriptorProto) :
    (∀ m : MethodDescriptorProto,
        methodTypesNames m
          = Except.ok (lastSegment m.GetInputType, lastSegment m.GetOutputType))
      ∧ (∀ t : GoString, Split t 46 ≠ [] ∧ 1 ≤ (Split t 46).length)
      ∧ Split (str "") 46 = [str ""]
      ∧ (∀ c : GoString, goSlice c 0 1 = Except.error Panic.sliceBounds ↔ c = [])
      ∧ (∀ c : GoString, c ≠ [] →
          goSlice c 0 1 = Except.ok (c.take 1) ∧ goSlice c 1 (c.length : Int) = Except.ok (c.drop 1))
      ∧ (serviceNamed E service →
          g.generateProtobufClient E file service ≠ Except.error Panic.sliceBounds
            ∧ g.generateProtobufClient E file service ≠ Except.error Panic.indexRange)
      ∧ (serviceNamed E service → g.reg ≠ none →
          ∃ g', g.generateProtobufClient E file service = Except.ok g')
      ∧ (g.reg ≠ none →
          ((∃ m ∈ service.Method, methodName E m = [])
            ↔ g.generateProtobufClient E file service = Except.error Panic.sliceBounds))
      ∧ g.generateProtobufClient E file service ≠ Except.error Panic.indexRange := by
  have hcases : ∀ reg, g.reg = some reg →
      (serviceNamed E service ∧ ∃ g', g.generateProtobufClient E file service = Except.ok g')
        ∨ ((∃ m ∈ service.Method, methodName E m = [])
            ∧ g.generateProtobufClient E file service = Except.error Panic.sliceBounds) := by
    intro reg hreg
    by_cases hn : serviceNamed E service
    · exact Or.inl ⟨hn, _, generateProtobufClient_ok E g reg file service hreg hn⟩
    · have hex : ∃ m ∈ service.Method, methodName E m = [] := by
        unfold serviceNamed at hn
        push_neg at hn
        exact hn
      exact Or.inr ⟨hex, generateProtobufClient_empty E g reg file service hreg hex⟩
  have hidx : g.generateProtobufClient E file service ≠ Except.error Panic.indexRange := by
    cases hreg : g.reg with
    | none =>
      rw [generateProtobufClient_nilreg E g file service hreg]
      simp
    | some reg =>
      rcases hcases reg hreg with ⟨_, g', h⟩ | ⟨_, h⟩ <;> rw [h] <;> simp
  refine ⟨methodTypesNames_ok, ?_, by decide, goSlice_first, ?_, ?_, ?_, ?_, hidx⟩
  · intro t
    have h := Split_ne_nil t 46
    exact ⟨h, List.length_pos.2 h⟩
  · intro c hc
    refine ⟨?_, goSlice_rest c hc⟩
    unfold goSlice
    have hpos : 0 < c.length := List.length_pos.2 hc
    have hcond : (0 : Int) ≤ 0 ∧ (0 : Int) ≤ 1 ∧ (1 : Int) ≤ (c.length : Int) := by omega
    rw [if_pos hcond]
    simp
  · intro hn
    refine ⟨?_, hidx⟩
    cases hreg : g.reg with
    | none =>
      rw [generateProtobufClient_nilreg E g file service hreg]
      simp
    | some reg =>
      rw [generateProtobufClient_ok E g reg file service hreg hn]
      simp
  · intro hn hreg
    obtain ⟨reg, hr⟩ := Option.ne_none_iff_exists'.1 hreg
    exact ⟨_, generateProtobufClient_ok E g reg file service hr hn⟩
  · intro hreg
    obtain ⟨reg, hr⟩ := Option.ne_none_iff_exists'.1 hreg
    constructor
    · intro hex
      exact generateProtobufClient_empty E g reg file service hr hex
    · intro herr
      rcases hcases reg hr with ⟨_, g', h⟩ | ⟨hex, _⟩
      · rw [h] at herr
        exact absurd herr (by simp)
      · exact hex

/-- C20, example: a service whose method has no input type and the empty
output type; its block is generated, the short name after `pb.` being empty. -/
theorem C20_witness :
    methodTypesNames untypedMethod = Except.ok ([], [])
      ∧ ∃ g', exampleGenerator.generateProtobufClient exampleDeps exampleFile untypedService
          = Except.ok g' := by
  have h := C20_no_out_of_range_failure exampleDeps exampleGenerator exampleFile untypedService
  refine ⟨by rw [h.1]; decide, ?_⟩
  exact h.2.2.2.2.2.2.1 (by unfold serviceNamed; decide) (by simp [exampleGenerator])

end TwirpJS
